import Mathlib

/-!
Expression parser of `package php` (`expression.go`).

A shallow embedding of the recursive-descent expression parser:
`parseExpression`, `parseOperation`, `parseAssignmentOperation`,
`parseOperand`, `parseLiteral`, `parseVariable`, `parseInclude`,
`parseIgnoreError` and `parseNew`, together with the precedence table
`operatorPrecedence`.

The parser is a Go struct mutated in place; here it is a value of type
`parser` that every function takes and returns.  Recursion is bounded by a
fuel argument: `none` means the fuel ran out, `some (expr, p)` is the
returned expression together with the parser state on return.

The sub-parsers that `expression.go` calls but does not define are the
fields of `SubParsers`; each receives the three recursive entry points it
may call back (`Callbacks`).
-/

namespace Php

/-! ## Tokens -/

/-- The token kinds named in `expression.go` (package `token`), `EOF`, and
`other n` for every kind of the enumeration the file does not name. -/
inductive Token where
  | ArrayLookupOperatorLeft
  | UnaryOperator
  | BitwiseNotOperator
  | CastOperator
  | InstanceofOperator
  | NegationOperator
  | MultOperator
  | AdditionOperator
  | SubtractionOperator
  | ConcatenationOperator
  | BitwiseShiftOperator
  | ComparisonOperator
  | EqualityOperator
  | AmpersandOperator
  | BitwiseXorOperator
  | BitwiseOrOperator
  | AndOperator
  | OrOperator
  | TernaryOperator1
  | TernaryOperator2
  | AssignmentOperator
  | WrittenAndOperator
  | WrittenXorOperator
  | WrittenOrOperator
  | IgnoreErrorOperator
  | Function
  | NewOperator
  | List
  | VariableOperator
  | Array
  | Identifier
  | StringLiteral
  | NumberLiteral
  | BooleanLiteral
  | Null
  | Self
  | Static
  | Parent
  | ShellCommand
  | Include
  | OpenParen
  | CloseParen
  | BlockBegin
  | ScopeResolutionOperator
  | ObjectOperator
  | Comma
  | EOF
  | other (n : Nat)
  deriving DecidableEq, Repr

/-- A lexed token: its kind `typ` and its raw text `val`. -/
structure Item where
  typ : Token
  val : String
  deriving DecidableEq, Repr

/-- The token the cursor delivers once the stream is exhausted. -/
def eofItem : Item := ⟨Token.EOF, ""⟩

/-- The table `operatorPrecedence` (a Go map: `none` is a missing key). -/
def operatorPrecedence : Token → Option Nat
  | .ArrayLookupOperatorLeft => some 19
  | .UnaryOperator => some 18
  | .BitwiseNotOperator => some 18
  | .CastOperator => some 18
  | .InstanceofOperator => some 17
  | .NegationOperator => some 16
  | .MultOperator => some 15
  | .AdditionOperator => some 14
  | .SubtractionOperator => some 14
  | .ConcatenationOperator => some 14
  | .BitwiseShiftOperator => some 13
  | .ComparisonOperator => some 12
  | .EqualityOperator => some 11
  | .AmpersandOperator => some 10
  | .BitwiseXorOperator => some 9
  | .BitwiseOrOperator => some 8
  | .AndOperator => some 7
  | .OrOperator => some 6
  | .TernaryOperator1 => some 5
  | .TernaryOperator2 => some 5
  | .AssignmentOperator => some 4
  | .WrittenAndOperator => some 3
  | .WrittenXorOperator => some 2
  | .WrittenOrOperator => some 1
  | _ => none

/-! ## Syntax trees -/

/-- The `Type` field of `ast.Literal`. -/
inductive LiteralType where
  | String
  | Boolean
  | Float
  | Null
  deriving DecidableEq, Repr

/-- Modelled from the spec: the package `ast` is not part of the file; the
variants are those of the data model (section 3).  `nil` is Go's nil
interface value, which an `ast.Expression` variable holds before it is
assigned. `preceding` of a unary expression is `true` for a prefix operator
and `false` for a postfix one. -/
inductive Expr where
  | nil
  | Identifier (value : String)
  | Literal (type : LiteralType) (value : String)
  | Variable (name : String)
  | ConstantExpression (var : Expr)
  | ArrayDeclaration (elements : List (Expr × Expr))
  | ArrayLookup (receiver index : Expr)
  | ObjectLookup (receiver member : Expr)
  | ClassExpression (receiver member : Expr)
  | FunctionCall (callee : Expr) (arguments : List Expr)
  | UnaryExpression (operator : String) (operand : Expr) (preceding : Bool)
  | BinaryOperation (left : Expr) (operator : String) (right : Expr)
  | TernaryOperation (condition ifTrue ifFalse : Expr)
  | AssignmentExpression (assignee : Expr) (operator : String) (value : Expr)
  | Include (expressions : List Expr)
  | ShellCommand (command : String)
  | Instantiation (cls : Expr) (arguments : List Expr)
  | AnonymousFunction (body : List Expr)
  | List (targets : List Expr)

/-- Modelled from the spec: `ast.NewVariable`, the variable of a given name. -/
def NewVariable (name : String) : Expr := Expr.Variable name

/-- Modelled from the spec: `ast.NewClassExpression`, scope resolution on a
class named by an identifier. -/
def NewClassExpression (receiver : String) (member : Expr) : Expr :=
  Expr.ClassExpression (Expr.Identifier receiver) member

/-- Modelled from the spec: the interface `ast.Assignable` is declared
outside the file; section 3 lists the variants that have the capability:
`Variable`, `ArrayLookup`, `ObjectLookup`, `ClassExpression` and `List`. -/
def Assignable : Expr → Bool
  | .Variable _ => true
  | .ArrayLookup _ _ => true
  | .ObjectLookup _ _ => true
  | .ClassExpression _ _ => true
  | .List _ => true
  | _ => false

/-! ## Parser state and cursor -/

/-- The errors `errorf` records, one constructor per format string of the
file, `expected` for the check made by `expect` and `expectCurrent`, and
`other` for messages of the sub-parsers outside the file. -/
inductive ParseError where
  | expectedExpression (found : Item)
  | unbalancedParens (parenLevel prev : Int)
  | notAssignable (lhs : Expr)
  | unknownLiteralType
  | expected (found : Item) (wanted : List Token)
  | other (msg : String)

/-- The parser: the token stream with the index of the current token, the
paren counter and the errors recorded so far. -/
structure parser where
  toks : List Item
  idx : Nat
  parenLevel : Int
  errors : List ParseError

namespace parser

/-- The field `p.current`: the token under the cursor. -/
def current (p : parser) : Item := p.toks.getD p.idx eofItem

/-- Modelled from the spec: `p.next()` advances the cursor by one token. -/
def next (p : parser) : parser := { p with idx := p.idx + 1 }

/-- Modelled from the spec: `p.backup()` undoes one advance. -/
def backup (p : parser) : parser := { p with idx := p.idx - 1 }

/-- Modelled from the spec: `p.peek()` is the token one advance away; the
cursor does not move. -/
def peek (p : parser) : Item := p.next.current

/-- Modelled from the spec: `p.errorf(...)` records an error; the caller goes
on with the statement after the call. -/
def errorf (p : parser) (e : ParseError) : parser :=
  { p with errors := p.errors ++ [e] }

/-- Modelled from the spec: `p.expectCurrent(kinds...)` records a "missing
expected token" error unless the current token has one of the kinds. -/
def expectCurrent (p : parser) (kinds : List Token) : parser :=
  if p.current.typ ∈ kinds then p else p.errorf (ParseError.expected p.current kinds)

/-- Modelled from the spec: `p.expect(kinds...)` advances and then requires
the current token to have one of the kinds. -/
def expect (p : parser) (kinds : List Token) : parser :=
  p.next.expectCurrent kinds

end parser

/-- The result of a parsing function: `none` when the fuel ran out, else the
expression returned and the parser state on return. -/
abbrev Result := Option (Expr × parser)

/-- The families of `operationTypeForToken`; `nilOperation` is "no
operation". -/
inductive operationType where
  | nilOperation
  | unaryOperation
  | binaryOperation
  | ternaryOperation
  | assignmentOperation
  deriving DecidableEq, Repr

/-- The entry points of this file that a sub-parser outside it may call. -/
structure Callbacks where
  fuel : Nat
  parseExpression : parser → Result
  parseOperand : parser → Result
  parseOperation : Int → Expr → parser → Result

/-- The functions `expression.go` calls and does not define. -/
structure SubParsers where
  operationTypeForToken : Token → operationType
  isKeyword : Token → Bool
  newUnaryOperation : Item → Expr → Expr
  parseAnonymousFunction : Callbacks → parser → Result
  parseList : Callbacks → parser → Result
  parseInstantiation : Callbacks → parser → Result
  parseArrayDeclaration : Callbacks → parser → Result
  parseUnaryExpressionRight : Callbacks → Expr → Item → parser → Result
  parseUnaryExpressionLeft : Callbacks → Expr → Item → parser → Result
  parseBinaryOperation : Callbacks → Expr → Item → Int → parser → Result
  parseTernaryOperation : Callbacks → Expr → parser → Result
  parseArrayLookup : Callbacks → Expr → parser → Result
  parseObjectLookup : Callbacks → Expr → parser → Result
  parseFunctionCall : Callbacks → Expr → parser → Result

/-! ## The functions of `expression.go` -/

/-- The function `parseLiteral`. -/
def parseLiteral (p : parser) : Expr × parser :=
  match p.current.typ with
  | .StringLiteral => (Expr.Literal LiteralType.String p.current.val, p)
  | .BooleanLiteral => (Expr.Literal LiteralType.Boolean p.current.val, p)
  | .NumberLiteral => (Expr.Literal LiteralType.Float p.current.val, p)
  | .Null => (Expr.Literal LiteralType.Null p.current.val, p)
  | _ => (Expr.nil, p.errorf ParseError.unknownLiteralType)

/-- The postcondition check that ends `parseExpression`. -/
def checkParenLevel (originalParenLev : Int) (r : Expr × parser) : Expr × parser :=
  if r.2.parenLevel ≠ originalParenLev then
    (r.1, r.2.errorf (ParseError.unbalancedParens r.2.parenLevel originalParenLev))
  else r

mutual

/-- The function `parseExpression`. -/
def parseExpression (sub : SubParsers) : Nat → parser → Result
  | 0, _ => none
  | fuel + 1, p =>
    let originalParenLev := p.parenLevel
    let cb : Callbacks :=
      ⟨fuel, parseExpression sub fuel, parseOperand sub fuel, parseOperation sub fuel⟩
    let r : Result :=
      match p.current.typ with
      | .IgnoreErrorOperator => parseIgnoreError sub fuel p
      | .Function => sub.parseAnonymousFunction cb p
      | .NewOperator => parseNew sub fuel originalParenLev p
      | .List => sub.parseList cb p
      | .UnaryOperator | .NegationOperator | .AmpersandOperator
      | .CastOperator | .SubtractionOperator | .BitwiseNotOperator =>
        let op := p.current
        (parseNextExpression sub fuel p).bind fun r1 =>
          sub.parseUnaryExpressionRight cb r1.1 op r1.2
      | .VariableOperator | .Array | .Identifier | .StringLiteral
      | .NumberLiteral | .BooleanLiteral | .Null | .Self | .Static
      | .Parent | .ShellCommand =>
        (parseOperand sub fuel p).bind fun r1 =>
          parseOperation sub fuel originalParenLev r1.1 r1.2
      | .Include => parseInclude sub fuel p
      | .OpenParen =>
        let p1 := { p with parenLevel := p.parenLevel + 1 }
        let p2 := p1.next
        (parseExpression sub fuel p2).bind fun r1 =>
          let p3 := r1.2.expect [Token.CloseParen]
          let p4 := { p3 with parenLevel := p3.parenLevel - 1 }
          parseOperation sub fuel originalParenLev r1.1 p4
      | _ => some (Expr.nil, p.errorf (ParseError.expectedExpression p.current))
    r.map (checkParenLevel originalParenLev)

/-- Modelled from the spec: `parseNextExpression` is not in the file; the
right-hand side of an assignment "is parsed as a fresh recursive
expression", started on the token after the current one. -/
def parseNextExpression (sub : SubParsers) : Nat → parser → Result
  | 0, _ => none
  | fuel + 1, p => parseExpression sub fuel p.next

/-- The function `parseOperation`. -/
def parseOperation (sub : SubParsers) : Nat → Int → Expr → parser → Result
  | 0, _, _, _ => none
  | fuel + 1, originalParenLevel, lhs, p =>
    let cb : Callbacks :=
      ⟨fuel, parseExpression sub fuel, parseOperand sub fuel, parseOperation sub fuel⟩
    let p1 := p.next
    match sub.operationTypeForToken p1.current.typ with
    | .unaryOperation =>
      (sub.parseUnaryExpressionLeft cb lhs p1.current p1).bind fun r =>
        parseOperation sub fuel originalParenLevel r.1 r.2
    | .binaryOperation =>
      (sub.parseBinaryOperation cb lhs p1.current originalParenLevel p1).bind fun r =>
        parseOperation sub fuel originalParenLevel r.1 r.2
    | .ternaryOperation =>
      (sub.parseTernaryOperation cb lhs p1).bind fun r =>
        parseOperation sub fuel originalParenLevel r.1 r.2
    | .assignmentOperation =>
      (parseAssignmentOperation sub fuel lhs p1).bind fun r =>
        parseOperation sub fuel originalParenLevel r.1 r.2
    | .nilOperation => some (lhs, p1.backup)

/-- The function `parseAssignmentOperation`. -/
def parseAssignmentOperation (sub : SubParsers) : Nat → Expr → parser → Result
  | 0, _, _ => none
  | fuel + 1, lhs, p =>
    let ok := Assignable lhs
    let assignee := if ok then lhs else Expr.nil
    let p1 := if ok then p else p.errorf (ParseError.notAssignable lhs)
    let op := p1.current.val
    (parseNextExpression sub fuel p1).bind fun r =>
      some (Expr.AssignmentExpression assignee op r.1, r.2)

/-- The function `parseOperand`: the switch on the prefix operators, then the
loop. -/
def parseOperand (sub : SubParsers) : Nat → parser → Result
  | 0, _ => none
  | fuel + 1, p =>
    let cb : Callbacks :=
      ⟨fuel, parseExpression sub fuel, parseOperand sub fuel, parseOperation sub fuel⟩
    match p.current.typ with
    | .UnaryOperator | .NegationOperator | .CastOperator
    | .SubtractionOperator | .AmpersandOperator | .BitwiseNotOperator =>
      let op := p.current
      let p1 := p.next
      (parseOperand sub fuel p1).bind fun r =>
        sub.parseUnaryExpressionRight cb r.1 op r.2
    | _ => parseOperandLoop sub fuel Expr.nil p

/-- The `for` loop of `parseOperand`; `expr` is the operand accumulated so
far. -/
def parseOperandLoop (sub : SubParsers) : Nat → Expr → parser → Result
  | 0, _, _ => none
  | fuel + 1, expr, p =>
    let cb : Callbacks :=
      ⟨fuel, parseExpression sub fuel, parseOperand sub fuel, parseOperation sub fuel⟩
    match p.current.typ with
    | .ShellCommand => some (Expr.ShellCommand p.current.val, p)
    | .StringLiteral | .BooleanLiteral | .NumberLiteral | .Null =>
      some (parseLiteral p)
    | .UnaryOperator =>
      parseOperandLoop sub fuel (sub.newUnaryOperation p.current expr) p.next
    | .Array =>
      (sub.parseArrayDeclaration cb p).bind fun r =>
        parseOperandLoop sub fuel r.1 r.2.next
    | .VariableOperator =>
      (parseVariable sub fuel p).bind fun r =>
        let p1 := r.2.next
        match p1.current.typ with
        | .BlockBegin =>
          (sub.parseArrayLookup cb r.1 p1).bind fun r1 =>
            parseOperandLoop sub fuel r1.1 r1.2.next
        | .ScopeResolutionOperator =>
          (parseNextExpression sub fuel p1).bind fun r1 =>
            parseOperandLoop sub fuel (Expr.ClassExpression r.1 r1.1) r1.2.next
        | _ => parseOperandLoop sub fuel r.1 p1
    | .ObjectOperator =>
      (sub.parseObjectLookup cb expr p).bind fun r =>
        parseOperandLoop sub fuel r.1 r.2.next
    | .ArrayLookupOperatorLeft =>
      (sub.parseArrayLookup cb expr p).bind fun r =>
        parseOperandLoop sub fuel r.1 r.2.next
    | .Identifier =>
      match p.peek.typ with
      | .OpenParen =>
        (sub.parseFunctionCall cb (Expr.Identifier p.current.val) p).bind fun r =>
          parseOperandLoop sub fuel r.1 r.2.next
      | .ScopeResolutionOperator =>
        let classIdent := p.current.val
        let p1 := p.next
        (parseNextExpression sub fuel p1).bind fun r =>
          parseOperandLoop sub fuel (NewClassExpression classIdent r.1) r.2.next
      | _ =>
        parseOperandLoop sub fuel
          (Expr.ConstantExpression (NewVariable p.current.val)) p.next
    | .Self | .Static | .Parent =>
      if p.peek.typ = Token.ScopeResolutionOperator then
        let r := p.current.val
        let p1 := p.expect [Token.ScopeResolutionOperator]
        (parseNextExpression sub fuel p1).bind fun r1 =>
          some (NewClassExpression r r1.1, r1.2)
      else parseOperandLoop sub fuel expr p.next
    | _ => some (expr, p.backup)

/-- The function `parseVariable`. -/
def parseVariable (sub : SubParsers) : Nat → parser → Result
  | 0, _ => none
  | fuel + 1, p =>
    let p1 := (p.expectCurrent [Token.VariableOperator]).next
    if sub.isKeyword p1.current.typ || p1.current.typ = Token.Identifier then
      some (NewVariable p1.current.val, p1)
    else parseExpression sub fuel p1

/-- The function `parseInclude`. -/
def parseInclude (sub : SubParsers) : Nat → parser → Result
  | 0, _ => none
  | fuel + 1, p => parseIncludeLoop sub fuel [] p

/-- The `for` loop of `parseInclude`; `exprs` is `inc.Expressions`. -/
def parseIncludeLoop (sub : SubParsers) : Nat → List Expr → parser → Result
  | 0, _, _ => none
  | fuel + 1, exprs, p =>
    (parseNextExpression sub fuel p).bind fun r =>
      let exprs1 := exprs ++ [r.1]
      if r.2.peek.typ ≠ Token.Comma then some (Expr.Include exprs1, r.2)
      else parseIncludeLoop sub fuel exprs1 (r.2.expect [Token.Comma])

/-- The function `parseIgnoreError`. -/
def parseIgnoreError (sub : SubParsers) : Nat → parser → Result
  | 0, _ => none
  | fuel + 1, p => parseExpression sub fuel p.next

/-- The function `parseNew`. -/
def parseNew (sub : SubParsers) : Nat → Int → parser → Result
  | 0, _, _ => none
  | fuel + 1, originalParenLev, p =>
    let cb : Callbacks :=
      ⟨fuel, parseExpression sub fuel, parseOperand sub fuel, parseOperation sub fuel⟩
    (sub.parseInstantiation cb p).bind fun r =>
      parseOperation sub fuel originalParenLev r.1 r.2

end

/-! ## The sub-parsers the spec describes -/

/-- Modelled from the spec: `operationTypeForToken` is not in the file; it is
the "fixed token to family mapping" of section 4.2.  The binary family is the
infix rungs of the precedence ladder of section 4.4, the unary family the
postfix increment and decrement operators, the ternary family the first
ternary token, the assignment family the assignment operators. -/
def specOperationTypeForToken : Token → operationType
  | .UnaryOperator => .unaryOperation
  | .InstanceofOperator | .MultOperator | .AdditionOperator
  | .SubtractionOperator | .ConcatenationOperator | .BitwiseShiftOperator
  | .ComparisonOperator | .EqualityOperator | .AmpersandOperator
  | .BitwiseXorOperator | .BitwiseOrOperator | .AndOperator | .OrOperator
  | .WrittenAndOperator | .WrittenXorOperator | .WrittenOrOperator =>
    .binaryOperation
  | .TernaryOperator1 => .ternaryOperation
  | .AssignmentOperator => .assignmentOperation
  | _ => .nilOperation

/-- Modelled from the spec: `newUnaryOperation` is not in the file; it wraps
the operand in a `UnaryExpression` carrying the operator's text.  The loop of
`parseOperand` calls it for an operator that follows its operand. -/
def specNewUnaryOperation (operator : Item) (operand : Expr) : Expr :=
  Expr.UnaryExpression operator.val operand false

/-- Modelled from the spec: `parseUnaryExpressionRight` is not in the file;
the prefix sub-parser of section 4.4 wraps the operand it is given, the
operator preceding it. -/
def specParseUnaryExpressionRight (_cb : Callbacks) (operand : Expr) (operator : Item)
    (p : parser) : Result :=
  some (Expr.UnaryExpression operator.val operand true, p)

/-- Modelled from the spec: `parseUnaryExpressionLeft` is not in the file; the
postfix sub-parser of section 4.4 "wraps the already-built lhs without
further recursion". -/
def specParseUnaryExpressionLeft (_cb : Callbacks) (operand : Expr) (operator : Item)
    (p : parser) : Result :=
  some (Expr.UnaryExpression operator.val operand false, p)

/-- Modelled from the spec: the loop of the binary sub-parser (section 4.2).
While the operator after the right operand has an entry in the table that is
higher than the current operator's, the right operand is bound tightly: the
operation loop folds the operator onto it.  On a lower or equal one, control
returns to the caller's loop. -/
def specBinaryLoop (cb : Callbacks) (currentPrecedence : Nat) (originalParenLevel : Int) :
    Nat → Expr → parser → Result
  | 0, _, _ => none
  | n + 1, rhs, p =>
    match operatorPrecedence p.peek.typ with
    | some nextPrecedence =>
      if nextPrecedence > currentPrecedence then
        (cb.parseOperation originalParenLevel rhs p).bind fun r =>
          specBinaryLoop cb currentPrecedence originalParenLevel n r.1 r.2
      else some (rhs, p)
    | none => some (rhs, p)

/-- Modelled from the spec: `parseBinaryOperation` is not in the file.  It
steps past the operator, resolves the right operand, lets `specBinaryLoop`
decide by the table of section 4.4 and builds the `BinaryOperation`. -/
def specParseBinaryOperation (cb : Callbacks) (lhs : Expr) (operator : Item)
    (originalParenLevel : Int) (p : parser) : Result :=
  (cb.parseOperand p.next).bind fun r =>
    (specBinaryLoop cb ((operatorPrecedence operator.typ).getD 0) originalParenLevel
      cb.fuel r.1 r.2).bind fun r1 =>
      some (Expr.BinaryOperation lhs operator.val r1.1, r1.2)

/-- The sub-parsers the spec describes, over `base` for the ones it leaves
opaque (anonymous function, list, instantiation, array declaration, ternary,
lookups, function call) and for `isKeyword`. -/
def specSub (base : SubParsers) : SubParsers :=
  { base with
    operationTypeForToken := specOperationTypeForToken
    newUnaryOperation := specNewUnaryOperation
    parseUnaryExpressionRight := specParseUnaryExpressionRight
    parseUnaryExpressionLeft := specParseUnaryExpressionLeft
    parseBinaryOperation := specParseBinaryOperation }

/-- A parser at the start of a token stream, nothing recorded yet. -/
def start (toks : List Item) : parser := ⟨toks, 0, 0, []⟩

/-- Modelled from the spec: `isKeyword` is not in the file; the keyword kinds
of the token enumeration (section 3) that the file names. -/
def specIsKeyword : Token → Bool
  | .Function | .NewOperator | .List | .Array | .Null | .Self | .Static
  | .Parent | .Include => true
  | _ => false

/-- A sub-parser for a construct whose grammar the spec leaves opaque: the
construct is recorded as unsupported and no expression is returned. -/
def unsupported (msg : String) (p : parser) : Result :=
  some (Expr.nil, { p with errors := p.errors ++ [ParseError.other msg] })

/-- The sub-parsers the spec describes, the opaque sub-grammars left out. -/
def bareSub : SubParsers :=
  specSub
    { operationTypeForToken := specOperationTypeForToken
      isKeyword := specIsKeyword
      newUnaryOperation := specNewUnaryOperation
      parseAnonymousFunction := fun _ p => unsupported "anonymous function" p
      parseList := fun _ p => unsupported "list" p
      parseInstantiation := fun _ p => unsupported "new" p
      parseArrayDeclaration := fun _ p => unsupported "array" p
      parseUnaryExpressionRight := specParseUnaryExpressionRight
      parseUnaryExpressionLeft := specParseUnaryExpressionLeft
      parseBinaryOperation := specParseBinaryOperation
      parseTernaryOperation := fun _ _ p => unsupported "ternary" p
      parseArrayLookup := fun _ _ p => unsupported "array lookup" p
      parseObjectLookup := fun _ _ p => unsupported "object lookup" p
      parseFunctionCall := fun _ _ p => unsupported "function call" p }

/-! ## Predicates used by the theorems -/

/-- The kinds on which the switch of `parseExpression` has a case. -/
def isDispatchKind : Token → Bool
  | .IgnoreErrorOperator | .Function | .NewOperator | .List
  | .UnaryOperator | .NegationOperator | .AmpersandOperator
  | .CastOperator | .SubtractionOperator | .BitwiseNotOperator
  | .VariableOperator | .Array | .Identifier | .StringLiteral
  | .NumberLiteral | .BooleanLiteral | .Null | .Self | .Static
  | .Parent | .ShellCommand | .Include | .OpenParen => true
  | _ => false

/-- The kinds of the operand case of the switch of `parseExpression`. -/
def isOperandStart : Token → Bool
  | .VariableOperator | .Array | .Identifier | .StringLiteral
  | .NumberLiteral | .BooleanLiteral | .Null | .Self | .Static
  | .Parent | .ShellCommand => true
  | _ => false

/-- The prefix operator kinds of the first switch of `parseOperand`. -/
def isPrefixKind : Token → Bool
  | .UnaryOperator | .NegationOperator | .CastOperator
  | .SubtractionOperator | .AmpersandOperator | .BitwiseNotOperator => true
  | _ => false

/-- The kinds on which `parseLiteral` returns a literal. -/
def isLiteralKind : Token → Bool
  | .StringLiteral | .BooleanLiteral | .NumberLiteral | .Null => true
  | _ => false

/-- The kinds that fall to the default case of the loop of `parseOperand`. -/
def stopsOperand : Token → Bool
  | .ShellCommand | .StringLiteral | .BooleanLiteral | .NumberLiteral | .Null
  | .UnaryOperator | .Array | .VariableOperator | .ObjectOperator
  | .ArrayLookupOperatorLeft | .Identifier | .Self | .Static | .Parent => false
  | _ => true

/-- The calls of `errorf` made by the functions of the file, each with the
state it is made in and the condition under which it is reached. -/
inductive Raised : parser → ParseError → Prop where
  | expectedExpression (p : parser) (h : isDispatchKind p.current.typ = false) :
      Raised p (ParseError.expectedExpression p.current)
  | unbalancedParens (p : parser) (prev : Int) (h : p.parenLevel ≠ prev) :
      Raised p (ParseError.unbalancedParens p.parenLevel prev)
  | notAssignable (p : parser) (lhs : Expr) (h : Assignable lhs = false) :
      Raised p (ParseError.notAssignable lhs)
  | unknownLiteralType (p : parser) (h : isLiteralKind p.current.typ = false) :
      Raised p ParseError.unknownLiteralType
  | expected (p : parser) (kinds : List Token) (h : p.current.typ ∉ kinds) :
      Raised p (ParseError.expected p.current kinds)

/-- The state `p` with one more open paren counted. -/
def parenInc (p : parser) : parser := { p with parenLevel := p.parenLevel + 1 }

/-- The state `p` with one open paren fewer counted. -/
def parenDec (p : parser) : parser := { p with parenLevel := p.parenLevel - 1 }

/-- A relation between the state on entry and a later state that every step
the file makes on the parser maintains. -/
structure Stable (R : parser → parser → Prop) : Prop where
  next : ∀ p0 p, R p0 p → R p0 p.next
  backup : ∀ p0 p, R p0 p → R p0 p.backup
  errorf : ∀ p0 p e, R p0 p → Raised p e → R p0 (p.errorf e)
  inc : ∀ p0 p, R p0 p → R (parenInc p0) (parenInc p)
  dec : ∀ p0 p, R (parenInc p0) p → R p0 (parenDec p)

/-- Postcondition `Q` on the state a computation returns, if it returns. -/
def Post (x : Result) (Q : parser → Prop) : Prop := ∀ r, x = some r → Q r.2

/-- The entry points handed to a sub-parser maintain `R`. -/
structure CallbacksRespect (R : parser → parser → Prop) (cb : Callbacks) : Prop where
  parseExpression : ∀ p0 p, R p0 p → Post (cb.parseExpression p) (R p0)
  parseOperand : ∀ p0 p, R p0 p → Post (cb.parseOperand p) (R p0)
  parseOperation : ∀ l lhs p0 p, R p0 p → Post (cb.parseOperation l lhs p) (R p0)

/-- Every sub-parser outside the file maintains `R`, provided the entry
points it calls back do. -/
structure SubRespects (R : parser → parser → Prop) (sub : SubParsers) : Prop where
  parseAnonymousFunction : ∀ cb, CallbacksRespect R cb → ∀ p0 p, R p0 p →
    Post (sub.parseAnonymousFunction cb p) (R p0)
  parseList : ∀ cb, CallbacksRespect R cb → ∀ p0 p, R p0 p →
    Post (sub.parseList cb p) (R p0)
  parseInstantiation : ∀ cb, CallbacksRespect R cb → ∀ p0 p, R p0 p →
    Post (sub.parseInstantiation cb p) (R p0)
  parseArrayDeclaration : ∀ cb, CallbacksRespect R cb → ∀ p0 p, R p0 p →
    Post (sub.parseArrayDeclaration cb p) (R p0)
  parseUnaryExpressionRight : ∀ cb, CallbacksRespect R cb → ∀ e op p0 p, R p0 p →
    Post (sub.parseUnaryExpressionRight cb e op p) (R p0)
  parseUnaryExpressionLeft : ∀ cb, CallbacksRespect R cb → ∀ e op p0 p, R p0 p →
    Post (sub.parseUnaryExpressionLeft cb e op p) (R p0)
  parseBinaryOperation : ∀ cb, CallbacksRespect R cb → ∀ e op l p0 p, R p0 p →
    Post (sub.parseBinaryOperation cb e op l p) (R p0)
  parseTernaryOperation : ∀ cb, CallbacksRespect R cb → ∀ e p0 p, R p0 p →
    Post (sub.parseTernaryOperation cb e p) (R p0)
  parseArrayLookup : ∀ cb, CallbacksRespect R cb → ∀ e p0 p, R p0 p →
    Post (sub.parseArrayLookup cb e p) (R p0)
  parseObjectLookup : ∀ cb, CallbacksRespect R cb → ∀ e p0 p, R p0 p →
    Post (sub.parseObjectLookup cb e p) (R p0)
  parseFunctionCall : ∀ cb, CallbacksRespect R cb → ∀ e p0 p, R p0 p →
    Post (sub.parseFunctionCall cb e p) (R p0)

/-- Every function of the file, run with fuel `f`, maintains `R`. -/
structure AllRespect (R : parser → parser → Prop) (sub : SubParsers) (f : Nat) : Prop where
  expression : ∀ p0 p, R p0 p → Post (parseExpression sub f p) (R p0)
  nextExpression : ∀ p0 p, R p0 p → Post (parseNextExpression sub f p) (R p0)
  operation : ∀ l lhs p0 p, R p0 p → Post (parseOperation sub f l lhs p) (R p0)
  assignment : ∀ lhs p0 p, R p0 p → Post (parseAssignmentOperation sub f lhs p) (R p0)
  operand : ∀ p0 p, R p0 p → Post (parseOperand sub f p) (R p0)
  operandLoop : ∀ e p0 p, R p0 p → Post (parseOperandLoop sub f e p) (R p0)
  parseVar : ∀ p0 p, R p0 p → Post (parseVariable sub f p) (R p0)
  incl : ∀ p0 p, R p0 p → Post (parseInclude sub f p) (R p0)
  includeLoop : ∀ es p0 p, R p0 p → Post (parseIncludeLoop sub f es p) (R p0)
  ignoreError : ∀ p0 p, R p0 p → Post (parseIgnoreError sub f p) (R p0)
  new : ∀ l p0 p, R p0 p → Post (parseNew sub f l p) (R p0)

/-- The paren counter of `p` is the one of `p0`. -/
def SameParen (p0 p : parser) : Prop := p.parenLevel = p0.parenLevel

/-- From `p0` to `p` the token stream is the same and errors were only
appended, none of them an "expected expression" naming a token the switch of
`parseExpression` has a case for, none a "not assignable" naming an
assignable expression. -/
def ErrorsExtend (p0 p : parser) : Prop :=
  p.toks = p0.toks ∧ ∃ es, p.errors = p0.errors ++ es ∧
    (∀ t, ParseError.expectedExpression t ∈ es → isDispatchKind t.typ = false) ∧
    (∀ x, ParseError.notAssignable x ∈ es → Assignable x = false)

/-- The token stream `$a op1 $b op2 $c`, `op1` and `op2` assignment operators. -/
def assignmentChain (a op1 b op2 c : String) : List Item :=
  [⟨Token.VariableOperator, "$"⟩, ⟨Token.Identifier, a⟩, ⟨Token.AssignmentOperator, op1⟩,
   ⟨Token.VariableOperator, "$"⟩, ⟨Token.Identifier, b⟩, ⟨Token.AssignmentOperator, op2⟩,
   ⟨Token.VariableOperator, "$"⟩, ⟨Token.Identifier, c⟩]

/-- The Go lookup `operatorPrecedence[t]`: zero for a kind without entry. -/
def precedenceOf (t : Token) : Nat := (operatorPrecedence t).getD 0

/-- With fuel at least `n`, `parseOperand` entered in state `p` returns the
operand `e` and the state `q`. -/
def OperandAt (sub : SubParsers) (n : Nat) (p : parser) (e : Expr) (q : parser) : Prop :=
  ∀ fuel, n ≤ fuel → parseOperand sub fuel p = some (e, q)

/-- With fuel at least `n`, `parseExpression` entered in state `p` returns
the expression `e` and the state `q`. -/
def ExpressionAt (sub : SubParsers) (n : Nat) (p : parser) (e : Expr) (q : parser) : Prop :=
  ∀ fuel, n ≤ fuel → parseExpression sub fuel p = some (e, q)

/-! ## Predicates on the cursor -/

/-- The kinds on which `parseOperand` advances before it can step back: the
prefix operators of its first switch and the kinds its loop has a case for. -/
def advancesOperand (t : Token) : Bool := isPrefixKind t || !stopsOperand t

/-- State `q` has the token stream of `p0` and its cursor is at least
`k - 1` tokens after the cursor of `p0`. -/
def Reach (k : Nat) (p0 q : parser) : Prop := q.toks = p0.toks ∧ p0.idx + k ≤ q.idx + 1

/-- The entry points handed to a sub-parser keep the token stream and do not
end before the token they were entered on; `parseOperand` may end one token
before it when that token starts no operand. -/
structure CallbacksForward (cb : Callbacks) : Prop where
  parseExpression : ∀ p r, cb.parseExpression p = some r → Reach 1 p r.2
  parseOperand : ∀ p r, cb.parseOperand p = some r →
    Reach 0 p r.2 ∧ (advancesOperand p.current.typ = true → Reach 1 p r.2)
  parseOperation : ∀ l lhs p r, cb.parseOperation l lhs p = some r → Reach 1 p r.2

/-- Every sub-parser outside the file keeps the token stream and does not
end before the token it was entered on. -/
structure SubForward (sub : SubParsers) : Prop where
  parseAnonymousFunction : ∀ cb, CallbacksForward cb → ∀ p r,
    sub.parseAnonymousFunction cb p = some r → Reach 1 p r.2
  parseList : ∀ cb, CallbacksForward cb → ∀ p r,
    sub.parseList cb p = some r → Reach 1 p r.2
  parseInstantiation : ∀ cb, CallbacksForward cb → ∀ p r,
    sub.parseInstantiation cb p = some r → Reach 1 p r.2
  parseArrayDeclaration : ∀ cb, CallbacksForward cb → ∀ p r,
    sub.parseArrayDeclaration cb p = some r → Reach 1 p r.2
  parseUnaryExpressionRight : ∀ cb, CallbacksForward cb → ∀ e op p r,
    sub.parseUnaryExpressionRight cb e op p = some r → Reach 1 p r.2
  parseUnaryExpressionLeft : ∀ cb, CallbacksForward cb → ∀ e op p r,
    sub.parseUnaryExpressionLeft cb e op p = some r → Reach 1 p r.2
  parseBinaryOperation : ∀ cb, CallbacksForward cb → ∀ e op l p r,
    sub.parseBinaryOperation cb e op l p = some r → Reach 1 p r.2
  parseTernaryOperation : ∀ cb, CallbacksForward cb → ∀ e p r,
    sub.parseTernaryOperation cb e p = some r → Reach 1 p r.2
  parseArrayLookup : ∀ cb, CallbacksForward cb → ∀ e p r,
    sub.parseArrayLookup cb e p = some r → Reach 1 p r.2
  parseObjectLookup : ∀ cb, CallbacksForward cb → ∀ e p r,
    sub.parseObjectLookup cb e p = some r → Reach 1 p r.2
  parseFunctionCall : ∀ cb, CallbacksForward cb → ∀ e p r,
    sub.parseFunctionCall cb e p = some r → Reach 1 p r.2

/-- Every function of the file, run with fuel `f`, keeps the token stream and
moves the cursor forward, relative to any earlier state `p0`. -/
structure AllForward (sub : SubParsers) (f : Nat) : Prop where
  expression : ∀ k p0 p, Reach k p0 p → Post (parseExpression sub f p) (Reach k p0)
  nextExpression : ∀ k p0 p, Reach k p0 p →
    Post (parseNextExpression sub f p) (Reach (k + 1) p0)
  operation : ∀ l lhs k p0 p, Reach k p0 p → Post (parseOperation sub f l lhs p) (Reach k p0)
  assignment : ∀ lhs k p0 p, Reach k p0 p →
    Post (parseAssignmentOperation sub f lhs p) (Reach k p0)
  operand : ∀ k p0 p, Reach (k + 1) p0 p → Post (parseOperand sub f p) (Reach k p0)
  operandAdv : ∀ k p0 p, advancesOperand p.current.typ = true → Reach k p0 p →
    Post (parseOperand sub f p) (Reach k p0)
  operandLoop : ∀ e k p0 p, Reach (k + 1) p0 p →
    Post (parseOperandLoop sub f e p) (Reach k p0)
  operandLoopAdv : ∀ e k p0 p, stopsOperand p.current.typ = false → Reach k p0 p →
    Post (parseOperandLoop sub f e p) (Reach k p0)
  parseVar : ∀ k p0 p, Reach k p0 p → Post (parseVariable sub f p) (Reach (k + 1) p0)
  incl : ∀ k p0 p, Reach k p0 p → Post (parseInclude sub f p) (Reach k p0)
  includeLoop : ∀ es k p0 p, Reach k p0 p → Post (parseIncludeLoop sub f es p) (Reach k p0)
  ignoreError : ∀ k p0 p, Reach k p0 p → Post (parseIgnoreError sub f p) (Reach k p0)
  new : ∀ l k p0 p, Reach k p0 p → Post (parseNew sub f l p) (Reach k p0)

/-- States `p` and `p'` differ at most in tokens after index `N`: the
cursor, the paren counter and the errors are the same, and the two streams
deliver the same token at every index up to `N`. -/
structure Sim (N : Nat) (p p' : parser) : Prop where
  idx : p'.idx = p.idx
  parenLevel : p'.parenLevel = p.parenLevel
  errors : p'.errors = p.errors
  toks : ∀ i, i ≤ N → p'.toks.getD i eofItem = p.toks.getD i eofItem

/-- If the run `x` returns with the cursor before index `N`, the run `x'`
returns the same expression in a state that differs at most in tokens after
`N`. -/
def Agr (N : Nat) (x x' : Result) : Prop :=
  ∀ r, x = some r → r.2.idx + 1 ≤ N → ∃ r', x' = some (r.1, r') ∧ Sim N r.2 r'

/-- The entry points handed to a sub-parser read no token more than one past
the cursor they return with. -/
structure CallbacksLocal (cb : Callbacks) : Prop where
  parseExpression : ∀ N p p', Sim N p p' → Agr N (cb.parseExpression p) (cb.parseExpression p')
  parseOperand : ∀ N p p', Sim N p p' → Agr N (cb.parseOperand p) (cb.parseOperand p')
  parseOperation : ∀ l lhs N p p', Sim N p p' →
    Agr N (cb.parseOperation l lhs p) (cb.parseOperation l lhs p')

/-- Every sub-parser outside the file reads no token more than one past the
cursor it returns with, provided the entry points it calls back do not. -/
structure SubLocal (sub : SubParsers) : Prop where
  forward : SubForward sub
  parseAnonymousFunction : ∀ cb, CallbacksForward cb → CallbacksLocal cb → ∀ N p p',
    Sim N p p' → Agr N (sub.parseAnonymousFunction cb p) (sub.parseAnonymousFunction cb p')
  parseList : ∀ cb, CallbacksForward cb → CallbacksLocal cb → ∀ N p p',
    Sim N p p' → Agr N (sub.parseList cb p) (sub.parseList cb p')
  parseInstantiation : ∀ cb, CallbacksForward cb → CallbacksLocal cb → ∀ N p p',
    Sim N p p' → Agr N (sub.parseInstantiation cb p) (sub.parseInstantiation cb p')
  parseArrayDeclaration : ∀ cb, CallbacksForward cb → CallbacksLocal cb → ∀ N p p',
    Sim N p p' → Agr N (sub.parseArrayDeclaration cb p) (sub.parseArrayDeclaration cb p')
  parseUnaryExpressionRight : ∀ cb, CallbacksForward cb → CallbacksLocal cb → ∀ e op N p p',
    Sim N p p' →
      Agr N (sub.parseUnaryExpressionRight cb e op p) (sub.parseUnaryExpressionRight cb e op p')
  parseUnaryExpressionLeft : ∀ cb, CallbacksForward cb → CallbacksLocal cb → ∀ e op N p p',
    Sim N p p' →
      Agr N (sub.parseUnaryExpressionLeft cb e op p) (sub.parseUnaryExpressionLeft cb e op p')
  parseBinaryOperation : ∀ cb, CallbacksForward cb → CallbacksLocal cb → ∀ e op l N p p',
    Sim N p p' →
      Agr N (sub.parseBinaryOperation cb e op l p) (sub.parseBinaryOperation cb e op l p')
  parseTernaryOperation : ∀ cb, CallbacksForward cb → CallbacksLocal cb → ∀ e N p p',
    Sim N p p' → Agr N (sub.parseTernaryOperation cb e p) (sub.parseTernaryOperation cb e p')
  parseArrayLookup : ∀ cb, CallbacksForward cb → CallbacksLocal cb → ∀ e N p p',
    Sim N p p' → Agr N (sub.parseArrayLookup cb e p) (sub.parseArrayLookup cb e p')
  parseObjectLookup : ∀ cb, CallbacksForward cb → CallbacksLocal cb → ∀ e N p p',
    Sim N p p' → Agr N (sub.parseObjectLookup cb e p) (sub.parseObjectLookup cb e p')
  parseFunctionCall : ∀ cb, CallbacksForward cb → CallbacksLocal cb → ∀ e N p p',
    Sim N p p' → Agr N (sub.parseFunctionCall cb e p) (sub.parseFunctionCall cb e p')

/-- Every function of the file, run with fuel `f`, reads no token more than
one past the cursor it returns with. -/
structure AllLocal (sub : SubParsers) (f : Nat) : Prop where
  expression : ∀ N p p', Sim N p p' → Agr N (parseExpression sub f p) (parseExpression sub f p')
  nextExpression : ∀ N p p', Sim N p p' →
    Agr N (parseNextExpression sub f p) (parseNextExpression sub f p')
  operation : ∀ l lhs N p p', Sim N p p' →
    Agr N (parseOperation sub f l lhs p) (parseOperation sub f l lhs p')
  assignment : ∀ lhs N p p', Sim N p p' →
    Agr N (parseAssignmentOperation sub f lhs p) (parseAssignmentOperation sub f lhs p')
  operand : ∀ N p p', Sim N p p' → Agr N (parseOperand sub f p) (parseOperand sub f p')
  operandLoop : ∀ e N p p', Sim N p p' →
    Agr N (parseOperandLoop sub f e p) (parseOperandLoop sub f e p')
  parseVar : ∀ N p p', Sim N p p' → Agr N (parseVariable sub f p) (parseVariable sub f p')
  incl : ∀ N p p', Sim N p p' → Agr N (parseInclude sub f p) (parseInclude sub f p')
  includeLoop : ∀ es N p p', Sim N p p' →
    Agr N (parseIncludeLoop sub f es p) (parseIncludeLoop sub f es p')
  ignoreError : ∀ N p p', Sim N p p' →
    Agr N (parseIgnoreError sub f p) (parseIgnoreError sub f p')
  new : ∀ l N p p', Sim N p p' → Agr N (parseNew sub f l p) (parseNew sub f l p')

/-! ## Definitions for the precedence ladder, the switch and the lookup chains -/

/-- The precedence ladder as the spec lists it (section 4.4), rung by rung,
with the token kinds of each rung. -/
def precedenceLadder : List (Token × Nat) :=
  [(Token.ArrayLookupOperatorLeft, 19),
   (Token.UnaryOperator, 18), (Token.BitwiseNotOperator, 18), (Token.CastOperator, 18),
   (Token.InstanceofOperator, 17),
   (Token.NegationOperator, 16),
   (Token.MultOperator, 15),
   (Token.AdditionOperator, 14), (Token.SubtractionOperator, 14),
   (Token.ConcatenationOperator, 14),
   (Token.BitwiseShiftOperator, 13),
   (Token.ComparisonOperator, 12),
   (Token.EqualityOperator, 11),
   (Token.AmpersandOperator, 10),
   (Token.BitwiseXorOperator, 9),
   (Token.BitwiseOrOperator, 8),
   (Token.AndOperator, 7),
   (Token.OrOperator, 6),
   (Token.TernaryOperator1, 5), (Token.TernaryOperator2, 5),
   (Token.AssignmentOperator, 4),
   (Token.WrittenAndOperator, 3),
   (Token.WrittenXorOperator, 2),
   (Token.WrittenOrOperator, 1)]

/-- The switch of `parseExpression` (lines 40 to 82): what the function has
computed when it reaches the postcondition check. -/
def parseExpressionSwitch (sub : SubParsers) (fuel : Nat) (p : parser) : Result :=
  let originalParenLev := p.parenLevel
  let cb : Callbacks :=
    ⟨fuel, parseExpression sub fuel, parseOperand sub fuel, parseOperation sub fuel⟩
  match p.current.typ with
  | .IgnoreErrorOperator => parseIgnoreError sub fuel p
  | .Function => sub.parseAnonymousFunction cb p
  | .NewOperator => parseNew sub fuel originalParenLev p
  | .List => sub.parseList cb p
  | .UnaryOperator | .NegationOperator | .AmpersandOperator
  | .CastOperator | .SubtractionOperator | .BitwiseNotOperator =>
    let op := p.current
    (parseNextExpression sub fuel p).bind fun r1 =>
      sub.parseUnaryExpressionRight cb r1.1 op r1.2
  | .VariableOperator | .Array | .Identifier | .StringLiteral
  | .NumberLiteral | .BooleanLiteral | .Null | .Self | .Static
  | .Parent | .ShellCommand =>
    (parseOperand sub fuel p).bind fun r1 =>
      parseOperation sub fuel originalParenLev r1.1 r1.2
  | .Include => parseInclude sub fuel p
  | .OpenParen =>
    let p1 := { p with parenLevel := p.parenLevel + 1 }
    let p2 := p1.next
    (parseExpression sub fuel p2).bind fun r1 =>
      let p3 := r1.2.expect [Token.CloseParen]
      let p4 := { p3 with parenLevel := p3.parenLevel - 1 }
      parseOperation sub fuel originalParenLev r1.1 p4
  | _ => some (Expr.nil, p.errorf (ParseError.expectedExpression p.current))

/-- Modelled from the spec: the closing token of a bracket lookup is a kind
of the enumeration that the file does not name. -/
def arrayLookupOperatorRight : Token := Token.other 0

/-- Modelled from the spec: the closing token of a curly lookup is a kind of
the enumeration that the file does not name. -/
def blockEnd : Token := Token.other 1

/-- Modelled from the spec: `parseObjectLookup` is not in the file; a link
`->member` of an object-operator chain is `ObjectLookup{receiver, member}`,
the member named by the identifier after the operator.  The cursor is left on
the member. -/
def specParseObjectLookup (_cb : Callbacks) (receiver : Expr) (p : parser) : Result :=
  let p1 := p.expect [Token.Identifier]
  some (Expr.ObjectLookup receiver (Expr.Identifier p1.current.val), p1)

/-- Modelled from the spec: `parseArrayLookup` is not in the file; a link
`[index]` (or `{index}` after a variable) is `ArrayLookup{receiver, index}`,
the index an expression between the brackets.  The cursor is left on the
closing token. -/
def specParseArrayLookup (cb : Callbacks) (receiver : Expr) (p : parser) : Result :=
  (cb.parseExpression p.next).bind fun r =>
    some (Expr.ArrayLookup receiver r.1, r.2.expect [arrayLookupOperatorRight, blockEnd])

/-- The sub-parsers of `bareSub` with the two lookups the spec describes. -/
def lookupSub : SubParsers :=
  { bareSub with
    parseArrayLookup := specParseArrayLookup
    parseObjectLookup := specParseObjectLookup }

/-- The entry points of the file at fuel `f`, as handed to the sub-parsers. -/
@[reducible] def callbacksAt (sub : SubParsers) (f : Nat) : Callbacks :=
  ⟨f, parseExpression sub f, parseOperand sub f, parseOperation sub f⟩

/-- A link of a postfix chain: `->member` or `[index]`, the index a number
literal. -/
inductive Link where
  | member (name : String)
  | index (value : String)

/-- The tokens of a link. -/
def Link.tokens : Link → List Item
  | .member n => [⟨Token.ObjectOperator, "->"⟩, ⟨Token.Identifier, n⟩]
  | .index v =>
    [⟨Token.ArrayLookupOperatorLeft, "["⟩, ⟨Token.NumberLiteral, v⟩,
     ⟨arrayLookupOperatorRight, "]"⟩]

/-- The node of a link around its receiver. -/
def Link.wrap (receiver : Expr) : Link → Expr
  | .member n => Expr.ObjectLookup receiver (Expr.Identifier n)
  | .index v => Expr.ArrayLookup receiver (Expr.Literal LiteralType.Float v)

/-- The tokens of a chain of links, in source order. -/
def chainTokens : List Link → List Item
  | [] => []
  | l :: ls => l.tokens ++ chainTokens ls

/-! ## Definitions for the same parse further down a stream -/

/-- The state `p` with the tokens `pre` put in front of its stream, the cursor
on the same token as before. -/
def parser.shift (pre : List Item) (p : parser) : parser :=
  { p with toks := pre ++ p.toks, idx := p.idx + pre.length }

/-- The run `x'` returns what the run `x` returns, its state being the state
of `x` with `pre` in front of the stream. -/
def Shifted (pre : List Item) (x x' : Result) : Prop :=
  x' = x.map fun r => (r.1, r.2.shift pre)

/-- The states in which `parseOperand` cannot step back past the start of the
stream: the cursor is not on the first token, or the current token is one
that the function has a case for. -/
def operandSafe (p : parser) : Prop :=
  1 ≤ p.idx ∨ isPrefixKind p.current.typ = true ∨ stopsOperand p.current.typ = false

/-- The states in which the loop of `parseOperand` cannot step back past the
start of the stream. -/
def loopSafe (p : parser) : Prop :=
  1 ≤ p.idx ∨ stopsOperand p.current.typ = false

/-- The entry points handed to a sub-parser do the same on a stream with
`pre` in front of it. -/
structure CallbacksShift (pre : List Item) (cb : Callbacks) : Prop where
  parseExpression : ∀ p, Shifted pre (cb.parseExpression p) (cb.parseExpression (p.shift pre))
  parseOperand : ∀ p, operandSafe p →
    Shifted pre (cb.parseOperand p) (cb.parseOperand (p.shift pre))
  parseOperation : ∀ l lhs p,
    Shifted pre (cb.parseOperation l lhs p) (cb.parseOperation l lhs (p.shift pre))

/-- Every sub-parser outside the file does the same on a stream with `pre` in
front of it, provided the entry points it calls back do. -/
structure SubShift (pre : List Item) (sub : SubParsers) : Prop where
  parseAnonymousFunction : ∀ cb, CallbacksShift pre cb → ∀ p,
    Shifted pre (sub.parseAnonymousFunction cb p) (sub.parseAnonymousFunction cb (p.shift pre))
  parseList : ∀ cb, CallbacksShift pre cb → ∀ p,
    Shifted pre (sub.parseList cb p) (sub.parseList cb (p.shift pre))
  parseInstantiation : ∀ cb, CallbacksShift pre cb → ∀ p,
    Shifted pre (sub.parseInstantiation cb p) (sub.parseInstantiation cb (p.shift pre))
  parseArrayDeclaration : ∀ cb, CallbacksShift pre cb → ∀ p,
    Shifted pre (sub.parseArrayDeclaration cb p) (sub.parseArrayDeclaration cb (p.shift pre))
  parseUnaryExpressionRight : ∀ cb, CallbacksShift pre cb → ∀ e op p,
    Shifted pre (sub.parseUnaryExpressionRight cb e op p)
      (sub.parseUnaryExpressionRight cb e op (p.shift pre))
  parseUnaryExpressionLeft : ∀ cb, CallbacksShift pre cb → ∀ e op p,
    Shifted pre (sub.parseUnaryExpressionLeft cb e op p)
      (sub.parseUnaryExpressionLeft cb e op (p.shift pre))
  parseBinaryOperation : ∀ cb, CallbacksShift pre cb → ∀ e op l p,
    Shifted pre (sub.parseBinaryOperation cb e op l p)
      (sub.parseBinaryOperation cb e op l (p.shift pre))
  parseTernaryOperation : ∀ cb, CallbacksShift pre cb → ∀ e p,
    Shifted pre (sub.parseTernaryOperation cb e p) (sub.parseTernaryOperation cb e (p.shift pre))
  parseArrayLookup : ∀ cb, CallbacksShift pre cb → ∀ e p,
    Shifted pre (sub.parseArrayLookup cb e p) (sub.parseArrayLookup cb e (p.shift pre))
  parseObjectLookup : ∀ cb, CallbacksShift pre cb → ∀ e p,
    Shifted pre (sub.parseObjectLookup cb e p) (sub.parseObjectLookup cb e (p.shift pre))
  parseFunctionCall : ∀ cb, CallbacksShift pre cb → ∀ e p,
    Shifted pre (sub.parseFunctionCall cb e p) (sub.parseFunctionCall cb e (p.shift pre))

/-- Every function of the file, run with fuel `f`, does the same on a stream
with `pre` in front of it. -/
structure AllShift (pre : List Item) (sub : SubParsers) (f : Nat) : Prop where
  expression : ∀ p, Shifted pre (parseExpression sub f p) (parseExpression sub f (p.shift pre))
  nextExpression : ∀ p,
    Shifted pre (parseNextExpression sub f p) (parseNextExpression sub f (p.shift pre))
  operation : ∀ l lhs p,
    Shifted pre (parseOperation sub f l lhs p) (parseOperation sub f l lhs (p.shift pre))
  assignment : ∀ lhs p,
    Shifted pre (parseAssignmentOperation sub f lhs p)
      (parseAssignmentOperation sub f lhs (p.shift pre))
  operand : ∀ p, operandSafe p →
    Shifted pre (parseOperand sub f p) (parseOperand sub f (p.shift pre))
  operandLoop : ∀ e p, loopSafe p →
    Shifted pre (parseOperandLoop sub f e p) (parseOperandLoop sub f e (p.shift pre))
  parseVar : ∀ p, Shifted pre (parseVariable sub f p) (parseVariable sub f (p.shift pre))
  incl : ∀ p, Shifted pre (parseInclude sub f p) (parseInclude sub f (p.shift pre))
  includeLoop : ∀ es p,
    Shifted pre (parseIncludeLoop sub f es p) (parseIncludeLoop sub f es (p.shift pre))
  ignoreError : ∀ p,
    Shifted pre (parseIgnoreError sub f p) (parseIgnoreError sub f (p.shift pre))
  new : ∀ l p, Shifted pre (parseNew sub f l p) (parseNew sub f l (p.shift pre))

/-! ## Definitions for the tokens of an expression -/

/-- The token at index `k` of a stream, the end-of-file token past its end. -/
def tokenAt (toks : List Item) (k : Nat) : Item := toks.getD k eofItem

/-- The literal type `parseLiteral` gives a token kind. -/
def literalType : Token → Option LiteralType
  | .StringLiteral => some LiteralType.String
  | .BooleanLiteral => some LiteralType.Boolean
  | .NumberLiteral => some LiteralType.Float
  | .Null => some LiteralType.Null
  | _ => none

/-- The kinds `self`, `static` and `parent`. -/
def isScopeKeyword : Token → Bool
  | .Self | .Static | .Parent => true
  | _ => false

/-- `Spans sub toks e i j`: the tokens of `toks` from index `i` up to, not
including, index `j` are the tokens of the expression `e`, so that `j - 1` is
the index of the last token of `e` and `j` the index of the first token after
it.  One rule for each form the file builds (sections 3 and 4 of the spec):
literals, shell commands, variables, constants, parenthesised expressions,
scope resolution, assignment, `include` lists, operators applied after an
operand, the error-suppression prefix, and the forms in which tokens are
passed over with no node built for them (`$` in front of an expression, a
bare `self`, `static` or `parent`, an operand followed by another operand).
A construct whose grammar is outside the file (anonymous function, list,
instantiation, array declaration, unary, binary and ternary operations,
lookups, function call) extends as far as its sub-parser, entered on the
token kind that selects it, consumed without recording an error. -/
inductive Spans (sub : SubParsers) (toks : List Item) : Expr → Nat → Nat → Prop where
  | empty (i : Nat) : Spans sub toks Expr.nil i i
  | bareKeyword (e : Expr) (i k : Nat) :
      Spans sub toks e i k → isScopeKeyword (tokenAt toks k).typ = true →
      (tokenAt toks (k + 1)).typ ≠ Token.ScopeResolutionOperator →
      Spans sub toks e i (k + 1)
  | literal (ty : LiteralType) (i : Nat) :
      literalType (tokenAt toks i).typ = some ty →
      Spans sub toks (Expr.Literal ty (tokenAt toks i).val) i (i + 1)
  | shellCommand (i : Nat) :
      (tokenAt toks i).typ = Token.ShellCommand →
      Spans sub toks (Expr.ShellCommand (tokenAt toks i).val) i (i + 1)
  | var (i : Nat) :
      (tokenAt toks i).typ = Token.VariableOperator →
      (sub.isKeyword (tokenAt toks (i + 1)).typ = true ∨
        (tokenAt toks (i + 1)).typ = Token.Identifier) →
      Spans sub toks (Expr.Variable (tokenAt toks (i + 1)).val) i (i + 2)
  | dollar (e : Expr) (i j : Nat) :
      (tokenAt toks i).typ = Token.VariableOperator →
      sub.isKeyword (tokenAt toks (i + 1)).typ = false →
      (tokenAt toks (i + 1)).typ ≠ Token.Identifier →
      Spans sub toks e (i + 1) j → Spans sub toks e i j
  | ignoreError (e : Expr) (i j : Nat) :
      (tokenAt toks i).typ = Token.IgnoreErrorOperator →
      Spans sub toks e (i + 1) j → Spans sub toks e i j
  | paren (e : Expr) (i k : Nat) :
      (tokenAt toks i).typ = Token.OpenParen → Spans sub toks e (i + 1) k →
      (tokenAt toks k).typ = Token.CloseParen → Spans sub toks e i (k + 1)
  | constant (i : Nat) :
      (tokenAt toks i).typ = Token.Identifier →
      Spans sub toks (Expr.ConstantExpression (Expr.Variable (tokenAt toks i).val)) i (i + 1)
  | className (i : Nat) :
      ((tokenAt toks i).typ = Token.Identifier ∨ isScopeKeyword (tokenAt toks i).typ = true) →
      Spans sub toks (Expr.Identifier (tokenAt toks i).val) i (i + 1)
  | scope (receiver member : Expr) (i k j : Nat) :
      Spans sub toks receiver i k →
      (tokenAt toks k).typ = Token.ScopeResolutionOperator →
      Spans sub toks member (k + 1) j →
      Spans sub toks (Expr.ClassExpression receiver member) i j
  | assignment (lhs rhs : Expr) (i k j : Nat) :
      Spans sub toks lhs i k → Assignable lhs = true →
      sub.operationTypeForToken (tokenAt toks k).typ = operationType.assignmentOperation →
      Spans sub toks rhs (k + 1) j →
      Spans sub toks (Expr.AssignmentExpression lhs (tokenAt toks k).val rhs) i j
  | includeFirst (e : Expr) (i j : Nat) :
      (tokenAt toks i).typ = Token.Include → Spans sub toks e (i + 1) j →
      Spans sub toks (Expr.Include [e]) i j
  | includeNext (es : List Expr) (e : Expr) (i k j : Nat) :
      Spans sub toks (Expr.Include es) i k → (tokenAt toks k).typ = Token.Comma →
      Spans sub toks e (k + 1) j → Spans sub toks (Expr.Include (es ++ [e])) i j
  | juxtaposed (e0 e : Expr) (i k j : Nat) :
      Spans sub toks e0 i k → k < j → Spans sub toks e k j → Spans sub toks e i j
  | unaryAfter (e : Expr) (i k : Nat) :
      Spans sub toks e i k → (tokenAt toks k).typ = Token.UnaryOperator →
      Spans sub toks (sub.newUnaryOperation (tokenAt toks k) e) i (k + 1)
  | anonymousFunction (f : Nat) (p : parser) (r : Expr × parser) :
      p.toks = toks → p.current.typ = Token.Function →
      sub.parseAnonymousFunction (callbacksAt sub f) p = some r → r.2.errors = p.errors →
      Spans sub toks r.1 p.idx (r.2.idx + 1)
  | list (f : Nat) (p : parser) (r : Expr × parser) :
      p.toks = toks → p.current.typ = Token.List →
      sub.parseList (callbacksAt sub f) p = some r → r.2.errors = p.errors →
      Spans sub toks r.1 p.idx (r.2.idx + 1)
  | instantiation (f : Nat) (p : parser) (r : Expr × parser) :
      p.toks = toks → p.current.typ = Token.NewOperator →
      sub.parseInstantiation (callbacksAt sub f) p = some r → r.2.errors = p.errors →
      Spans sub toks r.1 p.idx (r.2.idx + 1)
  | arrayDeclaration (f : Nat) (p : parser) (r : Expr × parser) :
      p.toks = toks → p.current.typ = Token.Array →
      sub.parseArrayDeclaration (callbacksAt sub f) p = some r → r.2.errors = p.errors →
      Spans sub toks r.1 p.idx (r.2.idx + 1)
  | functionCall (f : Nat) (p : parser) (r : Expr × parser) :
      p.toks = toks → p.current.typ = Token.Identifier → p.peek.typ = Token.OpenParen →
      sub.parseFunctionCall (callbacksAt sub f) (Expr.Identifier p.current.val) p = some r →
      r.2.errors = p.errors → Spans sub toks r.1 p.idx (r.2.idx + 1)
  | unaryBefore (f : Nat) (e : Expr) (i : Nat) (q : parser) (r : Expr × parser) :
      q.toks = toks → isPrefixKind (tokenAt toks i).typ = true →
      Spans sub toks e (i + 1) (q.idx + 1) →
      sub.parseUnaryExpressionRight (callbacksAt sub f) e (tokenAt toks i) q = some r →
      r.2.errors = q.errors → Spans sub toks r.1 i (r.2.idx + 1)
  | unaryOperation (f : Nat) (lhs : Expr) (i : Nat) (p : parser) (r : Expr × parser) :
      p.toks = toks →
      sub.operationTypeForToken p.current.typ = operationType.unaryOperation →
      Spans sub toks lhs i p.idx →
      sub.parseUnaryExpressionLeft (callbacksAt sub f) lhs p.current p = some r →
      r.2.errors = p.errors → Spans sub toks r.1 i (r.2.idx + 1)
  | binaryOperation (f : Nat) (lhs : Expr) (l : Int) (i : Nat) (p : parser)
      (r : Expr × parser) :
      p.toks = toks →
      sub.operationTypeForToken p.current.typ = operationType.binaryOperation →
      Spans sub toks lhs i p.idx →
      sub.parseBinaryOperation (callbacksAt sub f) lhs p.current l p = some r →
      r.2.errors = p.errors → Spans sub toks r.1 i (r.2.idx + 1)
  | ternaryOperation (f : Nat) (lhs : Expr) (i : Nat) (p : parser) (r : Expr × parser) :
      p.toks = toks →
      sub.operationTypeForToken p.current.typ = operationType.ternaryOperation →
      Spans sub toks lhs i p.idx →
      sub.parseTernaryOperation (callbacksAt sub f) lhs p = some r →
      r.2.errors = p.errors → Spans sub toks r.1 i (r.2.idx + 1)
  | arrayLookup (f : Nat) (receiver : Expr) (i : Nat) (p : parser) (r : Expr × parser) :
      p.toks = toks →
      (p.current.typ = Token.ArrayLookupOperatorLeft ∨ p.current.typ = Token.BlockBegin) →
      Spans sub toks receiver i p.idx →
      sub.parseArrayLookup (callbacksAt sub f) receiver p = some r →
      r.2.errors = p.errors → Spans sub toks r.1 i (r.2.idx + 1)
  | objectLookup (f : Nat) (receiver : Expr) (i : Nat) (p : parser) (r : Expr × parser) :
      p.toks = toks → p.current.typ = Token.ObjectOperator →
      Spans sub toks receiver i p.idx →
      sub.parseObjectLookup (callbacksAt sub f) receiver p = some r →
      r.2.errors = p.errors → Spans sub toks r.1 i (r.2.idx + 1)

/-- Every function of the file, run with fuel `f`, returns on success (no
error recorded) with the cursor on the last token of the expression it
returns. -/
structure AllSpans (sub : SubParsers) (f : Nat) : Prop where
  expression : ∀ p r, parseExpression sub f p = some r → r.2.errors = p.errors →
    Spans sub p.toks r.1 p.idx (r.2.idx + 1)
  nextExpression : ∀ p r, parseNextExpression sub f p = some r → r.2.errors = p.errors →
    Spans sub p.toks r.1 (p.idx + 1) (r.2.idx + 1)
  operation : ∀ l lhs i p r, Spans sub p.toks lhs i (p.idx + 1) →
    parseOperation sub f l lhs p = some r → r.2.errors = p.errors →
    Spans sub p.toks r.1 i (r.2.idx + 1)
  assignment : ∀ lhs i p r, Spans sub p.toks lhs i p.idx →
    sub.operationTypeForToken p.current.typ = operationType.assignmentOperation →
    parseAssignmentOperation sub f lhs p = some r → r.2.errors = p.errors →
    Spans sub p.toks r.1 i (r.2.idx + 1)
  operand : ∀ p r, operandSafe p → parseOperand sub f p = some r → r.2.errors = p.errors →
    Spans sub p.toks r.1 p.idx (r.2.idx + 1)
  operandLoop : ∀ e i p r, loopSafe p → Spans sub p.toks e i p.idx →
    parseOperandLoop sub f e p = some r → r.2.errors = p.errors →
    Spans sub p.toks r.1 i (r.2.idx + 1)
  parseVar : ∀ p r, parseVariable sub f p = some r → r.2.errors = p.errors →
    Spans sub p.toks r.1 p.idx (r.2.idx + 1)
  incl : ∀ p r, p.current.typ = Token.Include → parseInclude sub f p = some r →
    r.2.errors = p.errors → Spans sub p.toks r.1 p.idx (r.2.idx + 1)
  includeLoop : ∀ es i p r,
    ((es = [] ∧ i = p.idx ∧ p.current.typ = Token.Include) ∨
      (Spans sub p.toks (Expr.Include es) i p.idx ∧ p.current.typ = Token.Comma)) →
    parseIncludeLoop sub f es p = some r → r.2.errors = p.errors →
    Spans sub p.toks r.1 i (r.2.idx + 1)
  ignoreError : ∀ p r, p.current.typ = Token.IgnoreErrorOperator →
    parseIgnoreError sub f p = some r → r.2.errors = p.errors →
    Spans sub p.toks r.1 p.idx (r.2.idx + 1)
  new : ∀ l p r, p.current.typ = Token.NewOperator → parseNew sub f l p = some r →
    r.2.errors = p.errors → Spans sub p.toks r.1 p.idx (r.2.idx + 1)


/-! ## The cursor -/

@[simp] theorem parser.backup_next (p : parser) : p.next.backup = p := rfl

@[simp] theorem parser.next_toks (p : parser) : p.next.toks = p.toks := rfl
@[simp] theorem parser.next_idx (p : parser) : p.next.idx = p.idx + 1 := rfl
@[simp] theorem parser.next_parenLevel (p : parser) : p.next.parenLevel = p.parenLevel := rfl
@[simp] theorem parser.next_errors (p : parser) : p.next.errors = p.errors := rfl
@[simp] theorem parser.backup_toks (p : parser) : p.backup.toks = p.toks := rfl
@[simp] theorem parser.backup_idx (p : parser) : p.backup.idx = p.idx - 1 := rfl
@[simp] theorem parser.backup_parenLevel (p : parser) : p.backup.parenLevel = p.parenLevel := rfl
@[simp] theorem parser.backup_errors (p : parser) : p.backup.errors = p.errors := rfl
@[simp] theorem parser.errorf_toks (p : parser) (e : ParseError) : (p.errorf e).toks = p.toks := rfl
@[simp] theorem parser.errorf_idx (p : parser) (e : ParseError) : (p.errorf e).idx = p.idx := rfl
@[simp] theorem parser.errorf_parenLevel (p : parser) (e : ParseError) :
    (p.errorf e).parenLevel = p.parenLevel := rfl
@[simp] theorem parser.errorf_errors (p : parser) (e : ParseError) :
    (p.errorf e).errors = p.errors ++ [e] := rfl
@[simp] theorem parser.errorf_current (p : parser) (e : ParseError) :
    (p.errorf e).current = p.current := rfl

theorem le_fuel {n fuel : Nat} (h : n ≤ fuel) : ∃ k, fuel = k + n := ⟨fuel - n, by omega⟩

theorem Post_none (Q : parser → Prop) : Post none Q := by
  intro r h; cases h

theorem Post_some {Q : parser → Prop} {e : Expr} {q : parser} (h : Q q) :
    Post (some (e, q)) Q := by
  intro r hr; cases hr; exact h

theorem Post_bind {Q Q1 : parser → Prop} {x : Result} {f : Expr × parser → Result}
    (hx : Post x Q1) (hf : ∀ r, Q1 r.2 → Post (f r) Q) : Post (x.bind f) Q := by
  intro r hr
  rcases Option.bind_eq_some.mp hr with ⟨r1, h1, h2⟩
  exact hf r1 (hx r1 h1) r h2

theorem Stable.stExpectCurrent {R : parser → parser → Prop} (hR : Stable R) (p0 p : parser)
    (kinds : List Token) (h : R p0 p) : R p0 (p.expectCurrent kinds) := by
  unfold parser.expectCurrent
  split
  · exact h
  · exact hR.errorf _ _ _ h (Raised.expected p kinds (by assumption))

theorem Stable.stExpect {R : parser → parser → Prop} (hR : Stable R) (p0 p : parser)
    (kinds : List Token) (h : R p0 p) : R p0 (p.expect kinds) :=
  hR.stExpectCurrent _ _ _ (hR.next _ _ h)

theorem Post_check {R : parser → parser → Prop} (hR : Stable R) {p0 : parser} {x : Result}
    (l : Int) (hx : Post x (R p0)) : Post (x.map (checkParenLevel l)) (R p0) := by
  intro r hr
  rcases Option.map_eq_some'.mp hr with ⟨r1, h1, h2⟩
  subst h2
  unfold checkParenLevel
  split
  · exact hR.errorf _ _ _ (hx r1 h1) (Raised.unbalancedParens _ _ (by assumption))
  · exact hx r1 h1

theorem Stable.stLiteral {R : parser → parser → Prop} (hR : Stable R) (p0 p : parser)
    (h : R p0 p) : R p0 (parseLiteral p).2 := by
  unfold Php.parseLiteral
  split
  · exact h
  · exact h
  · exact h
  · exact h
  · refine hR.errorf _ _ _ h (Raised.unknownLiteralType p ?_)
    unfold isLiteralKind
    split <;> simp_all

theorem AllRespect.respectCallbacks {R : parser → parser → Prop} {sub : SubParsers} {f : Nat}
    (ih : AllRespect R sub f) :
    CallbacksRespect R ⟨f, parseExpression sub f, parseOperand sub f, parseOperation sub f⟩ :=
  ⟨ih.expression, ih.operand, ih.operation⟩

theorem allRespect_zero (R : parser → parser → Prop) (sub : SubParsers) : AllRespect R sub 0 := by
  constructor <;> intros <;> first
    | (rw [parseExpression]; exact Post_none _)
    | (rw [parseNextExpression]; exact Post_none _)
    | (rw [parseOperation]; exact Post_none _)
    | (rw [parseAssignmentOperation]; exact Post_none _)
    | (rw [parseOperand]; exact Post_none _)
    | (rw [parseOperandLoop]; exact Post_none _)
    | (rw [parseVariable]; exact Post_none _)
    | (rw [parseInclude]; exact Post_none _)
    | (rw [parseIncludeLoop]; exact Post_none _)
    | (rw [parseIgnoreError]; exact Post_none _)
    | (rw [parseNew]; exact Post_none _)


theorem allRespect_succ {R : parser → parser → Prop} {sub : SubParsers} (hR : Stable R)
    (hsub : SubRespects R sub) (f : Nat) (ih : AllRespect R sub f) :
    AllRespect R sub (f + 1) := by
  have hcb := ih.respectCallbacks
  constructor
  · -- parseExpression
    intro p0 p h
    rw [parseExpression]
    apply Post_check hR
    split
    · exact ih.ignoreError _ _ h
    · exact hsub.parseAnonymousFunction _ hcb _ _ h
    · exact ih.new _ _ _ h
    · exact hsub.parseList _ hcb _ _ h
    all_goals first
      | exact Post_bind (ih.nextExpression _ _ h)
          (fun r hr => hsub.parseUnaryExpressionRight _ hcb _ _ _ _ hr)
      | exact Post_bind (ih.operand _ _ h) (fun r hr => ih.operation _ _ _ _ hr)
      | exact ih.incl _ _ h
      | exact Post_bind (ih.expression _ _ (hR.next _ _ (hR.inc _ _ h)))
          (fun r hr => ih.operation _ _ _ _ (hR.dec _ _ (hR.stExpect _ _ _ hr)))
      | exact Post_some (hR.errorf _ _ _ h (Raised.expectedExpression p (by
          unfold isDispatchKind; split <;> simp_all)))
  · -- parseNextExpression
    intro p0 p h
    rw [parseNextExpression]
    exact ih.expression _ _ (hR.next _ _ h)
  · -- parseOperation
    intro l lhs p0 p h
    rw [parseOperation]
    split
    · exact Post_bind (hsub.parseUnaryExpressionLeft _ hcb _ _ _ _ (hR.next _ _ h))
        (fun r hr => ih.operation _ _ _ _ hr)
    · exact Post_bind (hsub.parseBinaryOperation _ hcb _ _ _ _ _ (hR.next _ _ h))
        (fun r hr => ih.operation _ _ _ _ hr)
    · exact Post_bind (hsub.parseTernaryOperation _ hcb _ _ _ (hR.next _ _ h))
        (fun r hr => ih.operation _ _ _ _ hr)
    · exact Post_bind (ih.assignment _ _ _ (hR.next _ _ h))
        (fun r hr => ih.operation _ _ _ _ hr)
    · exact Post_some (hR.backup _ _ (hR.next _ _ h))
  · -- parseAssignmentOperation
    intro lhs p0 p h
    rw [parseAssignmentOperation]
    refine Post_bind (ih.nextExpression _ _ ?_) (fun r hr => Post_some hr)
    split
    · exact h
    · exact hR.errorf _ _ _ h (Raised.notAssignable p lhs (by simp_all))
  · -- parseOperand
    intro p0 p h
    rw [parseOperand]
    split
    all_goals first
      | exact Post_bind (ih.operand _ _ (hR.next _ _ h))
          (fun r hr => hsub.parseUnaryExpressionRight _ hcb _ _ _ _ hr)
      | exact ih.operandLoop _ _ _ h
  · -- parseOperandLoop
    intro e p0 p h
    rw [parseOperandLoop]
    split
    · exact Post_some h
    · exact Post_some (hR.stLiteral _ _ h)
    · exact Post_some (hR.stLiteral _ _ h)
    · exact Post_some (hR.stLiteral _ _ h)
    · exact Post_some (hR.stLiteral _ _ h)
    · exact ih.operandLoop _ _ _ (hR.next _ _ h)
    · exact Post_bind (hsub.parseArrayDeclaration _ hcb _ _ h)
        (fun r hr => ih.operandLoop _ _ _ (hR.next _ _ hr))
    · refine Post_bind (ih.parseVar _ _ h) (fun r hr => ?_)
      dsimp only
      split
      · exact Post_bind (hsub.parseArrayLookup _ hcb _ _ _ (hR.next _ _ hr))
          (fun r1 hr1 => ih.operandLoop _ _ _ (hR.next _ _ hr1))
      · exact Post_bind (ih.nextExpression _ _ (hR.next _ _ hr))
          (fun r1 hr1 => ih.operandLoop _ _ _ (hR.next _ _ hr1))
      · exact ih.operandLoop _ _ _ (hR.next _ _ hr)
    · exact Post_bind (hsub.parseObjectLookup _ hcb _ _ _ h)
        (fun r hr => ih.operandLoop _ _ _ (hR.next _ _ hr))
    · exact Post_bind (hsub.parseArrayLookup _ hcb _ _ _ h)
        (fun r hr => ih.operandLoop _ _ _ (hR.next _ _ hr))
    · split
      · exact Post_bind (hsub.parseFunctionCall _ hcb _ _ _ h)
          (fun r hr => ih.operandLoop _ _ _ (hR.next _ _ hr))
      · exact Post_bind (ih.nextExpression _ _ (hR.next _ _ h))
          (fun r hr => ih.operandLoop _ _ _ (hR.next _ _ hr))
      · exact ih.operandLoop _ _ _ (hR.next _ _ h)
    all_goals first
      | exact Post_some (hR.backup _ _ h)
      | (split
         · exact Post_bind (ih.nextExpression _ _ (hR.stExpect _ _ _ h))
             (fun r hr => Post_some hr)
         · exact ih.operandLoop _ _ _ (hR.next _ _ h))
  · -- parseVariable
    intro p0 p h
    rw [parseVariable]
    split
    · exact Post_some (hR.next _ _ (hR.stExpectCurrent _ _ _ h))
    · exact ih.expression _ _ (hR.next _ _ (hR.stExpectCurrent _ _ _ h))
  · -- parseInclude
    intro p0 p h
    rw [parseInclude]
    exact ih.includeLoop _ _ _ h
  · -- parseIncludeLoop
    intro es p0 p h
    rw [parseIncludeLoop]
    refine Post_bind (ih.nextExpression _ _ h) (fun r hr => ?_)
    split
    · exact Post_some hr
    · exact ih.includeLoop _ _ _ (hR.stExpect _ _ _ hr)
  · -- parseIgnoreError
    intro p0 p h
    rw [parseIgnoreError]
    exact ih.expression _ _ (hR.next _ _ h)
  · -- parseNew
    intro l p0 p h
    rw [parseNew]
    exact Post_bind (hsub.parseInstantiation _ hcb _ _ h)
      (fun r hr => ih.operation _ _ _ _ hr)

/-- Every function of the file maintains a stable relation, whatever the
fuel, provided the sub-parsers outside the file do. -/
theorem allRespect {R : parser → parser → Prop} {sub : SubParsers} (hR : Stable R)
    (hsub : SubRespects R sub) : ∀ f, AllRespect R sub f
  | 0 => allRespect_zero R sub
  | f + 1 => allRespect_succ hR hsub f (allRespect hR hsub f)


/-! ## Two stable relations -/

theorem stable_sameParen : Stable SameParen where
  next := fun _ _ h => h
  backup := fun _ _ h => h
  errorf := fun _ _ _ h _ => h
  inc := fun p0 p h => by
    unfold SameParen parenInc at *
    simp only [h]
  dec := fun p0 p h => by
    unfold SameParen parenInc parenDec at *
    simp only [h]
    omega

theorem stable_errorsExtend : Stable ErrorsExtend where
  next := fun _ _ h => h
  backup := fun _ _ h => h
  errorf := fun p0 p e h he => by
    obtain ⟨ht, es, hes, hd, ha⟩ := h
    refine ⟨ht, es ++ [e], ?_, ?_, ?_⟩
    · simp [hes]
    · intro t hmem
      rcases List.mem_append.mp hmem with hmem | hmem
      · exact hd t hmem
      · cases he <;> simp at hmem
        subst hmem
        assumption
    · intro x hmem
      rcases List.mem_append.mp hmem with hmem | hmem
      · exact ha x hmem
      · cases he <;> simp at hmem
        subst hmem
        assumption
  inc := fun _ _ h => h
  dec := fun _ _ h => h

theorem errorsExtend_refl (p : parser) : ErrorsExtend p p :=
  ⟨rfl, [], by simp, by simp, by simp⟩

/-! ## The sub-parsers the spec describes maintain a stable relation -/

theorem specBinaryLoop_respects {R : parser → parser → Prop} {cb : Callbacks}
    (hcb : CallbacksRespect R cb) (prec : Nat) (l : Int) :
    ∀ (n : Nat) (rhs : Expr) (p0 p : parser), R p0 p →
      Post (specBinaryLoop cb prec l n rhs p) (R p0)
  | 0, _, _, _, _ => by
    rw [specBinaryLoop]; exact Post_none _
  | n + 1, rhs, p0, p, h => by
    rw [specBinaryLoop]
    split
    · split
      · exact Post_bind (hcb.parseOperation _ _ _ _ h)
          (fun r hr => specBinaryLoop_respects hcb prec l n _ _ _ hr)
      · exact Post_some h
    · exact Post_some h

theorem specParseBinaryOperation_respects {R : parser → parser → Prop} (hR : Stable R)
    (cb : Callbacks) (hcb : CallbacksRespect R cb) (e : Expr) (op : Item) (l : Int)
    (p0 p : parser) (h : R p0 p) : Post (specParseBinaryOperation cb e op l p) (R p0) :=
  Post_bind (hcb.parseOperand _ _ (hR.next _ _ h)) (fun _ hr =>
    Post_bind (specBinaryLoop_respects hcb _ _ _ _ _ _ hr) (fun _ hr1 => Post_some hr1))

theorem specSub_respects {R : parser → parser → Prop} (hR : Stable R) {base : SubParsers}
    (hbase : SubRespects R base) : SubRespects R (specSub base) where
  parseAnonymousFunction := hbase.parseAnonymousFunction
  parseList := hbase.parseList
  parseInstantiation := hbase.parseInstantiation
  parseArrayDeclaration := hbase.parseArrayDeclaration
  parseUnaryExpressionRight := fun _ _ _ _ _ _ h => Post_some h
  parseUnaryExpressionLeft := fun _ _ _ _ _ _ h => Post_some h
  parseBinaryOperation := specParseBinaryOperation_respects hR
  parseTernaryOperation := hbase.parseTernaryOperation
  parseArrayLookup := hbase.parseArrayLookup
  parseObjectLookup := hbase.parseObjectLookup
  parseFunctionCall := hbase.parseFunctionCall

theorem bareSub_respects {R : parser → parser → Prop} (hR : Stable R)
    (hu : ∀ msg p0 p, R p0 p → Post (unsupported msg p) (R p0)) : SubRespects R bareSub where
  parseAnonymousFunction := fun _ _ _ _ h => hu _ _ _ h
  parseList := fun _ _ _ _ h => hu _ _ _ h
  parseInstantiation := fun _ _ _ _ h => hu _ _ _ h
  parseArrayDeclaration := fun _ _ _ _ h => hu _ _ _ h
  parseUnaryExpressionRight := fun _ _ _ _ _ _ h => Post_some h
  parseUnaryExpressionLeft := fun _ _ _ _ _ _ h => Post_some h
  parseBinaryOperation := specParseBinaryOperation_respects hR
  parseTernaryOperation := fun _ _ _ _ _ h => hu _ _ _ h
  parseArrayLookup := fun _ _ _ _ _ h => hu _ _ _ h
  parseObjectLookup := fun _ _ _ _ _ h => hu _ _ _ h
  parseFunctionCall := fun _ _ _ _ _ h => hu _ _ _ h

theorem sameParen_unsupported (msg : String) (p0 p : parser) (h : SameParen p0 p) :
    Post (unsupported msg p) (SameParen p0) := Post_some h

theorem errorsExtend_unsupported (msg : String) (p0 p : parser) (h : ErrorsExtend p0 p) :
    Post (unsupported msg p) (ErrorsExtend p0) := by
  obtain ⟨ht, es, hes, hd, ha⟩ := h
  refine Post_some ⟨ht, es ++ [ParseError.other msg], ?_, ?_, ?_⟩
  · simp [hes]
  · intro t hmem
    rcases List.mem_append.mp hmem with hmem | hmem
    · exact hd t hmem
    · simp at hmem
  · intro x hmem
    rcases List.mem_append.mp hmem with hmem | hmem
    · exact ha x hmem
    · simp at hmem

theorem bareSub_sameParen : SubRespects SameParen bareSub :=
  bareSub_respects stable_sameParen sameParen_unsupported

theorem bareSub_errorsExtend : SubRespects ErrorsExtend bareSub :=
  bareSub_respects stable_errorsExtend errorsExtend_unsupported

/-! ## Paren balance -/

theorem parseExpression_openParen (sub : SubParsers) (f : Nat) (p : parser)
    (h : p.current.typ = Token.OpenParen) :
    parseExpression sub (f + 1) p =
      ((parseExpression sub f (parenInc p).next).bind fun r1 =>
        parseOperation sub f p.parenLevel r1.1
          (parenDec (r1.2.expect [Token.CloseParen]))).map (checkParenLevel p.parenLevel) := by
  rw [parseExpression]
  simp only [h]
  rfl

theorem checkParenLevel_same (l : Int) (r : Expr × parser) (h : r.2.parenLevel = l) :
    checkParenLevel l r = r := by
  simp [checkParenLevel, h]

/-- C2: provided the sub-parsers outside the file return with the paren
counter they were entered with, `parseExpression` returns with `parenLevel`
equal to its value on entry; in the parenthesised branch the inner expression
is parsed with the counter one higher, returns with it one higher, and the
operation loop runs after the decrement with the counter of the entry. -/
theorem parseExpression_parenLevel (sub : SubParsers) (hsub : SubRespects SameParen sub)
    (fuel : Nat) (p : parser) (r : Expr × parser)
    (h : parseExpression sub fuel p = some r) :
    r.2.parenLevel = p.parenLevel ∧
    (p.current.typ = Token.OpenParen →
      ∃ r1, parseExpression sub (fuel - 1) (parenInc p).next = some r1 ∧
        r1.2.parenLevel = p.parenLevel + 1 ∧
        (parenDec (r1.2.expect [Token.CloseParen])).parenLevel = p.parenLevel ∧
        parseOperation sub (fuel - 1) p.parenLevel r1.1
          (parenDec (r1.2.expect [Token.CloseParen])) = some r) := by
  have hall := allRespect stable_sameParen hsub
  have hlev : r.2.parenLevel = p.parenLevel := (hall fuel).expression p p rfl r h
  refine ⟨hlev, fun hop => ?_⟩
  cases fuel with
  | zero => rw [parseExpression] at h; cases h
  | succ f =>
    rw [parseExpression_openParen sub f p hop] at h
    rcases Option.map_eq_some'.mp h with ⟨r2, h2, hchk⟩
    rcases Option.bind_eq_some.mp h2 with ⟨r1, h1, h3⟩
    have e1 : r1.2.parenLevel = p.parenLevel + 1 :=
      (hall f).expression (parenInc p).next (parenInc p).next rfl r1 h1
    have e2 : (parenDec (r1.2.expect [Token.CloseParen])).parenLevel = p.parenLevel := by
      have : (r1.2.expect [Token.CloseParen]).parenLevel = r1.2.parenLevel :=
        stable_sameParen.stExpect r1.2 r1.2 _ rfl
      show (r1.2.expect [Token.CloseParen]).parenLevel - 1 = p.parenLevel
      omega
    have e3 : r2.2.parenLevel = p.parenLevel := by
      have := (hall f).operation p.parenLevel r1.1 _ _ rfl r2 h3
      exact this.trans e2
    rw [checkParenLevel_same _ _ e3] at hchk
    subst hchk
    exact ⟨r1, h1, e1, e2, h3⟩

/-! ## Unknown leading token -/

theorem parseExpression_default (sub : SubParsers) (f : Nat) (p : parser)
    (h : isDispatchKind p.current.typ = false) :
    parseExpression sub (f + 1) p =
      some (Expr.nil, p.errorf (ParseError.expectedExpression p.current)) := by
  rw [parseExpression]
  split <;> first
    | (simp_all [isDispatchKind]; done)
    | simp [checkParenLevel]

/-- C8: on a current token whose kind has no case in the switch,
`parseExpression` returns no expression and the state of the entry with one
error appended, "expected expression" naming the current token: the cursor
and `parenLevel` are those of the entry.  On a current token whose kind has a
case, no "expected expression" naming the current token is among the
errors the call appends (the sub-parsers outside the file appending errors
only, and none of that form for such a token). -/
theorem parseExpression_expected_expression (sub : SubParsers)
    (hsub : SubRespects ErrorsExtend sub) (fuel : Nat) (p : parser) :
    (isDispatchKind p.current.typ = false →
      parseExpression sub (fuel + 1) p =
        some (Expr.nil,
          { toks := p.toks, idx := p.idx, parenLevel := p.parenLevel,
            errors := p.errors ++ [ParseError.expectedExpression p.current] })) ∧
    (isDispatchKind p.current.typ = true →
      ∀ r, parseExpression sub fuel p = some r →
        ∃ es, r.2.errors = p.errors ++ es ∧
          ParseError.expectedExpression p.current ∉ es) := by
  refine ⟨fun h => parseExpression_default sub fuel p h, fun h r hr => ?_⟩
  obtain ⟨_, es, hes, hd, _⟩ :=
    (allRespect stable_errorsExtend hsub fuel).expression p p (errorsExtend_refl p) r hr
  refine ⟨es, hes, fun hmem => ?_⟩
  rw [hd _ hmem] at h
  cases h

/-! ## Assignability -/

/-- C3: `parseAssignmentOperation` on a left operand that is not a
`Variable`, `ArrayLookup`, `ObjectLookup`, `ClassExpression` or `List`
appends a "not assignable" error naming that operand to the errors of the
entry before it parses the right-hand side, and the error is still there on
return; on one of the five it parses the right-hand side in the state of
the entry, and no "not assignable" error naming the operand is among the
errors the call appends (the sub-parsers outside the file appending errors
only, and none of that form for an assignable operand). -/
theorem parseAssignmentOperation_assignable (sub : SubParsers)
    (hsub : SubRespects ErrorsExtend sub) (fuel : Nat) (lhs : Expr) (p : parser) :
    (Assignable lhs = true ↔
      ((∃ n, lhs = Expr.Variable n) ∨ (∃ a i, lhs = Expr.ArrayLookup a i) ∨
        (∃ a m, lhs = Expr.ObjectLookup a m) ∨ (∃ a m, lhs = Expr.ClassExpression a m) ∨
        (∃ ts, lhs = Expr.List ts))) ∧
    (Assignable lhs = false →
      parseAssignmentOperation sub (fuel + 1) lhs p =
          (parseNextExpression sub fuel (p.errorf (ParseError.notAssignable lhs))).bind
            (fun r => some (Expr.AssignmentExpression Expr.nil p.current.val r.1, r.2)) ∧
        ∀ r, parseAssignmentOperation sub fuel lhs p = some r →
          ∃ es, r.2.errors = p.errors ++ ParseError.notAssignable lhs :: es) ∧
    (Assignable lhs = true →
      parseAssignmentOperation sub (fuel + 1) lhs p =
          (parseNextExpression sub fuel p).bind
            (fun r => some (Expr.AssignmentExpression lhs p.current.val r.1, r.2)) ∧
        ∀ r, parseAssignmentOperation sub fuel lhs p = some r →
          ∃ es, r.2.errors = p.errors ++ es ∧ ParseError.notAssignable lhs ∉ es) := by
  refine ⟨?_, ?_, ?_⟩
  · cases lhs <;> simp [Assignable]
  · intro hna
    have heq : ∀ f, parseAssignmentOperation sub (f + 1) lhs p =
        (parseNextExpression sub f (p.errorf (ParseError.notAssignable lhs))).bind
          (fun r => some (Expr.AssignmentExpression Expr.nil p.current.val r.1, r.2)) := by
      intro f
      rw [parseAssignmentOperation]
      simp only [hna, Bool.false_eq_true, if_false, parser.errorf_current]
    refine ⟨heq fuel, fun r h => ?_⟩
    cases fuel with
    | zero => rw [parseAssignmentOperation] at h; cases h
    | succ f =>
      rw [heq f] at h
      rcases Option.bind_eq_some.mp h with ⟨r1, h1, h2⟩
      obtain ⟨_, es, hes, _, _⟩ :=
        (allRespect stable_errorsExtend hsub f).nextExpression _ _ (errorsExtend_refl _) r1 h1
      cases h2
      exact ⟨es, by simp [hes]⟩
  · intro ha
    refine ⟨?_, fun r h => ?_⟩
    · rw [parseAssignmentOperation]
      simp only [ha, if_true]
    · obtain ⟨_, es, hes, _, hn⟩ :=
        (allRespect stable_errorsExtend hsub fuel).assignment lhs p p (errorsExtend_refl p) r h
      refine ⟨es, hes, fun hmem => ?_⟩
      rw [hn _ hmem] at ha
      cases ha

theorem parseExpression_parenLevel_witness :
    parseExpression bareSub 10
        (start [⟨Token.OpenParen, "("⟩, ⟨Token.NumberLiteral, "1"⟩, ⟨Token.CloseParen, ")"⟩]) =
      some (Expr.Literal LiteralType.Float "1",
        ⟨[⟨Token.OpenParen, "("⟩, ⟨Token.NumberLiteral, "1"⟩, ⟨Token.CloseParen, ")"⟩],
          2, 0, []⟩) ∧
    (0 : Int) = (start [⟨Token.OpenParen, "("⟩, ⟨Token.NumberLiteral, "1"⟩,
      ⟨Token.CloseParen, ")"⟩]).parenLevel :=
  ⟨rfl, (parseExpression_parenLevel bareSub bareSub_sameParen 10
    (start [⟨Token.OpenParen, "("⟩, ⟨Token.NumberLiteral, "1"⟩, ⟨Token.CloseParen, ")"⟩])
    (Expr.Literal LiteralType.Float "1",
      ⟨[⟨Token.OpenParen, "("⟩, ⟨Token.NumberLiteral, "1"⟩, ⟨Token.CloseParen, ")"⟩],
        2, 0, []⟩) rfl).1⟩

theorem parseExpression_expected_expression_witness :
    parseExpression bareSub 1 (start [⟨Token.CloseParen, ")"⟩]) =
      some (Expr.nil, ⟨[⟨Token.CloseParen, ")"⟩], 0, 0,
        [ParseError.expectedExpression ⟨Token.CloseParen, ")"⟩]⟩) :=
  (parseExpression_expected_expression bareSub bareSub_errorsExtend 0
    (start [⟨Token.CloseParen, ")"⟩])).1 rfl

theorem parseAssignmentOperation_assignable_witness :
    parseExpression bareSub 10
        (start [⟨Token.NumberLiteral, "1"⟩, ⟨Token.AssignmentOperator, "="⟩,
          ⟨Token.NumberLiteral, "2"⟩]) =
      some (Expr.AssignmentExpression Expr.nil "=" (Expr.Literal LiteralType.Float "2"),
        ⟨[⟨Token.NumberLiteral, "1"⟩, ⟨Token.AssignmentOperator, "="⟩,
          ⟨Token.NumberLiteral, "2"⟩], 2, 0,
          [ParseError.notAssignable (Expr.Literal LiteralType.Float "1")]⟩) ∧
    ∃ es, [ParseError.notAssignable (Expr.Literal LiteralType.Float "1")] =
      [] ++ ParseError.notAssignable (Expr.Literal LiteralType.Float "1") :: es :=
  ⟨rfl, ((parseAssignmentOperation_assignable bareSub bareSub_errorsExtend 8
    (Expr.Literal LiteralType.Float "1")
    ⟨[⟨Token.NumberLiteral, "1"⟩, ⟨Token.AssignmentOperator, "="⟩,
      ⟨Token.NumberLiteral, "2"⟩], 1, 0, []⟩).2.1 rfl).2
    (Expr.AssignmentExpression Expr.nil "=" (Expr.Literal LiteralType.Float "2"),
      ⟨[⟨Token.NumberLiteral, "1"⟩, ⟨Token.AssignmentOperator, "="⟩,
        ⟨Token.NumberLiteral, "2"⟩], 2, 0,
        [ParseError.notAssignable (Expr.Literal LiteralType.Float "1")]⟩) rfl⟩

/-! ## One step of each function -/

theorem parseOperation_nil (sub : SubParsers) (f : Nat) (l : Int) (lhs : Expr) (p : parser)
    (h : sub.operationTypeForToken p.next.current.typ = operationType.nilOperation) :
    parseOperation sub (f + 1) l lhs p = some (lhs, p) := by
  simp only [parseOperation, h, parser.backup_next]

theorem parseOperation_assignment (sub : SubParsers) (f : Nat) (l : Int) (lhs : Expr)
    (p : parser)
    (h : sub.operationTypeForToken p.next.current.typ = operationType.assignmentOperation) :
    parseOperation sub (f + 1) l lhs p =
      (parseAssignmentOperation sub f lhs p.next).bind fun r =>
        parseOperation sub f l r.1 r.2 := by
  simp only [parseOperation, h]

theorem parseOperation_binary (sub : SubParsers) (f : Nat) (l : Int) (lhs : Expr) (p : parser)
    (h : sub.operationTypeForToken p.next.current.typ = operationType.binaryOperation) :
    parseOperation sub (f + 1) l lhs p =
      (sub.parseBinaryOperation
          ⟨f, parseExpression sub f, parseOperand sub f, parseOperation sub f⟩
          lhs p.next.current l p.next).bind fun r =>
        parseOperation sub f l r.1 r.2 := by
  simp only [parseOperation, h]

theorem parseAssignmentOperation_step (sub : SubParsers) (f : Nat) (lhs : Expr) (p : parser) :
    parseAssignmentOperation sub (f + 2) lhs p =
      (parseExpression sub f
          (if Assignable lhs then p else p.errorf (ParseError.notAssignable lhs)).next).map
        fun r => (Expr.AssignmentExpression (if Assignable lhs then lhs else Expr.nil)
          p.current.val r.1, r.2) := by
  rw [parseAssignmentOperation, parseNextExpression]
  cases h : Assignable lhs <;> simp [Option.map_eq_bind, Function.comp_def]

theorem parseExpression_operand (sub : SubParsers) (f : Nat) (p : parser)
    (h : isOperandStart p.current.typ = true) :
    parseExpression sub (f + 1) p =
      ((parseOperand sub f p).bind fun r1 =>
        parseOperation sub f p.parenLevel r1.1 r1.2).map (checkParenLevel p.parenLevel) := by
  rw [parseExpression]
  cases hc : p.current.typ <;> rw [hc] at h <;> simp [isOperandStart] at h

theorem parseExpression_unaryBranch (sub : SubParsers) (f : Nat) (p : parser)
    (h : isPrefixKind p.current.typ = true) :
    parseExpression sub (f + 1) p =
      ((parseNextExpression sub f p).bind fun r1 =>
        sub.parseUnaryExpressionRight
          ⟨f, parseExpression sub f, parseOperand sub f, parseOperation sub f⟩
          r1.1 p.current r1.2).map (checkParenLevel p.parenLevel) := by
  rw [parseExpression]
  cases hc : p.current.typ <;> rw [hc] at h <;> simp [isPrefixKind] at h

theorem parseOperand_loop (sub : SubParsers) (f : Nat) (p : parser)
    (h : isPrefixKind p.current.typ = false) :
    parseOperand sub (f + 1) p = parseOperandLoop sub f Expr.nil p := by
  rw [parseOperand]
  cases hc : p.current.typ <;> rw [hc] at h <;> simp [isPrefixKind] at h

theorem parseOperandLoop_stop (sub : SubParsers) (f : Nat) (e : Expr) (p : parser)
    (h : stopsOperand p.current.typ = true) :
    parseOperandLoop sub (f + 1) e p = some (e, p.backup) := by
  rw [parseOperandLoop]
  split <;> simp_all [stopsOperand]

theorem parseOperandLoop_literal (sub : SubParsers) (f : Nat) (e : Expr) (p : parser)
    (h : isLiteralKind p.current.typ = true) :
    parseOperandLoop sub (f + 1) e p = some (parseLiteral p) := by
  rw [parseOperandLoop]
  split <;> simp_all [isLiteralKind]

theorem parseVariable_identifier (sub : SubParsers) (f : Nat) (p : parser)
    (h0 : p.current.typ = Token.VariableOperator)
    (h1 : p.next.current.typ = Token.Identifier) :
    parseVariable sub (f + 1) p = some (Expr.Variable p.next.current.val, p.next) := by
  have e : p.expectCurrent [Token.VariableOperator] = p := by
    simp [parser.expectCurrent, h0]
  rw [parseVariable]
  simp only [e, h1, NewVariable, decide_True, Bool.or_true, if_true]

theorem parseOperandLoop_variable (sub : SubParsers) (f : Nat) (e : Expr) (p : parser)
    (h0 : p.current.typ = Token.VariableOperator)
    (h1 : p.next.current.typ = Token.Identifier)
    (h2 : p.next.next.current.typ ≠ Token.BlockBegin)
    (h3 : p.next.next.current.typ ≠ Token.ScopeResolutionOperator) :
    parseOperandLoop sub (f + 2) e p =
      parseOperandLoop sub (f + 1) (Expr.Variable p.next.current.val) p.next.next := by
  rw [parseOperandLoop]
  simp only [h0, parseVariable_identifier sub f p h0 h1, Option.some_bind]

/-- The variable `$name` followed by a token that neither continues the
operand nor opens a curly lookup or a scope resolution is the operand
`Variable name`; the cursor is left on the name. -/
theorem parseOperand_variable (sub : SubParsers) (f : Nat) (p : parser)
    (h0 : p.current.typ = Token.VariableOperator)
    (h1 : p.next.current.typ = Token.Identifier)
    (h2 : p.next.next.current.typ ≠ Token.BlockBegin)
    (h3 : p.next.next.current.typ ≠ Token.ScopeResolutionOperator)
    (h4 : stopsOperand p.next.next.current.typ = true) :
    parseOperand sub (f + 3) p = some (Expr.Variable p.next.current.val, p.next) := by
  rw [parseOperand_loop sub (f + 2) p (by rw [h0]; rfl),
    parseOperandLoop_variable sub f _ p h0 h1 h2 h3,
    parseOperandLoop_stop sub f _ _ h4, parser.backup_next]

/-- A literal token is the operand `parseLiteral` returns; the cursor stays
on it. -/
theorem parseOperand_literal (sub : SubParsers) (f : Nat) (p : parser)
    (h : isLiteralKind p.current.typ = true) :
    parseOperand sub (f + 2) p = some (parseLiteral p) := by
  rw [parseOperand_loop sub (f + 1) p, parseOperandLoop_literal sub f _ p h]
  revert h
  cases p.current.typ <;> simp [isLiteralKind, isPrefixKind]

/-! ## Assignment -/

theorem parseExpression_variable_end (sub : SubParsers) (f : Nat) (p : parser)
    (h0 : p.current.typ = Token.VariableOperator)
    (h1 : p.next.current.typ = Token.Identifier)
    (h2 : p.next.next.current.typ ≠ Token.BlockBegin)
    (h3 : p.next.next.current.typ ≠ Token.ScopeResolutionOperator)
    (h4 : stopsOperand p.next.next.current.typ = true)
    (h5 : sub.operationTypeForToken p.next.next.current.typ = operationType.nilOperation) :
    parseExpression sub (f + 4) p = some (Expr.Variable p.next.current.val, p.next) := by
  rw [parseExpression_operand sub (f + 3) p (by rw [h0]; rfl),
    parseOperand_variable sub f p h0 h1 h2 h3 h4, Option.some_bind,
    parseOperation_nil sub (f + 2) _ _ _ h5, Option.map_some']
  exact congrArg some (checkParenLevel_same _ _ rfl)

theorem parseExpression_variable_assignment (sub : SubParsers) (f : Nat) (p q : parser)
    (v : Expr)
    (hA : sub.operationTypeForToken Token.AssignmentOperator =
      operationType.assignmentOperation)
    (h0 : p.current.typ = Token.VariableOperator)
    (h1 : p.next.current.typ = Token.Identifier)
    (h2 : p.next.next.current.typ = Token.AssignmentOperator)
    (hv : parseExpression sub f p.next.next.next = some (v, q))
    (hq : sub.operationTypeForToken q.next.current.typ = operationType.nilOperation)
    (hl : q.parenLevel = p.parenLevel) :
    parseExpression sub (f + 4) p =
      some (Expr.AssignmentExpression (Expr.Variable p.next.current.val)
        p.next.next.current.val v, q) := by
  rw [parseExpression_operand sub (f + 3) p (by rw [h0]; rfl),
    parseOperand_variable sub f p h0 h1 (by rw [h2]; decide) (by rw [h2]; decide)
      (by rw [h2]; rfl),
    Option.some_bind,
    parseOperation_assignment sub (f + 2) _ _ _ (by rw [h2]; exact hA),
    parseAssignmentOperation_step sub f]
  simp only [Assignable, if_true, hv, Option.map_some', Option.some_bind]
  rw [parseOperation_nil sub (f + 1) _ _ _ hq, Option.map_some']
  exact congrArg some (checkParenLevel_same _ _ hl)

/-- C4: on the token stream `$a op1 $b op2 $c`, with `op1` and `op2`
assignment operators, `parseExpression` returns
`AssignmentExpression(a, op1, AssignmentExpression(b, op2, c))` with the
cursor on the last token; and whatever the left operand, the expression
`parseAssignmentOperation` builds has as `Value` the result of
`parseExpression` started on the token after the operator and as `Operator`
the text of the operator token. -/
theorem assignment_right_associative (sub : SubParsers)
    (hA : sub.operationTypeForToken Token.AssignmentOperator =
      operationType.assignmentOperation)
    (hE : sub.operationTypeForToken Token.EOF = operationType.nilOperation)
    (a op1 b op2 c : String) (lvl : Int) (errs : List ParseError) (fuel : Nat)
    (hf : 12 ≤ fuel) :
    parseExpression sub fuel ⟨assignmentChain a op1 b op2 c, 0, lvl, errs⟩ =
      some (Expr.AssignmentExpression (Expr.Variable a) op1
          (Expr.AssignmentExpression (Expr.Variable b) op2 (Expr.Variable c)),
        ⟨assignmentChain a op1 b op2 c, 7, lvl, errs⟩) ∧
    ∀ (f : Nat) (lhs : Expr) (p : parser),
      parseAssignmentOperation sub (f + 2) lhs p =
        (parseExpression sub f
            (if Assignable lhs then p else p.errorf (ParseError.notAssignable lhs)).next).map
          fun r => (Expr.AssignmentExpression (if Assignable lhs then lhs else Expr.nil)
            p.current.val r.1, r.2) := by
  refine ⟨?_, parseAssignmentOperation_step sub⟩
  obtain ⟨k, rfl⟩ := le_fuel hf
  have e3 : parseExpression sub (k + 4) ⟨assignmentChain a op1 b op2 c, 6, lvl, errs⟩ =
      some (Expr.Variable c, ⟨assignmentChain a op1 b op2 c, 7, lvl, errs⟩) :=
    parseExpression_variable_end sub k _ rfl rfl (by show Token.EOF ≠ _; decide)
      (by show Token.EOF ≠ _; decide) rfl hE
  have e2 : parseExpression sub (k + 8) ⟨assignmentChain a op1 b op2 c, 3, lvl, errs⟩ =
      some (Expr.AssignmentExpression (Expr.Variable b) op2 (Expr.Variable c),
        ⟨assignmentChain a op1 b op2 c, 7, lvl, errs⟩) :=
    parseExpression_variable_assignment sub (k + 4) _ _ _ hA rfl rfl rfl e3 hE rfl
  exact parseExpression_variable_assignment sub (k + 8) _ _ _ hA rfl rfl rfl e2 hE rfl

theorem assignment_right_associative_witness :
    parseExpression bareSub 12 ⟨assignmentChain "a" "=" "b" "+=" "c", 0, 0, []⟩ =
      some (Expr.AssignmentExpression (Expr.Variable "a") "="
          (Expr.AssignmentExpression (Expr.Variable "b") "+=" (Expr.Variable "c")),
        ⟨assignmentChain "a" "=" "b" "+=" "c", 7, 0, []⟩) :=
  (assignment_right_associative bareSub rfl rfl "a" "=" "b" "+=" "c" 0 [] 12
    (Nat.le_refl 12)).1

/-! ## Call recognition -/

theorem parseOperandLoop_call (sub : SubParsers) (f : Nat) (e : Expr) (p : parser)
    (h0 : p.current.typ = Token.Identifier) (h1 : p.peek.typ = Token.OpenParen) :
    parseOperandLoop sub (f + 1) e p =
      (sub.parseFunctionCall
          ⟨f, parseExpression sub f, parseOperand sub f, parseOperation sub f⟩
          (Expr.Identifier p.current.val) p).bind fun r =>
        parseOperandLoop sub f r.1 r.2.next := by
  rw [parseOperandLoop]
  simp only [h0, h1]

/-- C10: on an identifier whose lookahead token is an open paren,
`parseOperand` calls the function-call sub-parser with callee
`Identifier` of the identifier's text, in the state of the entry, and goes on
with the loop from its result; on a variable `$foo` followed by an open
paren it returns `Variable foo` with the cursor on the name, the open paren
being the token of the next advance, whatever the function-call sub-parser
is. -/
theorem parseOperand_call_recognition (sub : SubParsers) (f : Nat) (p : parser) :
    (p.current.typ = Token.Identifier → p.peek.typ = Token.OpenParen →
      parseOperand sub (f + 2) p =
        (sub.parseFunctionCall
            ⟨f, parseExpression sub f, parseOperand sub f, parseOperation sub f⟩
            (Expr.Identifier p.current.val) p).bind fun r =>
          parseOperandLoop sub f r.1 r.2.next) ∧
    (p.current.typ = Token.VariableOperator → p.next.current.typ = Token.Identifier →
      p.next.next.current.typ = Token.OpenParen →
      parseOperand sub (f + 3) p = some (Expr.Variable p.next.current.val, p.next) ∧
        (p.next).peek.typ = Token.OpenParen) := by
  constructor
  · intro h0 h1
    rw [parseOperand_loop sub (f + 1) p (by rw [h0]; rfl), parseOperandLoop_call sub f _ p h0 h1]
  · intro h0 h1 h2
    exact ⟨parseOperand_variable sub f p h0 h1 (by rw [h2]; decide) (by rw [h2]; decide)
      (by rw [h2]; rfl), h2⟩

theorem parseOperand_call_recognition_witness :
    parseOperand bareSub 3
        (start [⟨Token.VariableOperator, "$"⟩, ⟨Token.Identifier, "foo"⟩,
          ⟨Token.OpenParen, "("⟩, ⟨Token.CloseParen, ")"⟩]) =
      some (Expr.Variable "foo",
        ⟨[⟨Token.VariableOperator, "$"⟩, ⟨Token.Identifier, "foo"⟩,
          ⟨Token.OpenParen, "("⟩, ⟨Token.CloseParen, ")"⟩], 1, 0, []⟩) ∧
    parseOperand bareSub 2
        (start [⟨Token.Identifier, "foo"⟩, ⟨Token.OpenParen, "("⟩, ⟨Token.CloseParen, ")"⟩]) =
      (bareSub.parseFunctionCall
          ⟨0, parseExpression bareSub 0, parseOperand bareSub 0, parseOperation bareSub 0⟩
          (Expr.Identifier "foo")
          (start [⟨Token.Identifier, "foo"⟩, ⟨Token.OpenParen, "("⟩,
            ⟨Token.CloseParen, ")"⟩])).bind fun r =>
        parseOperandLoop bareSub 0 r.1 r.2.next :=
  ⟨((parseOperand_call_recognition bareSub 0
      (start [⟨Token.VariableOperator, "$"⟩, ⟨Token.Identifier, "foo"⟩,
        ⟨Token.OpenParen, "("⟩, ⟨Token.CloseParen, ")"⟩])).2 rfl rfl rfl).1,
   (parseOperand_call_recognition bareSub 0
      (start [⟨Token.Identifier, "foo"⟩, ⟨Token.OpenParen, "("⟩,
        ⟨Token.CloseParen, ")"⟩])).1 rfl rfl⟩

/-! ## Binary operators -/

theorem binary_has_precedence (t : Token)
    (h : specOperationTypeForToken t = operationType.binaryOperation) :
    ∃ k, operatorPrecedence t = some k := by
  cases t <;> first
    | (simp [specOperationTypeForToken] at h; done)
    | exact ⟨_, rfl⟩

theorem specBinaryLoop_stop (cb : Callbacks) (cur : Nat) (l : Int) (n : Nat) (rhs : Expr)
    (p : parser) (h : precedenceOf p.peek.typ ≤ cur) :
    specBinaryLoop cb cur l (n + 1) rhs p = some (rhs, p) := by
  rw [specBinaryLoop]
  split
  · rename_i k hk
    have : k ≤ cur := by simpa [precedenceOf, hk] using h
    rw [if_neg (by omega)]
  · rfl

theorem specBinaryLoop_step (cb : Callbacks) (cur : Nat) (l : Int) (n : Nat) (rhs : Expr)
    (p : parser) (h : cur < precedenceOf p.peek.typ) :
    specBinaryLoop cb cur l (n + 1) rhs p =
      (cb.parseOperation l rhs p).bind fun r => specBinaryLoop cb cur l n r.1 r.2 := by
  rw [specBinaryLoop]
  split
  · rename_i k hk
    have : cur < k := by simpa [precedenceOf, hk] using h
    rw [if_pos this]
  · rename_i hk
    simp [precedenceOf, hk] at h

theorem operandAt_pos {sub : SubParsers} {n : Nat} {p q : parser} {e : Expr}
    (h : OperandAt sub n p e q) : 0 < n := by
  rcases Nat.eq_zero_or_pos n with h0 | h0
  · subst h0
    have := h 0 (Nat.le_refl 0)
    rw [parseOperand] at this
    cases this
  · exact h0

/-- The operation loop on `lhs op rhs` followed by a token that is no
operator: one binary operation, the cursor on the last token of `rhs`. -/
theorem parseOperation_binary_last (base : SubParsers) (n : Nat) (l : Int) (lhs rhs : Expr)
    (p q : parser)
    (hop : specOperationTypeForToken p.next.current.typ = operationType.binaryOperation)
    (hr : OperandAt (specSub base) n p.next.next rhs q)
    (hend : specOperationTypeForToken q.next.current.typ = operationType.nilOperation)
    (hendp : precedenceOf q.next.current.typ ≤ precedenceOf p.next.current.typ)
    (f : Nat) (hf : n ≤ f) :
    parseOperation (specSub base) (f + 1) l lhs p =
      some (Expr.BinaryOperation lhs p.next.current.val rhs, q) := by
  have hn := operandAt_pos hr
  obtain ⟨k, rfl⟩ : ∃ k, f = k + 1 := ⟨f - 1, by omega⟩
  rw [parseOperation_binary (specSub base) (k + 1) l lhs p hop]
  show (specParseBinaryOperation _ lhs p.next.current l p.next).bind _ = _
  unfold specParseBinaryOperation
  simp only [hr (k + 1) hf, Option.some_bind]
  rw [specBinaryLoop_stop _ ((operatorPrecedence p.next.current.typ).getD 0) _ k _ _ hendp]
  simp only [Option.some_bind]
  exact parseOperation_nil (specSub base) k l _ q hend

theorem operand_branch_result (sub : SubParsers) (n f : Nat) (p pa q : parser) (a e : Expr)
    (hstart : isOperandStart p.current.typ = true)
    (ha : OperandAt sub n p a pa) (hf : n ≤ f)
    (hop : parseOperation sub f p.parenLevel a pa = some (e, q))
    (hlev : q.parenLevel = p.parenLevel) :
    parseExpression sub (f + 1) p = some (e, q) := by
  rw [parseExpression_operand sub f p hstart, ha f hf, Option.some_bind, hop, Option.map_some']
  exact congrArg some (checkParenLevel_same _ _ hlev)

/-- On `a op1 b op2 c` with `op2` of higher precedence than `op1`, the second
operation is nested in the right operand of the first. -/
theorem binary_right_nested (base : SubParsers) (n : Nat) (p pa pb pc : parser) (a b c : Expr)
    (hstart : isOperandStart p.current.typ = true)
    (ha : OperandAt (specSub base) n p a pa)
    (h1 : specOperationTypeForToken pa.next.current.typ = operationType.binaryOperation)
    (hb : OperandAt (specSub base) n pa.next.next b pb)
    (h2 : specOperationTypeForToken pb.next.current.typ = operationType.binaryOperation)
    (hc : OperandAt (specSub base) n pb.next.next c pc)
    (hend : specOperationTypeForToken pc.next.current.typ = operationType.nilOperation)
    (hend1 : precedenceOf pc.next.current.typ ≤ precedenceOf pa.next.current.typ)
    (hlev : pc.parenLevel = p.parenLevel)
    (hprec : precedenceOf pa.next.current.typ < precedenceOf pb.next.current.typ)
    (fuel : Nat) (hf : n + 3 ≤ fuel) :
    parseExpression (specSub base) fuel p =
      some (Expr.BinaryOperation a pa.next.current.val
        (Expr.BinaryOperation b pb.next.current.val c), pc) := by
  have hn := operandAt_pos ha
  obtain ⟨k, rfl⟩ : ∃ k, fuel = k + 1 + 1 + 1 + 1 := ⟨fuel - 4, by omega⟩
  refine operand_branch_result _ n _ p pa pc a _ hstart ha (by omega) ?_ hlev
  rw [parseOperation_binary (specSub base) (k + 1 + 1) _ a pa h1]
  show (specParseBinaryOperation _ a pa.next.current _ pa.next).bind _ = _
  unfold specParseBinaryOperation
  simp only [hb (k + 1 + 1) (by omega), Option.some_bind]
  rw [specBinaryLoop_step _ ((operatorPrecedence pa.next.current.typ).getD 0) _ (k + 1) _ _
    hprec]
  simp only []
  rw [parseOperation_binary_last base n _ b c pb pc h2 hc hend (by omega) (k + 1) (by omega)]
  simp only [Option.some_bind]
  rw [specBinaryLoop_stop _ ((operatorPrecedence pa.next.current.typ).getD 0) _ k _ _ hend1]
  simp only [Option.some_bind]
  exact parseOperation_nil (specSub base) (k + 1) _ _ pc hend

/-- On `a op1 b op2 c` with `op2` of precedence at most that of `op1`, the
first operation is the left operand of the second. -/
theorem binary_left_nested (base : SubParsers) (n : Nat) (p pa pb pc : parser) (a b c : Expr)
    (hstart : isOperandStart p.current.typ = true)
    (ha : OperandAt (specSub base) n p a pa)
    (h1 : specOperationTypeForToken pa.next.current.typ = operationType.binaryOperation)
    (hb : OperandAt (specSub base) n pa.next.next b pb)
    (h2 : specOperationTypeForToken pb.next.current.typ = operationType.binaryOperation)
    (hc : OperandAt (specSub base) n pb.next.next c pc)
    (hend : specOperationTypeForToken pc.next.current.typ = operationType.nilOperation)
    (hend2 : precedenceOf pc.next.current.typ ≤ precedenceOf pb.next.current.typ)
    (hlev : pc.parenLevel = p.parenLevel)
    (hprec : precedenceOf pb.next.current.typ ≤ precedenceOf pa.next.current.typ)
    (fuel : Nat) (hf : n + 3 ≤ fuel) :
    parseExpression (specSub base) fuel p =
      some (Expr.BinaryOperation (Expr.BinaryOperation a pa.next.current.val b)
        pb.next.current.val c, pc) := by
  have hn := operandAt_pos ha
  obtain ⟨k, rfl⟩ : ∃ k, fuel = k + 1 + 1 + 1 + 1 := ⟨fuel - 4, by omega⟩
  refine operand_branch_result _ n _ p pa pc a _ hstart ha (by omega) ?_ hlev
  rw [parseOperation_binary (specSub base) (k + 1 + 1) _ a pa h1]
  show (specParseBinaryOperation _ a pa.next.current _ pa.next).bind _ = _
  unfold specParseBinaryOperation
  simp only [hb (k + 1 + 1) (by omega), Option.some_bind]
  rw [specBinaryLoop_stop _ ((operatorPrecedence pa.next.current.typ).getD 0) _ (k + 1) _ _
    hprec]
  simp only [Option.some_bind]
  exact parseOperation_binary_last base n _ _ c pb pc h2 hc hend hend2 (k + 1) (by omega)

theorem operandAt_literal (sub : SubParsers) (p : parser)
    (h : isLiteralKind p.current.typ = true) :
    OperandAt sub 2 p (parseLiteral p).1 (parseLiteral p).2 := by
  intro fuel hf
  obtain ⟨k, rfl⟩ := le_fuel hf
  exact parseOperand_literal sub k p h

/-- Precedence when the first operand starts on an operand token (not on a
prefix operator): on `a op1 b op2 c`, with `a`, `b`, `c` operands as
`parseOperand` resolves them, `op1` and `op2` of the binary family and nothing
of the operation families after `c`, `parseExpression` returns
`BinaryOperation(a, op1, BinaryOperation(b, op2, c))` when `op2` has the higher
entry in `operatorPrecedence`, and
`BinaryOperation(BinaryOperation(a, op1, b), op2, c)` when `op1` has the
higher one; the cursor is left on the last token of `c`. -/
theorem binary_precedence (base : SubParsers) (n : Nat) (p pa pb pc : parser) (a b c : Expr)
    (hstart : isOperandStart p.current.typ = true)
    (ha : OperandAt (specSub base) n p a pa)
    (h1 : specOperationTypeForToken pa.next.current.typ = operationType.binaryOperation)
    (hb : OperandAt (specSub base) n pa.next.next b pb)
    (h2 : specOperationTypeForToken pb.next.current.typ = operationType.binaryOperation)
    (hc : OperandAt (specSub base) n pb.next.next c pc)
    (hend : specOperationTypeForToken pc.next.current.typ = operationType.nilOperation)
    (hend1 : precedenceOf pc.next.current.typ ≤ precedenceOf pa.next.current.typ)
    (hend2 : precedenceOf pc.next.current.typ ≤ precedenceOf pb.next.current.typ)
    (hlev : pc.parenLevel = p.parenLevel)
    (fuel : Nat) (hf : n + 3 ≤ fuel) :
    (precedenceOf pa.next.current.typ < precedenceOf pb.next.current.typ →
      parseExpression (specSub base) fuel p =
        some (Expr.BinaryOperation a pa.next.current.val
          (Expr.BinaryOperation b pb.next.current.val c), pc)) ∧
    (precedenceOf pb.next.current.typ < precedenceOf pa.next.current.typ →
      parseExpression (specSub base) fuel p =
        some (Expr.BinaryOperation (Expr.BinaryOperation a pa.next.current.val b)
          pb.next.current.val c, pc)) :=
  ⟨fun hprec => binary_right_nested base n p pa pb pc a b c hstart ha h1 hb h2 hc hend hend1
      hlev hprec fuel hf,
   fun hprec => binary_left_nested base n p pa pb pc a b c hstart ha h1 hb h2 hc hend hend2
      hlev (Nat.le_of_lt hprec) fuel hf⟩

theorem binary_precedence_witness :
    parseExpression (specSub bareSub) 5
        (start [⟨Token.NumberLiteral, "1"⟩, ⟨Token.AdditionOperator, "+"⟩,
          ⟨Token.NumberLiteral, "2"⟩, ⟨Token.MultOperator, "*"⟩,
          ⟨Token.NumberLiteral, "3"⟩]) =
      some (Expr.BinaryOperation (Expr.Literal LiteralType.Float "1") "+"
          (Expr.BinaryOperation (Expr.Literal LiteralType.Float "2") "*"
            (Expr.Literal LiteralType.Float "3")),
        ⟨[⟨Token.NumberLiteral, "1"⟩, ⟨Token.AdditionOperator, "+"⟩,
          ⟨Token.NumberLiteral, "2"⟩, ⟨Token.MultOperator, "*"⟩,
          ⟨Token.NumberLiteral, "3"⟩], 4, 0, []⟩) :=
  (binary_precedence bareSub 2
    (start [⟨Token.NumberLiteral, "1"⟩, ⟨Token.AdditionOperator, "+"⟩,
      ⟨Token.NumberLiteral, "2"⟩, ⟨Token.MultOperator, "*"⟩, ⟨Token.NumberLiteral, "3"⟩])
    ⟨[⟨Token.NumberLiteral, "1"⟩, ⟨Token.AdditionOperator, "+"⟩,
      ⟨Token.NumberLiteral, "2"⟩, ⟨Token.MultOperator, "*"⟩, ⟨Token.NumberLiteral, "3"⟩],
      0, 0, []⟩
    ⟨[⟨Token.NumberLiteral, "1"⟩, ⟨Token.AdditionOperator, "+"⟩,
      ⟨Token.NumberLiteral, "2"⟩, ⟨Token.MultOperator, "*"⟩, ⟨Token.NumberLiteral, "3"⟩],
      2, 0, []⟩
    ⟨[⟨Token.NumberLiteral, "1"⟩, ⟨Token.AdditionOperator, "+"⟩,
      ⟨Token.NumberLiteral, "2"⟩, ⟨Token.MultOperator, "*"⟩, ⟨Token.NumberLiteral, "3"⟩],
      4, 0, []⟩
    (Expr.Literal LiteralType.Float "1") (Expr.Literal LiteralType.Float "2")
    (Expr.Literal LiteralType.Float "3")
    rfl (operandAt_literal _ _ rfl) rfl (operandAt_literal _ _ rfl) rfl
    (operandAt_literal _ _ rfl) rfl (by decide) (by decide) rfl 5 (by decide)).1 (by decide)

/-- Left associativity when the first operand starts on an operand token (not
on a prefix operator): on `a op1 b op2 c`, with `op1` and `op2` binary
operators of one precedence level (as in `a - b - c`), `parseExpression`
returns
`BinaryOperation(BinaryOperation(a, op1, b), op2, c)`; and `parseOperation`,
on a token of the binary family, hands `lhs` to the binary sub-parser and
recurses with its result as the `lhs` of the next operator. -/
theorem binary_left_associative (sub base : SubParsers) (n : Nat) (p pa pb pc : parser)
    (a b c : Expr)
    (hstart : isOperandStart p.current.typ = true)
    (ha : OperandAt (specSub base) n p a pa)
    (h1 : specOperationTypeForToken pa.next.current.typ = operationType.binaryOperation)
    (hb : OperandAt (specSub base) n pa.next.next b pb)
    (h2 : specOperationTypeForToken pb.next.current.typ = operationType.binaryOperation)
    (hc : OperandAt (specSub base) n pb.next.next c pc)
    (hend : specOperationTypeForToken pc.next.current.typ = operationType.nilOperation)
    (hend2 : precedenceOf pc.next.current.typ ≤ precedenceOf pb.next.current.typ)
    (hlev : pc.parenLevel = p.parenLevel)
    (hprec : precedenceOf pb.next.current.typ = precedenceOf pa.next.current.typ)
    (fuel : Nat) (hf : n + 3 ≤ fuel) :
    parseExpression (specSub base) fuel p =
      some (Expr.BinaryOperation (Expr.BinaryOperation a pa.next.current.val b)
        pb.next.current.val c, pc) ∧
    ∀ (f : Nat) (l : Int) (lhs : Expr) (q : parser),
      sub.operationTypeForToken q.next.current.typ = operationType.binaryOperation →
      parseOperation sub (f + 1) l lhs q =
        (sub.parseBinaryOperation
            ⟨f, parseExpression sub f, parseOperand sub f, parseOperation sub f⟩
            lhs q.next.current l q.next).bind fun r =>
          parseOperation sub f l r.1 r.2 :=
  ⟨binary_left_nested base n p pa pb pc a b c hstart ha h1 hb h2 hc hend hend2 hlev
      (Nat.le_of_eq hprec) fuel hf,
   fun f l lhs q h => parseOperation_binary sub f l lhs q h⟩

theorem binary_left_associative_witness :
    parseExpression (specSub bareSub) 5
        (start [⟨Token.NumberLiteral, "1"⟩, ⟨Token.SubtractionOperator, "-"⟩,
          ⟨Token.NumberLiteral, "2"⟩, ⟨Token.SubtractionOperator, "-"⟩,
          ⟨Token.NumberLiteral, "3"⟩]) =
      some (Expr.BinaryOperation
          (Expr.BinaryOperation (Expr.Literal LiteralType.Float "1") "-"
            (Expr.Literal LiteralType.Float "2")) "-"
          (Expr.Literal LiteralType.Float "3"),
        ⟨[⟨Token.NumberLiteral, "1"⟩, ⟨Token.SubtractionOperator, "-"⟩,
          ⟨Token.NumberLiteral, "2"⟩, ⟨Token.SubtractionOperator, "-"⟩,
          ⟨Token.NumberLiteral, "3"⟩], 4, 0, []⟩) :=
  (binary_left_associative bareSub bareSub 2
    (start [⟨Token.NumberLiteral, "1"⟩, ⟨Token.SubtractionOperator, "-"⟩,
      ⟨Token.NumberLiteral, "2"⟩, ⟨Token.SubtractionOperator, "-"⟩,
      ⟨Token.NumberLiteral, "3"⟩])
    ⟨[⟨Token.NumberLiteral, "1"⟩, ⟨Token.SubtractionOperator, "-"⟩,
      ⟨Token.NumberLiteral, "2"⟩, ⟨Token.SubtractionOperator, "-"⟩,
      ⟨Token.NumberLiteral, "3"⟩], 0, 0, []⟩
    ⟨[⟨Token.NumberLiteral, "1"⟩, ⟨Token.SubtractionOperator, "-"⟩,
      ⟨Token.NumberLiteral, "2"⟩, ⟨Token.SubtractionOperator, "-"⟩,
      ⟨Token.NumberLiteral, "3"⟩], 2, 0, []⟩
    ⟨[⟨Token.NumberLiteral, "1"⟩, ⟨Token.SubtractionOperator, "-"⟩,
      ⟨Token.NumberLiteral, "2"⟩, ⟨Token.SubtractionOperator, "-"⟩,
      ⟨Token.NumberLiteral, "3"⟩], 4, 0, []⟩
    (Expr.Literal LiteralType.Float "1") (Expr.Literal LiteralType.Float "2")
    (Expr.Literal LiteralType.Float "3")
    rfl (operandAt_literal _ _ rfl) rfl (operandAt_literal _ _ rfl) rfl
    (operandAt_literal _ _ rfl) rfl (by decide) rfl rfl 5 (by decide)).1

/-- C7: on `! $a && $b` the prefix branch of `parseExpression` wraps the
whole expression `$a && $b` that follows the operator, while the same tokens
handed to `parseOperand` give the operator wrapped around `$a` alone, the
cursor on `a`. -/
theorem negation_wraps_whole_expression :
    parseExpression bareSub 12
        (start [⟨Token.NegationOperator, "!"⟩, ⟨Token.VariableOperator, "$"⟩,
          ⟨Token.Identifier, "a"⟩, ⟨Token.AndOperator, "&&"⟩,
          ⟨Token.VariableOperator, "$"⟩, ⟨Token.Identifier, "b"⟩]) =
      some (Expr.UnaryExpression "!"
          (Expr.BinaryOperation (Expr.Variable "a") "&&" (Expr.Variable "b")) true,
        ⟨[⟨Token.NegationOperator, "!"⟩, ⟨Token.VariableOperator, "$"⟩,
          ⟨Token.Identifier, "a"⟩, ⟨Token.AndOperator, "&&"⟩,
          ⟨Token.VariableOperator, "$"⟩, ⟨Token.Identifier, "b"⟩], 5, 0, []⟩) ∧
    parseOperand bareSub 12
        (start [⟨Token.NegationOperator, "!"⟩, ⟨Token.VariableOperator, "$"⟩,
          ⟨Token.Identifier, "a"⟩, ⟨Token.AndOperator, "&&"⟩,
          ⟨Token.VariableOperator, "$"⟩, ⟨Token.Identifier, "b"⟩]) =
      some (Expr.UnaryExpression "!" (Expr.Variable "a") true,
        ⟨[⟨Token.NegationOperator, "!"⟩, ⟨Token.VariableOperator, "$"⟩,
          ⟨Token.Identifier, "a"⟩, ⟨Token.AndOperator, "&&"⟩,
          ⟨Token.VariableOperator, "$"⟩, ⟨Token.Identifier, "b"⟩], 2, 0, []⟩) ∧
    precedenceOf Token.AndOperator < precedenceOf Token.NegationOperator :=
  ⟨rfl, rfl, by decide⟩

/-! ## Grouping parentheses -/

theorem expressionAt_pos {sub : SubParsers} {n : Nat} {p q : parser} {e : Expr}
    (h : ExpressionAt sub n p e q) : 0 < n := by
  rcases Nat.eq_zero_or_pos n with h0 | h0
  · subst h0
    have := h 0 (Nat.le_refl 0)
    rw [parseExpression] at this
    cases this
  · exact h0

theorem expect_found (p : parser) (k : Token) (h : p.next.current.typ = k) :
    p.expect [k] = p.next := by
  simp [parser.expect, parser.expectCurrent, h]

theorem parseLiteral_state (p : parser) (h : isLiteralKind p.current.typ = true) :
    (parseLiteral p).2 = p := by
  unfold parseLiteral
  split <;> first
    | rfl
    | (exfalso; revert h; cases hc : p.current.typ <;> simp_all [isLiteralKind])

/-- A literal token followed by a token that is no operator is an
expression: the literal, the cursor on it. -/
theorem expressionAt_literal (sub : SubParsers) (p : parser)
    (h : isLiteralKind p.current.typ = true)
    (hn : sub.operationTypeForToken p.next.current.typ = operationType.nilOperation) :
    ExpressionAt sub 3 p (parseLiteral p).1 p := by
  intro fuel hf
  obtain ⟨j, rfl⟩ := le_fuel hf
  have hs : isOperandStart p.current.typ = true := by
    revert h
    cases p.current.typ <;> simp [isLiteralKind, isOperandStart]
  rw [parseExpression_operand sub (j + 2) p hs, parseOperand_literal sub j p h,
    Option.some_bind, parseLiteral_state p h, parseOperation_nil sub (j + 1) _ _ _ hn,
    Option.map_some']
  exact congrArg some (checkParenLevel_same _ _ rfl)

/-- C9: `k` open parens, a token sequence that `parseExpression` parses to
the tree `t` with the paren counter balanced, `k` close parens and then a
token that is no operator: `parseExpression` returns `t` itself, the cursor
on the last close paren, `parenLevel` that of the entry and no error added
to those of the inner parse. -/
theorem parens_transparent (sub : SubParsers)
    (hcp : sub.operationTypeForToken Token.CloseParen = operationType.nilOperation)
    (k n : Nat) (p q : parser) (t : Expr)
    (hopen : ∀ i, i < k → (p.toks.getD (p.idx + i) eofItem).typ = Token.OpenParen)
    (hin : ExpressionAt sub n ⟨p.toks, p.idx + k, p.parenLevel + k, p.errors⟩ t q)
    (hlev : q.parenLevel = p.parenLevel + k)
    (hclose : ∀ i, i < k → (q.toks.getD (q.idx + 1 + i) eofItem).typ = Token.CloseParen)
    (hafter : sub.operationTypeForToken (q.toks.getD (q.idx + k + 1) eofItem).typ =
      operationType.nilOperation)
    (fuel : Nat) (hf : n + k ≤ fuel) :
    parseExpression sub fuel p = some (t, ⟨q.toks, q.idx + k, p.parenLevel, q.errors⟩) := by
  have hn := expressionAt_pos hin
  induction k generalizing p fuel with
  | zero =>
    have e1 : (⟨p.toks, p.idx + 0, p.parenLevel + (0 : Nat), p.errors⟩ : parser) = p := by
      cases p; simp
    have e2 : (⟨q.toks, q.idx + 0, p.parenLevel, q.errors⟩ : parser) = q := by
      cases q; simp at hlev ⊢; exact hlev.symm
    rw [e1] at hin
    rw [e2]
    exact hin fuel hf
  | succ k ih =>
    obtain ⟨F, rfl⟩ : ∃ F, fuel = F + 1 := ⟨fuel - 1, by omega⟩
    have h0 : p.current.typ = Token.OpenParen := by
      have := hopen 0 (Nat.succ_pos k)
      simpa [parser.current] using this
    have hin' : ExpressionAt sub n
        ⟨(parenInc p).next.toks, (parenInc p).next.idx + k,
          (parenInc p).next.parenLevel + k, (parenInc p).next.errors⟩ t q := by
      have e : (⟨(parenInc p).next.toks, (parenInc p).next.idx + k,
          (parenInc p).next.parenLevel + k, (parenInc p).next.errors⟩ : parser) =
          ⟨p.toks, p.idx + (k + 1), p.parenLevel + ((k + 1 : Nat) : Int), p.errors⟩ := by
        simp only [parenInc, parser.next, parser.mk.injEq, true_and, and_true]
        constructor
        · omega
        · push_cast; omega
      rw [e]
      exact hin
    have hres := ih (parenInc p).next
      (fun i hi => by
        have := hopen (i + 1) (by omega)
        simpa [parenInc, parser.next, Nat.add_assoc, Nat.add_comm 1 i] using this)
      hin'
      (by simp only [parenInc, parser.next]; rw [hlev]; push_cast; omega)
      (fun i hi => hclose i (by omega))
      (by
        have := hclose k (Nat.lt_succ_self k)
        rw [show q.idx + k + 1 = q.idx + 1 + k by omega, this]
        exact hcp)
      F (by omega)
    rw [parseExpression_openParen sub F p h0, hres, Option.some_bind]
    have hc : (⟨q.toks, q.idx + k, (parenInc p).next.parenLevel, q.errors⟩ : parser).next.current.typ
        = Token.CloseParen := by
      have := hclose k (Nat.lt_succ_self k)
      simpa [parser.next, parser.current, Nat.add_assoc, Nat.add_comm 1 k] using this
    rw [expect_found _ _ hc]
    obtain ⟨G, rfl⟩ : ∃ G, F = G + 1 := ⟨F - 1, by omega⟩
    rw [parseOperation_nil sub G _ _ _ (by
      simpa [parenDec, parser.next, parser.current, Nat.add_assoc] using hafter)]
    rw [Option.map_some']
    refine congrArg some ?_
    rw [checkParenLevel_same _ _ (by simp [parenDec, parenInc, parser.next])]
    simp [parenDec, parenInc, parser.next, Nat.add_assoc]

theorem parens_transparent_witness :
    parseExpression bareSub 7
        (start [⟨Token.OpenParen, "("⟩, ⟨Token.OpenParen, "("⟩, ⟨Token.OpenParen, "("⟩,
          ⟨Token.NumberLiteral, "1"⟩,
          ⟨Token.CloseParen, ")"⟩, ⟨Token.CloseParen, ")"⟩, ⟨Token.CloseParen, ")"⟩]) =
      some (Expr.Literal LiteralType.Float "1",
        ⟨[⟨Token.OpenParen, "("⟩, ⟨Token.OpenParen, "("⟩, ⟨Token.OpenParen, "("⟩,
          ⟨Token.NumberLiteral, "1"⟩,
          ⟨Token.CloseParen, ")"⟩, ⟨Token.CloseParen, ")"⟩, ⟨Token.CloseParen, ")"⟩],
          6, 0, []⟩) :=
  parens_transparent bareSub rfl 3 3
    (start [⟨Token.OpenParen, "("⟩, ⟨Token.OpenParen, "("⟩, ⟨Token.OpenParen, "("⟩,
      ⟨Token.NumberLiteral, "1"⟩,
      ⟨Token.CloseParen, ")"⟩, ⟨Token.CloseParen, ")"⟩, ⟨Token.CloseParen, ")"⟩])
    ⟨[⟨Token.OpenParen, "("⟩, ⟨Token.OpenParen, "("⟩, ⟨Token.OpenParen, "("⟩,
      ⟨Token.NumberLiteral, "1"⟩,
      ⟨Token.CloseParen, ")"⟩, ⟨Token.CloseParen, ")"⟩, ⟨Token.CloseParen, ")"⟩], 3, 3, []⟩
    (Expr.Literal LiteralType.Float "1")
    (by decide)
    (expressionAt_literal bareSub
      ⟨[⟨Token.OpenParen, "("⟩, ⟨Token.OpenParen, "("⟩, ⟨Token.OpenParen, "("⟩,
        ⟨Token.NumberLiteral, "1"⟩,
        ⟨Token.CloseParen, ")"⟩, ⟨Token.CloseParen, ")"⟩, ⟨Token.CloseParen, ")"⟩], 3, 3, []⟩
      rfl rfl)
    rfl (by decide) rfl 7 (by decide)

/-! ## The cursor moves forward -/

theorem Reach.refl (p : parser) : Reach 1 p p := ⟨rfl, Nat.le_refl _⟩

theorem Reach.weaken {k : Nat} {p0 q : parser} (h : Reach (k + 1) p0 q) : Reach k p0 q :=
  ⟨h.1, by have := h.2; omega⟩

theorem Reach.trans {k : Nat} {p0 p q : parser} (h : Reach k p0 p) (h1 : Reach 1 p q) :
    Reach k p0 q :=
  ⟨h1.1.trans h.1, by have := h.2; have := h1.2; omega⟩

theorem Reach.fwdNext {k : Nat} {p0 q : parser} (h : Reach k p0 q) : Reach (k + 1) p0 q.next :=
  ⟨h.1, by have := h.2; simp only [parser.next_idx]; omega⟩

theorem Reach.fwdBackup {k : Nat} {p0 q : parser} (h : Reach (k + 1) p0 q) :
    Reach k p0 q.backup :=
  ⟨h.1, by have := h.2; simp only [parser.backup_idx]; omega⟩

theorem Reach.fwdErrorf {k : Nat} {p0 q : parser} (e : ParseError) (h : Reach k p0 q) :
    Reach k p0 (q.errorf e) := h

theorem Reach.fwdExpectCurrent {k : Nat} {p0 q : parser} (kinds : List Token)
    (h : Reach k p0 q) : Reach k p0 (q.expectCurrent kinds) := by
  unfold parser.expectCurrent
  split
  · exact h
  · exact h

theorem Reach.fwdExpect {k : Nat} {p0 q : parser} (kinds : List Token) (h : Reach k p0 q) :
    Reach (k + 1) p0 (q.expect kinds) :=
  Reach.fwdExpectCurrent kinds h.fwdNext

theorem Reach.fwdLiteral {k : Nat} {p0 q : parser} (h : Reach k p0 q) :
    Reach k p0 (parseLiteral q).2 := by
  unfold Php.parseLiteral
  split <;> exact h

theorem Reach.paren {k : Nat} {p0 q : parser} (l : Int) (h : Reach k p0 q) :
    Reach k p0 { q with parenLevel := l } := h

theorem Reach.post {k : Nat} {p0 p : parser} {x : Result} (h : Reach k p0 p)
    (hx : ∀ r, x = some r → Reach 1 p r.2) : Post x (Reach k p0) :=
  fun r hr => h.trans (hx r hr)

theorem Post_weaken {k : Nat} {p0 : parser} {x : Result} (h : Post x (Reach (k + 1) p0)) :
    Post x (Reach k p0) :=
  fun r hr => (h r hr).weaken

theorem Reach.check {k : Nat} {p0 : parser} {x : Result} (l : Int)
    (hx : Post x (Reach k p0)) : Post (x.map (checkParenLevel l)) (Reach k p0) := by
  intro r hr
  rcases Option.map_eq_some'.mp hr with ⟨r1, h1, h2⟩
  subst h2
  unfold checkParenLevel
  split
  · exact hx r1 h1
  · exact hx r1 h1

theorem AllForward.forwardCallbacks {sub : SubParsers} {f : Nat} (ih : AllForward sub f) :
    CallbacksForward ⟨f, parseExpression sub f, parseOperand sub f, parseOperation sub f⟩ :=
  ⟨fun p r h => ih.expression 1 p p (Reach.refl p) r h,
   fun p r h => ⟨ih.operand 0 p p (Reach.refl p) r h,
     fun ha => ih.operandAdv 1 p p ha (Reach.refl p) r h⟩,
   fun l lhs p r h => ih.operation l lhs 1 p p (Reach.refl p) r h⟩

theorem allForward_zero (sub : SubParsers) : AllForward sub 0 := by
  constructor <;> intros <;> first
    | (rw [parseExpression]; exact Post_none _)
    | (rw [parseNextExpression]; exact Post_none _)
    | (rw [parseOperation]; exact Post_none _)
    | (rw [parseAssignmentOperation]; exact Post_none _)
    | (rw [parseOperand]; exact Post_none _)
    | (rw [parseOperandLoop]; exact Post_none _)
    | (rw [parseVariable]; exact Post_none _)
    | (rw [parseInclude]; exact Post_none _)
    | (rw [parseIncludeLoop]; exact Post_none _)
    | (rw [parseIgnoreError]; exact Post_none _)
    | (rw [parseNew]; exact Post_none _)

theorem parseOperandLoop_forward {sub : SubParsers} (hsub : SubForward sub) (f : Nat)
    (ih : AllForward sub f) (e : Expr) (k : Nat) (p0 p : parser)
    (hs : stopsOperand p.current.typ = false) (h : Reach k p0 p) :
    Post (parseOperandLoop sub (f + 1) e p) (Reach k p0) := by
  have hcb := ih.forwardCallbacks
  rw [parseOperandLoop]
  split
  · exact Post_some h
  · exact Post_some h.fwdLiteral
  · exact Post_some h.fwdLiteral
  · exact Post_some h.fwdLiteral
  · exact Post_some h.fwdLiteral
  · exact ih.operandLoop _ _ _ _ h.fwdNext
  · exact Post_bind (h.post (hsub.parseArrayDeclaration _ hcb _))
      (fun r hr => ih.operandLoop _ _ _ _ hr.fwdNext)
  · refine Post_bind (ih.parseVar _ _ _ h) (fun r hr => ?_)
    dsimp only
    split
    · exact Post_weaken (Post_weaken (Post_bind (hr.fwdNext.post (hsub.parseArrayLookup _ hcb _ _))
        (fun r1 hr1 => ih.operandLoop _ _ _ _ hr1.fwdNext)))
    · exact Post_weaken (Post_weaken (Post_weaken (Post_bind
        (ih.nextExpression _ _ _ hr.fwdNext)
        (fun r1 hr1 => ih.operandLoop _ _ _ _ hr1.fwdNext))))
    · exact Post_weaken (ih.operandLoop _ _ _ _ hr.fwdNext)
  · exact Post_bind (h.post (hsub.parseObjectLookup _ hcb _ _))
      (fun r hr => ih.operandLoop _ _ _ _ hr.fwdNext)
  · exact Post_bind (h.post (hsub.parseArrayLookup _ hcb _ _))
      (fun r hr => ih.operandLoop _ _ _ _ hr.fwdNext)
  · split
    · exact Post_bind (h.post (hsub.parseFunctionCall _ hcb _ _))
        (fun r hr => ih.operandLoop _ _ _ _ hr.fwdNext)
    · exact Post_weaken (Post_weaken (Post_bind (ih.nextExpression _ _ _ h.fwdNext)
        (fun r hr => ih.operandLoop _ _ _ _ hr.fwdNext)))
    · exact ih.operandLoop _ _ _ _ h.fwdNext
  all_goals first
    | (split
       · exact Post_weaken (Post_weaken (Post_bind
           (ih.nextExpression _ _ _ (h.fwdExpect _)) (fun r hr => Post_some hr)))
       · exact ih.operandLoop _ _ _ _ h.fwdNext)
    | (exfalso; revert hs; cases hc : p.current.typ <;> simp_all [stopsOperand])

theorem allForward_succ {sub : SubParsers} (hsub : SubForward sub) (f : Nat)
    (ih : AllForward sub f) : AllForward sub (f + 1) := by
  have hcb := ih.forwardCallbacks
  have hloop : ∀ e k p0 p, Reach (k + 1) p0 p →
      Post (parseOperandLoop sub (f + 1) e p) (Reach k p0) := by
    intro e k p0 p h
    cases hs : stopsOperand p.current.typ
    · exact Post_weaken (parseOperandLoop_forward hsub f ih e _ p0 p hs h)
    · rw [parseOperandLoop_stop sub f e p hs]
      exact Post_some h.fwdBackup
  constructor
  · -- parseExpression
    intro k p0 p h
    rw [parseExpression]
    apply Reach.check
    split
    · exact ih.ignoreError _ _ _ h
    · exact h.post (hsub.parseAnonymousFunction _ hcb _)
    · exact ih.new _ _ _ _ h
    · exact h.post (hsub.parseList _ hcb _)
    all_goals first
      | exact Post_weaken (Post_bind (ih.nextExpression _ _ _ h)
          (fun r hr => hr.post (hsub.parseUnaryExpressionRight _ hcb _ _ _)))
      | exact Post_bind (ih.operandAdv _ _ _ (by simp [advancesOperand, stopsOperand, *]) h)
          (fun r hr => ih.operation _ _ _ _ _ hr)
      | exact ih.incl _ _ _ h
      | exact Post_weaken (Post_weaken (Post_bind
          (ih.expression _ _ _ (Reach.fwdNext (Reach.paren _ h)))
          (fun r hr => ih.operation _ _ _ _ _ (Reach.paren _ (hr.fwdExpect _)))))
      | exact Post_some h
  · -- parseNextExpression
    intro k p0 p h
    rw [parseNextExpression]
    exact ih.expression _ _ _ h.fwdNext
  · -- parseOperation
    intro l lhs k p0 p h
    rw [parseOperation]
    split
    · exact Post_weaken (Post_bind (h.fwdNext.post (hsub.parseUnaryExpressionLeft _ hcb _ _ _))
        (fun r hr => ih.operation _ _ _ _ _ hr))
    · exact Post_weaken (Post_bind (h.fwdNext.post (hsub.parseBinaryOperation _ hcb _ _ _ _))
        (fun r hr => ih.operation _ _ _ _ _ hr))
    · exact Post_weaken (Post_bind (h.fwdNext.post (hsub.parseTernaryOperation _ hcb _ _))
        (fun r hr => ih.operation _ _ _ _ _ hr))
    · exact Post_weaken (Post_bind (ih.assignment _ _ _ _ h.fwdNext)
        (fun r hr => ih.operation _ _ _ _ _ hr))
    · exact Post_some h.fwdNext.fwdBackup
  · -- parseAssignmentOperation
    intro lhs k p0 p h
    rw [parseAssignmentOperation]
    refine Post_weaken (Post_bind (ih.nextExpression _ _ _ ?_) (fun r hr => Post_some hr))
    split
    · exact h
    · exact h
  · -- parseOperand
    intro k p0 p h
    rw [parseOperand]
    split
    all_goals first
      | exact Post_weaken (Post_bind (ih.operand _ _ _ h.fwdNext)
          (fun r hr => hr.post (hsub.parseUnaryExpressionRight _ hcb _ _ _)))
      | exact ih.operandLoop _ _ _ _ h
  · -- parseOperand on a kind that advances
    intro k p0 p ha h
    rw [parseOperand]
    split
    all_goals first
      | exact Post_bind (ih.operand _ _ _ h.fwdNext)
          (fun r hr => hr.post (hsub.parseUnaryExpressionRight _ hcb _ _ _))
      | (refine ih.operandLoopAdv _ _ _ _ ?_ h
         revert ha
         cases hc : p.current.typ <;> simp_all [advancesOperand, isPrefixKind])
  · exact hloop
  · exact fun e k p0 p hs h => parseOperandLoop_forward hsub f ih e k p0 p hs h
  · -- parseVariable
    intro k p0 p h
    rw [parseVariable]
    split
    · exact Post_some (h.fwdExpectCurrent _).fwdNext
    · exact ih.expression _ _ _ (h.fwdExpectCurrent _).fwdNext
  · -- parseInclude
    intro k p0 p h
    rw [parseInclude]
    exact ih.includeLoop _ _ _ _ h
  · -- parseIncludeLoop
    intro es k p0 p h
    rw [parseIncludeLoop]
    refine Post_bind (ih.nextExpression _ _ _ h) (fun r hr => ?_)
    split
    · exact Post_some hr.weaken
    · exact Post_weaken (Post_weaken (ih.includeLoop _ _ _ _ (hr.fwdExpect _)))
  · -- parseIgnoreError
    intro k p0 p h
    rw [parseIgnoreError]
    exact Post_weaken (ih.expression _ _ _ h.fwdNext)
  · -- parseNew
    intro l k p0 p h
    rw [parseNew]
    exact Post_bind (h.post (hsub.parseInstantiation _ hcb _))
      (fun r hr => ih.operation _ _ _ _ _ hr)

/-- Every function of the file keeps the token stream and moves the cursor
forward, provided the sub-parsers outside the file do. -/
theorem allForward {sub : SubParsers} (hsub : SubForward sub) : ∀ f, AllForward sub f
  | 0 => allForward_zero sub
  | f + 1 => allForward_succ hsub f (allForward hsub f)

/-! ## Tokens beyond the lookahead are not read -/

theorem Sim.current {N : Nat} {p p' : parser} (h : Sim N p p') (hN : p.idx ≤ N) :
    p'.current = p.current := by
  unfold parser.current
  rw [h.idx]
  exact h.toks _ hN

theorem Sim.simNext {N : Nat} {p p' : parser} (h : Sim N p p') : Sim N p.next p'.next :=
  ⟨by simp [h.idx], h.parenLevel, h.errors, h.toks⟩

theorem Sim.peek {N : Nat} {p p' : parser} (h : Sim N p p') (hN : p.idx + 1 ≤ N) :
    p'.peek = p.peek :=
  h.simNext.current hN

theorem Sim.simBackup {N : Nat} {p p' : parser} (h : Sim N p p') : Sim N p.backup p'.backup :=
  ⟨by simp [h.idx], h.parenLevel, h.errors, h.toks⟩

theorem Sim.simErrorf {N : Nat} {p p' : parser} (e : ParseError) (h : Sim N p p') :
    Sim N (p.errorf e) (p'.errorf e) :=
  ⟨h.idx, h.parenLevel, by simp [h.errors], h.toks⟩

theorem Sim.inc {N : Nat} {p p' : parser} (h : Sim N p p') : Sim N (parenInc p) (parenInc p') :=
  ⟨h.idx, by simp [parenInc, h.parenLevel], h.errors, h.toks⟩

theorem Sim.dec {N : Nat} {p p' : parser} (h : Sim N p p') : Sim N (parenDec p) (parenDec p') :=
  ⟨h.idx, by simp [parenDec, h.parenLevel], h.errors, h.toks⟩

theorem Sim.simExpectCurrent {N : Nat} {p p' : parser} (kinds : List Token) (h : Sim N p p')
    (hN : p.idx ≤ N) : Sim N (p.expectCurrent kinds) (p'.expectCurrent kinds) := by
  unfold parser.expectCurrent
  rw [h.current hN]
  split
  · exact h
  · exact h.simErrorf _

theorem Sim.simExpect {N : Nat} {p p' : parser} (kinds : List Token) (h : Sim N p p')
    (hN : p.idx + 1 ≤ N) : Sim N (p.expect kinds) (p'.expect kinds) :=
  h.simNext.simExpectCurrent kinds hN

theorem Sim.simLiteral {N : Nat} {p p' : parser} (h : Sim N p p') (hN : p.idx ≤ N) :
    (parseLiteral p').1 = (parseLiteral p).1 ∧ Sim N (parseLiteral p).2 (parseLiteral p').2 := by
  unfold Php.parseLiteral
  rw [h.current hN]
  split
  · exact ⟨rfl, h⟩
  · exact ⟨rfl, h⟩
  · exact ⟨rfl, h⟩
  · exact ⟨rfl, h⟩
  · exact ⟨rfl, h.simErrorf _⟩

theorem Agr_none (N : Nat) (x' : Result) : Agr N none x' := by
  intro r h; cases h

theorem Agr_some {N : Nat} {e : Expr} {q q' : parser} (h : Sim N q q') :
    Agr N (some (e, q)) (some (e, q')) := by
  intro r hr _
  cases hr
  exact ⟨q', rfl, h⟩

theorem Agr_intro {N : Nat} {x x' : Result}
    (h : ∀ r, x = some r → r.2.idx + 1 ≤ N → Agr N x x') : Agr N x x' :=
  fun r hr hN => h r hr hN r hr hN

theorem Agr_bind {N : Nat} {x x' : Result} {g g' : Expr × parser → Result}
    (hx : Agr N x x')
    (hmono : ∀ r1 r, x = some r1 → g r1 = some r → r1.2.idx ≤ r.2.idx)
    (hg : ∀ r1 r1', x = some r1 → r1.2.idx + 1 ≤ N → Sim N r1.2 r1' →
      Agr N (g r1) (g' (r1.1, r1'))) :
    Agr N (x.bind g) (x'.bind g') := by
  intro r hr hN
  rcases Option.bind_eq_some.mp hr with ⟨r1, h1, h2⟩
  have hb : r1.2.idx + 1 ≤ N := by have := hmono r1 r h1 h2; omega
  obtain ⟨r1', e1, s1⟩ := hx r1 h1 hb
  obtain ⟨r', e2, s2⟩ := hg r1 r1' h1 hb s1 r h2 hN
  exact ⟨r', by rw [e1, Option.some_bind, e2], s2⟩

theorem Agr_check {N : Nat} {x x' : Result} (l : Int) (h : Agr N x x') :
    Agr N (x.map (checkParenLevel l)) (x'.map (checkParenLevel l)) := by
  intro r hr hN
  rcases Option.map_eq_some'.mp hr with ⟨r1, h1, h2⟩
  subst h2
  have hidx : (checkParenLevel l r1).2.idx = r1.2.idx := by
    unfold checkParenLevel; split <;> rfl
  obtain ⟨r1', e1, s1⟩ := h r1 h1 (by omega)
  rw [e1, Option.map_some']
  unfold checkParenLevel
  simp only [s1.parenLevel]
  split
  · exact ⟨_, rfl, s1.simErrorf _⟩
  · exact ⟨_, rfl, s1⟩

theorem AllLocal.localCallbacks {sub : SubParsers} {f : Nat} (ih : AllLocal sub f) :
    CallbacksLocal ⟨f, parseExpression sub f, parseOperand sub f, parseOperation sub f⟩ :=
  ⟨ih.expression, ih.operand, ih.operation⟩

theorem allLocal_zero (sub : SubParsers) : AllLocal sub 0 := by
  constructor <;> intros <;> first
    | (rw [parseExpression]; exact Agr_none _ _)
    | (rw [parseNextExpression]; exact Agr_none _ _)
    | (rw [parseOperation]; exact Agr_none _ _)
    | (rw [parseAssignmentOperation]; exact Agr_none _ _)
    | (rw [parseOperand]; exact Agr_none _ _)
    | (rw [parseOperandLoop]; exact Agr_none _ _)
    | (rw [parseVariable]; exact Agr_none _ _)
    | (rw [parseInclude]; exact Agr_none _ _)
    | (rw [parseIncludeLoop]; exact Agr_none _ _)
    | (rw [parseIgnoreError]; exact Agr_none _ _)
    | (rw [parseNew]; exact Agr_none _ _)

theorem reach_le {p q : parser} (h : Reach 1 p q) : p.idx ≤ q.idx := by
  have := h.2; omega

theorem reach_le_next {p q : parser} (h : Reach 1 p.next q) : p.idx ≤ q.idx := by
  have := h.2; simp only [parser.next_idx] at this; omega

theorem allLocal_succ_operation {sub : SubParsers} (hsub : SubLocal sub) (f : Nat)
    (ih : AllLocal sub f) (l : Int) (lhs : Expr) (N : Nat) (p p' : parser) (hs : Sim N p p') :
    Agr N (parseOperation sub (f + 1) l lhs p) (parseOperation sub (f + 1) l lhs p') := by
  have F := allForward hsub.forward
  have hcbF := (F f).forwardCallbacks
  have hcbL := ih.localCallbacks
  refine Agr_intro (fun r h hN => ?_)
  have hm := reach_le ((F (f + 1)).operation l lhs 1 p p (Reach.refl p) r h)
  have hcur : p'.next.current = p.next.current :=
    hs.simNext.current (by simp only [parser.next_idx]; omega)
  simp only [parseOperation, hcur]
  have hop : ∀ (r1 r : Expr × parser), parseOperation sub f l r1.1 r1.2 = some r → r1.2.idx ≤ r.2.idx :=
    fun r1 r hg => reach_le ((F f).operation _ _ 1 _ _ (Reach.refl _) r hg)
  cases hd : sub.operationTypeForToken p.next.current.typ <;> simp only []
  · exact Agr_some hs.simNext.simBackup
  · exact Agr_bind (hsub.parseUnaryExpressionLeft _ hcbF hcbL _ _ _ _ _ hs.simNext)
      (fun r1 r _ hg => hop r1 r hg) (fun r1 r1' _ _ s1 => ih.operation _ _ _ _ _ s1)
  · exact Agr_bind (hsub.parseBinaryOperation _ hcbF hcbL _ _ _ _ _ _ hs.simNext)
      (fun r1 r _ hg => hop r1 r hg) (fun r1 r1' _ _ s1 => ih.operation _ _ _ _ _ s1)
  · exact Agr_bind (hsub.parseTernaryOperation _ hcbF hcbL _ _ _ _ hs.simNext)
      (fun r1 r _ hg => hop r1 r hg) (fun r1 r1' _ _ s1 => ih.operation _ _ _ _ _ s1)
  · exact Agr_bind (ih.assignment _ _ _ _ hs.simNext)
      (fun r1 r _ hg => hop r1 r hg) (fun r1 r1' _ _ s1 => ih.operation _ _ _ _ _ s1)

theorem Agr_literal {N : Nat} {p p' : parser} (h : Sim N p p') (hN : p.idx ≤ N) :
    Agr N (some (parseLiteral p)) (some (parseLiteral p')) := by
  intro r hr _
  cases hr
  obtain ⟨e1, s1⟩ := h.simLiteral hN
  exact ⟨(parseLiteral p').2, by rw [← e1], s1⟩

theorem fwd_loop_next {sub : SubParsers} (hsub : SubForward sub) {f : Nat} {e : Expr}
    {q : parser} {r : Expr × parser} (h : parseOperandLoop sub f e q.next = some r) :
    q.idx ≤ r.2.idx :=
  reach_le ((allForward hsub f).operandLoop e 1 q q.next (Reach.refl q).fwdNext r h)

theorem fwd_operation {sub : SubParsers} (hsub : SubForward sub) {f : Nat} {l : Int}
    {e : Expr} {q : parser} {r : Expr × parser} (h : parseOperation sub f l e q = some r) :
    q.idx ≤ r.2.idx :=
  reach_le ((allForward hsub f).operation l e 1 q q (Reach.refl q) r h)

theorem allLocal_succ_nextExpression {sub : SubParsers} (f : Nat)
    (ih : AllLocal sub f) (N : Nat) (p p' : parser) (hs : Sim N p p') :
    Agr N (parseNextExpression sub (f + 1) p) (parseNextExpression sub (f + 1) p') := by
  simp only [parseNextExpression]
  exact ih.expression _ _ _ hs.simNext

theorem allLocal_succ_assignment {sub : SubParsers} (hsub : SubLocal sub) (f : Nat)
    (ih : AllLocal sub f) (lhs : Expr) (N : Nat) (p p' : parser) (hs : Sim N p p') :
    Agr N (parseAssignmentOperation sub (f + 1) lhs p)
      (parseAssignmentOperation sub (f + 1) lhs p') := by
  have F := allForward hsub.forward
  refine Agr_intro (fun r h hN => ?_)
  have hm := reach_le ((F (f + 1)).assignment lhs 1 p p (Reach.refl p) r h)
  have hcur : p'.current = p.current := hs.current (by omega)
  cases ha : Assignable lhs
  · simp only [parseAssignmentOperation, ha, Bool.false_eq_true, if_false,
      parser.errorf_current, hcur]
    exact Agr_bind (ih.nextExpression _ _ _ (hs.simErrorf _))
      (fun r1 r _ hg => by cases hg; exact Nat.le_refl _)
      (fun r1 r1' _ _ s1 => Agr_some s1)
  · simp only [parseAssignmentOperation, ha, if_true, hcur]
    exact Agr_bind (ih.nextExpression _ _ _ hs)
      (fun r1 r _ hg => by cases hg; exact Nat.le_refl _)
      (fun r1 r1' _ _ s1 => Agr_some s1)

theorem allLocal_succ_operand {sub : SubParsers} (hsub : SubLocal sub) (f : Nat)
    (ih : AllLocal sub f) (N : Nat) (p p' : parser) (hs : Sim N p p') :
    Agr N (parseOperand sub (f + 1) p) (parseOperand sub (f + 1) p') := by
  have F := allForward hsub.forward
  have hcbF := (F f).forwardCallbacks
  have hcbL := ih.localCallbacks
  refine Agr_intro (fun r h hN => ?_)
  have hm := ((F (f + 1)).operand 0 p p (Reach.refl p) r h).2
  have hcur : p'.current = p.current := hs.current (by omega)
  simp only [parseOperand, hcur]
  cases hc : p.current.typ <;> simp only [] <;> first
    | exact ih.operandLoop _ _ _ _ hs
    | exact Agr_bind (ih.operand _ _ _ hs.simNext)
        (fun r1 r _ hg => reach_le (hsub.forward.parseUnaryExpressionRight _ hcbF _ _ _ _ hg))
        (fun r1 r1' _ _ s1 => hsub.parseUnaryExpressionRight _ hcbF hcbL _ _ _ _ _ s1)

theorem allLocal_succ_variable {sub : SubParsers} (hsub : SubLocal sub) (f : Nat)
    (ih : AllLocal sub f) (N : Nat) (p p' : parser) (hs : Sim N p p') :
    Agr N (parseVariable sub (f + 1) p) (parseVariable sub (f + 1) p') := by
  have F := allForward hsub.forward
  refine Agr_intro (fun r h hN => ?_)
  have hm := ((F (f + 1)).parseVar 1 p p (Reach.refl p) r h).2
  have s1 : Sim N (p.expectCurrent [Token.VariableOperator]).next
      (p'.expectCurrent [Token.VariableOperator]).next :=
    (hs.simExpectCurrent _ (by omega)).simNext
  have hi : (p.expectCurrent [Token.VariableOperator]).next.idx = p.idx + 1 := by
    unfold parser.expectCurrent; split <;> rfl
  have hcur := s1.current (by omega)
  simp only [parseVariable, hcur]
  split
  · exact Agr_some s1
  · exact ih.expression _ _ _ s1

theorem allLocal_succ_includeLoop {sub : SubParsers} (hsub : SubLocal sub) (f : Nat)
    (ih : AllLocal sub f) (es : List Expr) (N : Nat) (p p' : parser) (hs : Sim N p p') :
    Agr N (parseIncludeLoop sub (f + 1) es p) (parseIncludeLoop sub (f + 1) es p') := by
  have F := allForward hsub.forward
  simp only [parseIncludeLoop]
  refine Agr_bind (ih.nextExpression _ _ _ hs) (fun r1 r _ hg => ?_)
    (fun r1 r1' _ hb s1 => ?_)
  · split at hg
    · cases hg; exact Nat.le_refl _
    · have := ((F f).includeLoop _ 2 r1.2 _ ((Reach.refl r1.2).fwdExpect _) r hg).2
      omega
  · dsimp only
    rw [s1.peek hb]
    split
    · exact Agr_some s1
    · exact ih.includeLoop _ _ _ _ (s1.simExpect _ hb)

theorem allLocal_succ_new {sub : SubParsers} (hsub : SubLocal sub) (f : Nat)
    (ih : AllLocal sub f) (l : Int) (N : Nat) (p p' : parser) (hs : Sim N p p') :
    Agr N (parseNew sub (f + 1) l p) (parseNew sub (f + 1) l p') := by
  have F := allForward hsub.forward
  simp only [parseNew]
  exact Agr_bind (hsub.parseInstantiation _ (F f).forwardCallbacks ih.localCallbacks _ _ _ hs)
    (fun r1 r _ hg => fwd_operation hsub.forward hg)
    (fun r1 r1' _ _ s1 => ih.operation _ _ _ _ _ s1)

theorem allLocal_succ_expression {sub : SubParsers} (hsub : SubLocal sub) (f : Nat)
    (ih : AllLocal sub f) (N : Nat) (p p' : parser) (hs : Sim N p p') :
    Agr N (parseExpression sub (f + 1) p) (parseExpression sub (f + 1) p') := by
  have F := allForward hsub.forward
  have hcbF := (F f).forwardCallbacks
  have hcbL := ih.localCallbacks
  refine Agr_intro (fun r h hN => ?_)
  have hm := reach_le ((F (f + 1)).expression 1 p p (Reach.refl p) r h)
  have hcur : p'.current = p.current := hs.current (by omega)
  simp only [parseExpression, hcur, hs.parenLevel]
  apply Agr_check
  cases hc : p.current.typ <;> simp only [] <;> first
    | exact Agr_some (hs.simErrorf _)
    | exact ih.ignoreError _ _ _ hs
    | exact hsub.parseAnonymousFunction _ hcbF hcbL _ _ _ hs
    | exact ih.new _ _ _ _ hs
    | exact hsub.parseList _ hcbF hcbL _ _ _ hs
    | exact ih.incl _ _ _ hs
    | exact Agr_bind (ih.operand _ _ _ hs)
        (fun r1 r _ hg => fwd_operation hsub.forward hg)
        (fun r1 r1' _ _ s1 => ih.operation _ _ _ _ _ s1)
    | exact Agr_bind (ih.nextExpression _ _ _ hs)
        (fun r1 r _ hg => reach_le (hsub.forward.parseUnaryExpressionRight _ hcbF _ _ _ _ hg))
        (fun r1 r1' _ _ s1 => hsub.parseUnaryExpressionRight _ hcbF hcbL _ _ _ _ _ s1)
    | exact Agr_bind (ih.expression _ _ _ (Sim.simNext ⟨hs.idx, rfl, hs.errors, hs.toks⟩))
        (fun r1 r _ hg => by
          have := ((F f).operation _ _ 2 r1.2 _
            (Reach.paren _ ((Reach.refl r1.2).fwdExpect _)) r hg).2
          omega)
        (fun r1 r1' _ hb s1 => ih.operation _ _ _ _ _ (s1.simExpect _ hb).dec)

theorem allLocal_succ_operandLoop {sub : SubParsers} (hsub : SubLocal sub) (f : Nat)
    (ih : AllLocal sub f) (e : Expr) (N : Nat) (p p' : parser) (hs : Sim N p p') :
    Agr N (parseOperandLoop sub (f + 1) e p) (parseOperandLoop sub (f + 1) e p') := by
  have F := allForward hsub.forward
  have hcbF := (F f).forwardCallbacks
  have hcbL := ih.localCallbacks
  refine Agr_intro (fun r h hN => ?_)
  have hm := ((F (f + 1)).operandLoop e 0 p p (Reach.refl p) r h).2
  have hadv : stopsOperand p.current.typ = false → p.idx + 1 ≤ N := fun hst => by
    have := ((F (f + 1)).operandLoopAdv e 1 p p hst (Reach.refl p) r h).2
    omega
  have hcur : p'.current = p.current := hs.current (by omega)
  have hloop : ∀ (e1 : Expr) (r1 r : Expr × parser),
      parseOperandLoop sub f e1 r1.2.next = some r → r1.2.idx ≤ r.2.idx :=
    fun e1 r1 r hg => fwd_loop_next hsub.forward hg
  simp only [parseOperandLoop, hcur]
  cases hc : p.current.typ
  case VariableOperator =>
    simp only []
    refine Agr_bind (ih.parseVar _ _ _ hs) (fun r1 r _ hg => ?_) (fun r1 r1' _ hb s1 => ?_)
    · split at hg
      · rcases Option.bind_eq_some.mp hg with ⟨r2, h2, h3⟩
        have h4 := reach_le (hsub.forward.parseArrayLookup _ hcbF _ _ _ h2)
        have h5 := hloop _ r2 r h3
        simp only [parser.next_idx] at h4
        omega
      · rcases Option.bind_eq_some.mp hg with ⟨r2, h2, h3⟩
        have h4 := ((F f).nextExpression 1 _ _ (Reach.refl r1.2.next) r2 h2).2
        have h5 := hloop _ r2 r h3
        simp only [parser.next_idx] at h4
        omega
      · exact hloop _ r1 r hg
    · have hpk : r1'.next.current = r1.2.next.current :=
        s1.simNext.current (by simp only [parser.next_idx]; omega)
      simp only [hpk]
      cases hk : r1.2.next.current.typ <;> simp only [] <;> first
        | exact ih.operandLoop _ _ _ _ s1.simNext
        | exact Agr_bind (hsub.parseArrayLookup _ hcbF hcbL _ _ _ _ s1.simNext)
            (fun r2 r _ hg => hloop _ r2 r hg)
            (fun r2 r2' _ _ s2 => ih.operandLoop _ _ _ _ s2.simNext)
        | exact Agr_bind (ih.nextExpression _ _ _ s1.simNext)
            (fun r2 r _ hg => hloop _ r2 r hg)
            (fun r2 r2' _ _ s2 => ih.operandLoop _ _ _ _ s2.simNext)
  case Identifier =>
    simp only []
    have hpk : p'.peek = p.peek := hs.peek (hadv (by rw [hc]; rfl))
    simp only [hpk]
    cases hk : p.peek.typ <;> simp only [] <;> first
      | exact ih.operandLoop _ _ _ _ hs.simNext
      | exact Agr_bind (hsub.parseFunctionCall _ hcbF hcbL _ _ _ _ hs)
          (fun r1 r _ hg => hloop _ r1 r hg)
          (fun r1 r1' _ _ s1 => ih.operandLoop _ _ _ _ s1.simNext)
      | exact Agr_bind (ih.nextExpression _ _ _ hs.simNext)
          (fun r1 r _ hg => hloop _ r1 r hg)
          (fun r1 r1' _ _ s1 => ih.operandLoop _ _ _ _ s1.simNext)
  case Self =>
    simp only []
    have hb := hadv (by rw [hc]; rfl)
    simp only [hs.peek hb]
    split
    · exact Agr_bind (ih.nextExpression _ _ _ (hs.simExpect _ hb))
        (fun r1 r _ hg => by cases hg; exact Nat.le_refl _)
        (fun r1 r1' _ _ s1 => Agr_some s1)
    · exact ih.operandLoop _ _ _ _ hs.simNext
  case Static =>
    simp only []
    have hb := hadv (by rw [hc]; rfl)
    simp only [hs.peek hb]
    split
    · exact Agr_bind (ih.nextExpression _ _ _ (hs.simExpect _ hb))
        (fun r1 r _ hg => by cases hg; exact Nat.le_refl _)
        (fun r1 r1' _ _ s1 => Agr_some s1)
    · exact ih.operandLoop _ _ _ _ hs.simNext
  case Parent =>
    simp only []
    have hb := hadv (by rw [hc]; rfl)
    simp only [hs.peek hb]
    split
    · exact Agr_bind (ih.nextExpression _ _ _ (hs.simExpect _ hb))
        (fun r1 r _ hg => by cases hg; exact Nat.le_refl _)
        (fun r1 r1' _ _ s1 => Agr_some s1)
    · exact ih.operandLoop _ _ _ _ hs.simNext
  all_goals simp only []
  all_goals first
    | exact Agr_some hs.simBackup
    | exact Agr_some hs
    | exact Agr_literal hs (by omega)
    | exact ih.operandLoop _ _ _ _ hs.simNext
    | exact Agr_bind (hsub.parseArrayDeclaration _ hcbF hcbL _ _ _ hs)
        (fun r1 r _ hg => hloop _ r1 r hg)
        (fun r1 r1' _ _ s1 => ih.operandLoop _ _ _ _ s1.simNext)
    | exact Agr_bind (hsub.parseObjectLookup _ hcbF hcbL _ _ _ _ hs)
        (fun r1 r _ hg => hloop _ r1 r hg)
        (fun r1 r1' _ _ s1 => ih.operandLoop _ _ _ _ s1.simNext)
    | exact Agr_bind (hsub.parseArrayLookup _ hcbF hcbL _ _ _ _ hs)
        (fun r1 r _ hg => hloop _ r1 r hg)
        (fun r1 r1' _ _ s1 => ih.operandLoop _ _ _ _ s1.simNext)

theorem allLocal_succ {sub : SubParsers} (hsub : SubLocal sub) (f : Nat)
    (ih : AllLocal sub f) : AllLocal sub (f + 1) where
  expression := allLocal_succ_expression hsub f ih
  nextExpression := allLocal_succ_nextExpression f ih
  operation := allLocal_succ_operation hsub f ih
  assignment := allLocal_succ_assignment hsub f ih
  operand := allLocal_succ_operand hsub f ih
  operandLoop := allLocal_succ_operandLoop hsub f ih
  parseVar := allLocal_succ_variable hsub f ih
  incl := fun N p p' hs => by
    simp only [parseInclude]
    exact ih.includeLoop _ _ _ _ hs
  includeLoop := allLocal_succ_includeLoop hsub f ih
  ignoreError := fun N p p' hs => by
    simp only [parseIgnoreError]
    exact ih.expression _ _ _ hs.simNext
  new := allLocal_succ_new hsub f ih

/-- Every function of the file reads no token more than one past the cursor
it returns with, provided the sub-parsers outside the file do not. -/
theorem allLocal {sub : SubParsers} (hsub : SubLocal sub) : ∀ f, AllLocal sub f
  | 0 => allLocal_zero sub
  | f + 1 => allLocal_succ hsub f (allLocal hsub f)

/-! ## The sub-parsers the spec describes read no token beyond the lookahead -/

theorem specBinaryLoop_forward {cb : Callbacks} (hcb : CallbacksForward cb) (prec : Nat)
    (l : Int) : ∀ (n : Nat) (rhs : Expr) (q : parser) (r : Expr × parser),
      specBinaryLoop cb prec l n rhs q = some r → Reach 1 q r.2
  | 0, _, _, _, h => by rw [specBinaryLoop] at h; cases h
  | n + 1, rhs, q, r, h => by
    rw [specBinaryLoop] at h
    split at h
    · split at h
      · rcases Option.bind_eq_some.mp h with ⟨r1, h1, h2⟩
        exact (hcb.parseOperation _ _ _ _ h1).trans
          (specBinaryLoop_forward hcb prec l n _ _ _ h2)
      · cases h; exact Reach.refl q
    · cases h; exact Reach.refl q

theorem specParseBinaryOperation_forward (cb : Callbacks) (hcb : CallbacksForward cb)
    (e : Expr) (op : Item) (l : Int) (p : parser) (r : Expr × parser)
    (h : specParseBinaryOperation cb e op l p = some r) : Reach 1 p r.2 := by
  unfold specParseBinaryOperation at h
  rcases Option.bind_eq_some.mp h with ⟨r1, h1, h2⟩
  rcases Option.bind_eq_some.mp h2 with ⟨r2, h3, h4⟩
  cases h4
  have a1 := (hcb.parseOperand _ _ h1).1
  have a2 := specBinaryLoop_forward hcb _ _ _ _ _ _ h3
  refine ⟨a2.1.trans a1.1, ?_⟩
  have := a1.2
  have := a2.2
  simp only [parser.next_idx] at *
  omega

theorem specBinaryLoop_local {cb : Callbacks} (hcbF : CallbacksForward cb)
    (hcbL : CallbacksLocal cb) (prec : Nat) (l : Int) :
    ∀ (n : Nat) (rhs : Expr) (N : Nat) (q q' : parser), Sim N q q' →
      Agr N (specBinaryLoop cb prec l n rhs q) (specBinaryLoop cb prec l n rhs q')
  | 0, _, _, _, _, _ => by rw [specBinaryLoop]; exact Agr_none _ _
  | n + 1, rhs, N, q, q', hs => by
    refine Agr_intro (fun r h hN => ?_)
    have hm := reach_le (specBinaryLoop_forward hcbF prec l (n + 1) rhs q r h)
    simp only [specBinaryLoop, hs.peek (by omega)]
    split
    · split
      · exact Agr_bind (hcbL.parseOperation _ _ _ _ _ hs)
          (fun r1 r _ hg => reach_le (specBinaryLoop_forward hcbF prec l n _ _ _ hg))
          (fun r1 r1' _ _ s1 => specBinaryLoop_local hcbF hcbL prec l n _ _ _ _ s1)
      · exact Agr_some hs
    · exact Agr_some hs

theorem specParseBinaryOperation_local (cb : Callbacks) (hcbF : CallbacksForward cb)
    (hcbL : CallbacksLocal cb) (e : Expr) (op : Item) (l : Int) (N : Nat) (p p' : parser)
    (hs : Sim N p p') :
    Agr N (specParseBinaryOperation cb e op l p) (specParseBinaryOperation cb e op l p') := by
  unfold specParseBinaryOperation
  refine Agr_bind (hcbL.parseOperand _ _ _ hs.simNext) (fun r1 r _ hg => ?_)
    (fun r1 r1' _ _ s1 => ?_)
  · rcases Option.bind_eq_some.mp hg with ⟨r2, h3, h4⟩
    cases h4
    exact reach_le (specBinaryLoop_forward hcbF _ _ _ _ _ r2 h3)
  · exact Agr_bind (specBinaryLoop_local hcbF hcbL _ _ _ _ _ _ _ s1)
      (fun r2 r _ hg => by cases hg; exact Nat.le_refl _)
      (fun r2 r2' _ _ s2 => Agr_some s2)

theorem specSub_forward {base : SubParsers} (hbase : SubForward base) :
    SubForward (specSub base) where
  parseAnonymousFunction := hbase.parseAnonymousFunction
  parseList := hbase.parseList
  parseInstantiation := hbase.parseInstantiation
  parseArrayDeclaration := hbase.parseArrayDeclaration
  parseUnaryExpressionRight := fun _ _ _ _ p r h => by cases h; exact Reach.refl p
  parseUnaryExpressionLeft := fun _ _ _ _ p r h => by cases h; exact Reach.refl p
  parseBinaryOperation := specParseBinaryOperation_forward
  parseTernaryOperation := hbase.parseTernaryOperation
  parseArrayLookup := hbase.parseArrayLookup
  parseObjectLookup := hbase.parseObjectLookup
  parseFunctionCall := hbase.parseFunctionCall

theorem specSub_local {base : SubParsers} (hbase : SubLocal base) :
    SubLocal (specSub base) where
  forward := specSub_forward hbase.forward
  parseAnonymousFunction := hbase.parseAnonymousFunction
  parseList := hbase.parseList
  parseInstantiation := hbase.parseInstantiation
  parseArrayDeclaration := hbase.parseArrayDeclaration
  parseUnaryExpressionRight := fun _ _ _ _ _ _ _ _ hs => Agr_some hs
  parseUnaryExpressionLeft := fun _ _ _ _ _ _ _ _ hs => Agr_some hs
  parseBinaryOperation := specParseBinaryOperation_local
  parseTernaryOperation := hbase.parseTernaryOperation
  parseArrayLookup := hbase.parseArrayLookup
  parseObjectLookup := hbase.parseObjectLookup
  parseFunctionCall := hbase.parseFunctionCall

theorem unsupported_forward (msg : String) (p : parser) (r : Expr × parser)
    (h : unsupported msg p = some r) : Reach 1 p r.2 := by
  cases h; exact Reach.refl p

theorem unsupported_local (msg : String) (N : Nat) (p p' : parser) (hs : Sim N p p') :
    Agr N (unsupported msg p) (unsupported msg p') :=
  Agr_some (hs.simErrorf (ParseError.other msg))

theorem bareSub_forward : SubForward bareSub where
  parseAnonymousFunction := fun _ _ _ _ h => unsupported_forward _ _ _ h
  parseList := fun _ _ _ _ h => unsupported_forward _ _ _ h
  parseInstantiation := fun _ _ _ _ h => unsupported_forward _ _ _ h
  parseArrayDeclaration := fun _ _ _ _ h => unsupported_forward _ _ _ h
  parseUnaryExpressionRight := fun _ _ _ _ p r h => by cases h; exact Reach.refl p
  parseUnaryExpressionLeft := fun _ _ _ _ p r h => by cases h; exact Reach.refl p
  parseBinaryOperation := specParseBinaryOperation_forward
  parseTernaryOperation := fun _ _ _ _ _ h => unsupported_forward _ _ _ h
  parseArrayLookup := fun _ _ _ _ _ h => unsupported_forward _ _ _ h
  parseObjectLookup := fun _ _ _ _ _ h => unsupported_forward _ _ _ h
  parseFunctionCall := fun _ _ _ _ _ h => unsupported_forward _ _ _ h

theorem bareSub_local : SubLocal bareSub where
  forward := bareSub_forward
  parseAnonymousFunction := fun _ _ _ _ _ _ hs => unsupported_local _ _ _ _ hs
  parseList := fun _ _ _ _ _ _ hs => unsupported_local _ _ _ _ hs
  parseInstantiation := fun _ _ _ _ _ _ hs => unsupported_local _ _ _ _ hs
  parseArrayDeclaration := fun _ _ _ _ _ _ hs => unsupported_local _ _ _ _ hs
  parseUnaryExpressionRight := fun _ _ _ _ _ _ _ _ hs => Agr_some hs
  parseUnaryExpressionLeft := fun _ _ _ _ _ _ _ _ hs => Agr_some hs
  parseBinaryOperation := specParseBinaryOperation_local
  parseTernaryOperation := fun _ _ _ _ _ _ _ hs => unsupported_local _ _ _ _ hs
  parseArrayLookup := fun _ _ _ _ _ _ _ hs => unsupported_local _ _ _ _ hs
  parseObjectLookup := fun _ _ _ _ _ _ _ hs => unsupported_local _ _ _ _ hs
  parseFunctionCall := fun _ _ _ _ _ _ _ hs => unsupported_local _ _ _ _ hs

/-! ## The precedence table -/

/-- C12: a token kind has the entry `k` in `operatorPrecedence` exactly
when the ladder of the spec puts it on rung `k`: array-lookup 19; unary,
bitwise-not and cast 18; instanceof 17; negation 16; multiplicative 15;
addition, subtraction and concatenation 14; bit-shift 13; comparison 12;
equality 11; ampersand 10; bitwise-xor 9; bitwise-or 8; and 7; or 6; both
ternary tokens 5; assignment 4; written-and 3; written-xor 2; written-or 1;
every other kind has no entry. -/
theorem operatorPrecedence_ladder (t : Token) (k : Nat) :
    operatorPrecedence t = some k ↔ (t, k) ∈ precedenceLadder := by
  cases t <;> simp [operatorPrecedence, precedenceLadder] <;> omega

theorem parseExpression_eq_switch (sub : SubParsers) (fuel : Nat) (p : parser) :
    parseExpression sub (fuel + 1) p =
      (parseExpressionSwitch sub fuel p).map (checkParenLevel p.parenLevel) := by
  rw [parseExpression]
  rfl

/-! ## The operation loop on a token that is no operator -/

/-- C13: when the token after the current one belongs to none of the four
operation families, `parseOperation` returns `lhs` itself and the parser
state of the entry (token stream, cursor, `parenLevel` and errors): the
cursor advances to that token and steps back. -/
theorem parseOperation_frame (sub : SubParsers) (f : Nat) (l : Int) (lhs : Expr) (p : parser)
    (hu : sub.operationTypeForToken p.next.current.typ ≠ operationType.unaryOperation)
    (hb : sub.operationTypeForToken p.next.current.typ ≠ operationType.binaryOperation)
    (ht : sub.operationTypeForToken p.next.current.typ ≠ operationType.ternaryOperation)
    (ha : sub.operationTypeForToken p.next.current.typ ≠ operationType.assignmentOperation) :
    parseOperation sub (f + 1) l lhs p = some (lhs, p) ∧
      parseOperation sub (f + 1) l lhs p = some (lhs, p.next.backup) := by
  have h : sub.operationTypeForToken p.next.current.typ = operationType.nilOperation := by
    cases hc : sub.operationTypeForToken p.next.current.typ <;> simp_all
  exact ⟨parseOperation_nil sub f l lhs p h, by
    rw [parser.backup_next]; exact parseOperation_nil sub f l lhs p h⟩

theorem parseOperation_frame_witness :
    parseOperation bareSub 1 0 (Expr.Variable "a")
        ⟨[⟨Token.VariableOperator, "$"⟩, ⟨Token.Identifier, "a"⟩, ⟨Token.CloseParen, ")"⟩],
          1, 0, []⟩ =
      some (Expr.Variable "a",
        ⟨[⟨Token.VariableOperator, "$"⟩, ⟨Token.Identifier, "a"⟩, ⟨Token.CloseParen, ")"⟩],
          1, 0, []⟩) :=
  (parseOperation_frame bareSub 0 0 (Expr.Variable "a")
    ⟨[⟨Token.VariableOperator, "$"⟩, ⟨Token.Identifier, "a"⟩, ⟨Token.CloseParen, ")"⟩],
      1, 0, []⟩
    (by decide) (by decide) (by decide) (by decide)).1

/-! ## Literals -/

/-- C17: on a current token of kind `StringLiteral`, `BooleanLiteral`,
`NumberLiteral` or `Null`, `parseLiteral` returns the `Literal` of type
`String`, `Boolean`, `Float` or `Null` whose value is the text of the token,
in the state of the entry; on a current token of any other kind it returns
no literal and the state of the entry with the error "Unknown literal type"
appended. -/
theorem parseLiteral_kinds (p : parser) :
    (p.current.typ = Token.StringLiteral →
      parseLiteral p = (Expr.Literal LiteralType.String p.current.val, p)) ∧
    (p.current.typ = Token.BooleanLiteral →
      parseLiteral p = (Expr.Literal LiteralType.Boolean p.current.val, p)) ∧
    (p.current.typ = Token.NumberLiteral →
      parseLiteral p = (Expr.Literal LiteralType.Float p.current.val, p)) ∧
    (p.current.typ = Token.Null →
      parseLiteral p = (Expr.Literal LiteralType.Null p.current.val, p)) ∧
    (p.current.typ ≠ Token.StringLiteral → p.current.typ ≠ Token.BooleanLiteral →
      p.current.typ ≠ Token.NumberLiteral → p.current.typ ≠ Token.Null →
      parseLiteral p =
        (Expr.nil, { toks := p.toks, idx := p.idx, parenLevel := p.parenLevel,
                     errors := p.errors ++ [ParseError.unknownLiteralType] })) := by
  refine ⟨?_, ?_, ?_, ?_, ?_⟩
  · intro h; simp only [parseLiteral, h]
  · intro h; simp only [parseLiteral, h]
  · intro h; simp only [parseLiteral, h]
  · intro h; simp only [parseLiteral, h]
  · intro h1 h2 h3 h4
    unfold parseLiteral
    split <;> first
      | contradiction
      | rfl

theorem parseLiteral_kinds_witness :
    parseLiteral (start [⟨Token.NumberLiteral, "1"⟩]) =
        (Expr.Literal LiteralType.Float "1", start [⟨Token.NumberLiteral, "1"⟩]) ∧
    parseLiteral (start [⟨Token.Comma, ","⟩]) =
        (Expr.nil, ⟨[⟨Token.Comma, ","⟩], 0, 0, [ParseError.unknownLiteralType]⟩) :=
  ⟨(parseLiteral_kinds (start [⟨Token.NumberLiteral, "1"⟩])).2.2.1 rfl,
   (parseLiteral_kinds (start [⟨Token.Comma, ","⟩])).2.2.2.2
     (by decide) (by decide) (by decide) (by decide)⟩

/-! ## `self`, `static` and `parent` on their own -/

theorem parseOperandLoop_keyword_alone (sub : SubParsers) (f : Nat) (e : Expr) (p : parser)
    (hk : p.current.typ = Token.Self ∨ p.current.typ = Token.Static ∨
      p.current.typ = Token.Parent)
    (hs : p.peek.typ ≠ Token.ScopeResolutionOperator) :
    parseOperandLoop sub (f + 1) e p = parseOperandLoop sub f e p.next := by
  rw [parseOperandLoop]
  rcases hk with hk | hk | hk <;> simp only [hk, hs, if_false]

/-- C18: on `self`, `static` or `parent` followed by a token that is not `::`
and that the loop of `parseOperand` has no case for, `parseOperand` returns
the nil operand and the state of the entry (the cursor advanced once and
stepped back once, no error recorded), and `parseExpression` hands that nil
operand to `parseOperation` as `lhs`. -/
theorem parseOperand_keyword_alone (sub : SubParsers) (f : Nat) (p : parser)
    (hk : p.current.typ = Token.Self ∨ p.current.typ = Token.Static ∨
      p.current.typ = Token.Parent)
    (hs : p.next.current.typ ≠ Token.ScopeResolutionOperator)
    (hd : stopsOperand p.next.current.typ = true) :
    parseOperand sub (f + 3) p = some (Expr.nil, p) ∧
    p.next.backup = p ∧
    parseExpression sub (f + 4) p =
      (parseOperation sub (f + 3) p.parenLevel Expr.nil p).map
        (checkParenLevel p.parenLevel) := by
  have hp : isPrefixKind p.current.typ = false := by
    rcases hk with hk | hk | hk <;> rw [hk] <;> rfl
  have ho : isOperandStart p.current.typ = true := by
    rcases hk with hk | hk | hk <;> rw [hk] <;> rfl
  have h1 : parseOperand sub (f + 3) p = some (Expr.nil, p) := by
    rw [parseOperand_loop sub (f + 2) p hp, parseOperandLoop_keyword_alone sub (f + 1) _ p hk hs,
      parseOperandLoop_stop sub f _ _ hd, parser.backup_next]
  refine ⟨h1, parser.backup_next p, ?_⟩
  rw [parseExpression_operand sub (f + 3) p ho, h1, Option.some_bind]

theorem parseOperand_keyword_alone_witness :
    parseOperand bareSub 3
        (start [⟨Token.Self, "self"⟩, ⟨Token.AdditionOperator, "+"⟩,
          ⟨Token.NumberLiteral, "1"⟩]) =
      some (Expr.nil,
        start [⟨Token.Self, "self"⟩, ⟨Token.AdditionOperator, "+"⟩,
          ⟨Token.NumberLiteral, "1"⟩]) ∧
    parseExpression bareSub 8
        (start [⟨Token.Self, "self"⟩, ⟨Token.AdditionOperator, "+"⟩,
          ⟨Token.NumberLiteral, "1"⟩]) =
      some (Expr.BinaryOperation Expr.nil "+" (Expr.Literal LiteralType.Float "1"),
        ⟨[⟨Token.Self, "self"⟩, ⟨Token.AdditionOperator, "+"⟩,
          ⟨Token.NumberLiteral, "1"⟩], 2, 0, []⟩) :=
  ⟨(parseOperand_keyword_alone bareSub 0
      (start [⟨Token.Self, "self"⟩, ⟨Token.AdditionOperator, "+"⟩,
        ⟨Token.NumberLiteral, "1"⟩])
      (Or.inl rfl) (by decide) rfl).1, rfl⟩

/-! ## Curly-brace lookup -/

theorem parseOperandLoop_objectLookup (sub : SubParsers) (f : Nat) (e : Expr) (p : parser)
    (h : p.current.typ = Token.ObjectOperator) :
    parseOperandLoop sub (f + 1) e p =
      (sub.parseObjectLookup (callbacksAt sub f) e p).bind fun r =>
        parseOperandLoop sub f r.1 r.2.next := by
  rw [parseOperandLoop]
  simp only [h]

theorem parseOperandLoop_arrayLookup (sub : SubParsers) (f : Nat) (e : Expr) (p : parser)
    (h : p.current.typ = Token.ArrayLookupOperatorLeft) :
    parseOperandLoop sub (f + 1) e p =
      (sub.parseArrayLookup (callbacksAt sub f) e p).bind fun r =>
        parseOperandLoop sub f r.1 r.2.next := by
  rw [parseOperandLoop]
  simp only [h]

theorem parseOperandLoop_curly (sub : SubParsers) (f : Nat) (e : Expr) (p : parser)
    (h0 : p.current.typ = Token.VariableOperator)
    (h1 : p.next.current.typ = Token.Identifier)
    (h2 : p.next.next.current.typ = Token.BlockBegin) :
    parseOperandLoop sub (f + 2) e p =
      (sub.parseArrayLookup (callbacksAt sub (f + 1)) (Expr.Variable p.next.current.val)
          p.next.next).bind fun r =>
        parseOperandLoop sub (f + 1) r.1 r.2.next := by
  rw [parseOperandLoop]
  simp only [h0, parseVariable_identifier sub f p h0 h1, Option.some_bind, h2]

theorem parseOperandLoop_constant (sub : SubParsers) (f : Nat) (e : Expr) (p : parser)
    (h0 : p.current.typ = Token.Identifier)
    (h1 : p.peek.typ ≠ Token.OpenParen) (h2 : p.peek.typ ≠ Token.ScopeResolutionOperator) :
    parseOperandLoop sub (f + 1) e p =
      parseOperandLoop sub f (Expr.ConstantExpression (Expr.Variable p.current.val)) p.next := by
  rw [parseOperandLoop]
  simp only [h0, NewVariable]

/-- C16: directly after a variable `$a`, a `{` token makes the loop of
`parseOperand` call the array-lookup sub-parser on the `{` with receiver
`Variable a` and go on from its result.  Entered on a `{` with any
accumulated operand, the loop returns that operand and steps back; so a `{`
that follows an object lookup, a bracket lookup, a curly lookup, a function
call or a constant ends the operand there: the operand returned is the one
built so far and the cursor is on its last token, the `{` not consumed. -/
theorem curly_lookup_only_after_variable (sub : SubParsers) (f : Nat) (e : Expr)
    (p : parser) :
    (p.current.typ = Token.VariableOperator → p.next.current.typ = Token.Identifier →
      p.next.next.current.typ = Token.BlockBegin →
      parseOperandLoop sub (f + 2) e p =
        (sub.parseArrayLookup (callbacksAt sub (f + 1)) (Expr.Variable p.next.current.val)
            p.next.next).bind fun r =>
          parseOperandLoop sub (f + 1) r.1 r.2.next) ∧
    (p.current.typ = Token.BlockBegin →
      parseOperandLoop sub (f + 1) e p = some (e, p.backup)) ∧
    (p.current.typ = Token.ObjectOperator →
      ∀ r, sub.parseObjectLookup (callbacksAt sub (f + 1)) e p = some r →
        r.2.next.current.typ = Token.BlockBegin →
        parseOperandLoop sub (f + 2) e p = some r) ∧
    (p.current.typ = Token.ArrayLookupOperatorLeft →
      ∀ r, sub.parseArrayLookup (callbacksAt sub (f + 1)) e p = some r →
        r.2.next.current.typ = Token.BlockBegin →
        parseOperandLoop sub (f + 2) e p = some r) ∧
    (p.current.typ = Token.VariableOperator → p.next.current.typ = Token.Identifier →
      p.next.next.current.typ = Token.BlockBegin →
      ∀ r, sub.parseArrayLookup (callbacksAt sub (f + 1)) (Expr.Variable p.next.current.val)
          p.next.next = some r →
        r.2.next.current.typ = Token.BlockBegin →
        parseOperandLoop sub (f + 2) e p = some r) ∧
    (p.current.typ = Token.Identifier → p.peek.typ = Token.OpenParen →
      ∀ r, sub.parseFunctionCall (callbacksAt sub (f + 1)) (Expr.Identifier p.current.val) p =
          some r →
        r.2.next.current.typ = Token.BlockBegin →
        parseOperandLoop sub (f + 2) e p = some r) ∧
    (p.current.typ = Token.Identifier → p.peek.typ = Token.BlockBegin →
      parseOperandLoop sub (f + 2) e p =
        some (Expr.ConstantExpression (Expr.Variable p.current.val), p)) := by
  have hstop : ∀ (e1 : Expr) (q : parser), q.next.current.typ = Token.BlockBegin →
      parseOperandLoop sub (f + 1) e1 q.next = some (e1, q) := by
    intro e1 q hq
    rw [parseOperandLoop_stop sub f e1 q.next (by rw [hq]; rfl), parser.backup_next]
  refine ⟨parseOperandLoop_curly sub f e p, ?_, ?_, ?_, ?_, ?_, ?_⟩
  · intro h
    exact parseOperandLoop_stop sub f e p (by rw [h]; rfl)
  · intro h r hr hb
    rw [parseOperandLoop_objectLookup sub (f + 1) e p h, hr, Option.some_bind, hstop _ _ hb]
  · intro h r hr hb
    rw [parseOperandLoop_arrayLookup sub (f + 1) e p h, hr, Option.some_bind, hstop _ _ hb]
  · intro h0 h1 h2 r hr hb
    rw [parseOperandLoop_curly sub f e p h0 h1 h2, hr, Option.some_bind, hstop _ _ hb]
  · intro h0 h1 r hr hb
    rw [parseOperandLoop_call sub (f + 1) e p h0 h1, hr, Option.some_bind, hstop _ _ hb]
  · intro h0 h1
    rw [parseOperandLoop_constant sub (f + 1) e p h0 (by rw [h1]; decide)
      (by rw [h1]; decide)]
    exact hstop _ _ h1

theorem curly_lookup_only_after_variable_witness :
    parseOperand lookupSub 8
        (start [⟨Token.VariableOperator, "$"⟩, ⟨Token.Identifier, "a"⟩,
          ⟨Token.BlockBegin, "\x7b"⟩, ⟨Token.NumberLiteral, "0"⟩, ⟨blockEnd, "\x7d"⟩,
          ⟨Token.BlockBegin, "\x7b"⟩, ⟨Token.NumberLiteral, "1"⟩, ⟨blockEnd, "\x7d"⟩]) =
      some (Expr.ArrayLookup (Expr.Variable "a") (Expr.Literal LiteralType.Float "0"),
        ⟨[⟨Token.VariableOperator, "$"⟩, ⟨Token.Identifier, "a"⟩,
          ⟨Token.BlockBegin, "\x7b"⟩, ⟨Token.NumberLiteral, "0"⟩, ⟨blockEnd, "\x7d"⟩,
          ⟨Token.BlockBegin, "\x7b"⟩, ⟨Token.NumberLiteral, "1"⟩, ⟨blockEnd, "\x7d"⟩],
          4, 0, []⟩) ∧
    parseOperandLoop lookupSub 7 Expr.nil
        (start [⟨Token.VariableOperator, "$"⟩, ⟨Token.Identifier, "a"⟩,
          ⟨Token.BlockBegin, "\x7b"⟩, ⟨Token.NumberLiteral, "0"⟩, ⟨blockEnd, "\x7d"⟩,
          ⟨Token.BlockBegin, "\x7b"⟩, ⟨Token.NumberLiteral, "1"⟩, ⟨blockEnd, "\x7d"⟩]) =
      some (Expr.ArrayLookup (Expr.Variable "a") (Expr.Literal LiteralType.Float "0"),
        ⟨[⟨Token.VariableOperator, "$"⟩, ⟨Token.Identifier, "a"⟩,
          ⟨Token.BlockBegin, "\x7b"⟩, ⟨Token.NumberLiteral, "0"⟩, ⟨blockEnd, "\x7d"⟩,
          ⟨Token.BlockBegin, "\x7b"⟩, ⟨Token.NumberLiteral, "1"⟩, ⟨blockEnd, "\x7d"⟩],
          4, 0, []⟩) :=
  ⟨rfl, (curly_lookup_only_after_variable lookupSub 5 Expr.nil
    (start [⟨Token.VariableOperator, "$"⟩, ⟨Token.Identifier, "a"⟩,
      ⟨Token.BlockBegin, "\x7b"⟩, ⟨Token.NumberLiteral, "0"⟩, ⟨blockEnd, "\x7d"⟩,
      ⟨Token.BlockBegin, "\x7b"⟩, ⟨Token.NumberLiteral, "1"⟩, ⟨blockEnd, "\x7d"⟩])).2.2.2.2.1
    rfl rfl rfl _ rfl rfl⟩

/-! ## The postcondition check -/

theorem checkParenLevel_parenLevel (l : Int) (r : Expr × parser) :
    (checkParenLevel l r).2.parenLevel = r.2.parenLevel := by
  unfold checkParenLevel
  split <;> rfl

/-- C20: provided the sub-parsers outside the file return with the paren
counter they were entered with, the switch of `parseExpression` reaches the
postcondition check with `parenLevel` equal to its value on entry, so the
check changes nothing and `parseExpression` returns what the switch computed,
no "unbalanced parens" error added; and `parseExpression`, `parseOperation`,
`parseOperand`, `parseVariable`, `parseInclude`, `parseIgnoreError` and
`parseAssignmentOperation` each return with `parenLevel` equal to its value
on entry, whatever the token stream. -/
theorem unbalanced_parens_unreachable (sub : SubParsers) (hsub : SubRespects SameParen sub)
    (fuel : Nat) (p : parser) :
    (∀ r0, parseExpressionSwitch sub fuel p = some r0 →
      r0.2.parenLevel = p.parenLevel ∧ checkParenLevel p.parenLevel r0 = r0) ∧
    parseExpression sub (fuel + 1) p = parseExpressionSwitch sub fuel p ∧
    (∀ r, parseExpression sub fuel p = some r → r.2.parenLevel = p.parenLevel) ∧
    (∀ l lhs r, parseOperation sub fuel l lhs p = some r → r.2.parenLevel = p.parenLevel) ∧
    (∀ r, parseOperand sub fuel p = some r → r.2.parenLevel = p.parenLevel) ∧
    (∀ r, parseVariable sub fuel p = some r → r.2.parenLevel = p.parenLevel) ∧
    (∀ r, parseInclude sub fuel p = some r → r.2.parenLevel = p.parenLevel) ∧
    (∀ r, parseIgnoreError sub fuel p = some r → r.2.parenLevel = p.parenLevel) ∧
    (∀ lhs r, parseAssignmentOperation sub fuel lhs p = some r →
      r.2.parenLevel = p.parenLevel) := by
  have hall := allRespect stable_sameParen hsub
  have hsw : ∀ r0, parseExpressionSwitch sub fuel p = some r0 →
      r0.2.parenLevel = p.parenLevel := by
    intro r0 h0
    have h1 : parseExpression sub (fuel + 1) p = some (checkParenLevel p.parenLevel r0) := by
      rw [parseExpression_eq_switch, h0, Option.map_some']
    have h2 := (hall (fuel + 1)).expression p p rfl _ h1
    exact (checkParenLevel_parenLevel _ _).symm.trans h2
  refine ⟨fun r0 h0 => ⟨hsw r0 h0, checkParenLevel_same _ _ (hsw r0 h0)⟩, ?_,
    fun r h => (hall fuel).expression p p rfl r h,
    fun l lhs r h => (hall fuel).operation l lhs p p rfl r h,
    fun r h => (hall fuel).operand p p rfl r h,
    fun r h => (hall fuel).parseVar p p rfl r h,
    fun r h => (hall fuel).incl p p rfl r h,
    fun r h => (hall fuel).ignoreError p p rfl r h,
    fun lhs r h => (hall fuel).assignment lhs p p rfl r h⟩
  rw [parseExpression_eq_switch]
  cases hx : parseExpressionSwitch sub fuel p with
  | none => rfl
  | some r0 => rw [Option.map_some', checkParenLevel_same _ _ (hsw r0 hx)]

theorem unbalanced_parens_unreachable_witness :
    parseExpression bareSub 6
        (start [⟨Token.OpenParen, "("⟩, ⟨Token.NumberLiteral, "1"⟩]) =
      some (Expr.Literal LiteralType.Float "1",
        ⟨[⟨Token.OpenParen, "("⟩, ⟨Token.NumberLiteral, "1"⟩], 2, 0,
          [ParseError.expected eofItem [Token.CloseParen]]⟩) ∧
    parseExpressionSwitch bareSub 5
        (start [⟨Token.OpenParen, "("⟩, ⟨Token.NumberLiteral, "1"⟩]) =
      some (Expr.Literal LiteralType.Float "1",
        ⟨[⟨Token.OpenParen, "("⟩, ⟨Token.NumberLiteral, "1"⟩], 2, 0,
          [ParseError.expected eofItem [Token.CloseParen]]⟩) ∧
    parseExpression bareSub 6
        (start [⟨Token.NumberLiteral, "1"⟩, ⟨Token.CloseParen, ")"⟩]) =
      some (Expr.Literal LiteralType.Float "1",
        ⟨[⟨Token.NumberLiteral, "1"⟩, ⟨Token.CloseParen, ")"⟩], 0, 0, []⟩) :=
  ⟨rfl,
   ((unbalanced_parens_unreachable bareSub bareSub_sameParen 5
      (start [⟨Token.OpenParen, "("⟩, ⟨Token.NumberLiteral, "1"⟩])).2.1).symm.trans rfl,
   rfl⟩

/-! ## Tokens that start an operand, met after an operand -/

/-- C14: on `$a "x"`, `$a $b` and `$a b` the loop of `parseOperand` does
not stop at the second operand: it returns the literal `"x"`, the variable
`$b`, the constant `b`, the cursor on the last token, and the operand `$a`
accumulated before is dropped; `parseExpression` on `$a "x"` returns the
literal as well, no error recorded. -/
theorem operand_start_after_operand :
    parseOperand bareSub 6
        (start [⟨Token.VariableOperator, "$"⟩, ⟨Token.Identifier, "a"⟩,
          ⟨Token.StringLiteral, "x"⟩]) =
      some (Expr.Literal LiteralType.String "x",
        ⟨[⟨Token.VariableOperator, "$"⟩, ⟨Token.Identifier, "a"⟩,
          ⟨Token.StringLiteral, "x"⟩], 2, 0, []⟩) ∧
    parseOperand bareSub 8
        (start [⟨Token.VariableOperator, "$"⟩, ⟨Token.Identifier, "a"⟩,
          ⟨Token.VariableOperator, "$"⟩, ⟨Token.Identifier, "b"⟩]) =
      some (Expr.Variable "b",
        ⟨[⟨Token.VariableOperator, "$"⟩, ⟨Token.Identifier, "a"⟩,
          ⟨Token.VariableOperator, "$"⟩, ⟨Token.Identifier, "b"⟩], 3, 0, []⟩) ∧
    parseOperand bareSub 8
        (start [⟨Token.VariableOperator, "$"⟩, ⟨Token.Identifier, "a"⟩,
          ⟨Token.Identifier, "b"⟩]) =
      some (Expr.ConstantExpression (Expr.Variable "b"),
        ⟨[⟨Token.VariableOperator, "$"⟩, ⟨Token.Identifier, "a"⟩,
          ⟨Token.Identifier, "b"⟩], 2, 0, []⟩) ∧
    parseExpression bareSub 8
        (start [⟨Token.VariableOperator, "$"⟩, ⟨Token.Identifier, "a"⟩,
          ⟨Token.StringLiteral, "x"⟩]) =
      some (Expr.Literal LiteralType.String "x",
        ⟨[⟨Token.VariableOperator, "$"⟩, ⟨Token.Identifier, "a"⟩,
          ⟨Token.StringLiteral, "x"⟩], 2, 0, []⟩) :=
  ⟨rfl, rfl, rfl, rfl⟩

/-! ## Scope resolution members -/

/-- C15: on `Foo::bar + 1`, `$v::bar + 1` and `self::bar + 1`,
`parseOperand` consumes the operator and the operand after it: the member of
the `ClassExpression` it returns is the binary operation `bar + 1` and the
cursor is on `1`. -/
theorem scope_member_absorbs_operator :
    parseOperand bareSub 10
        (start [⟨Token.Identifier, "Foo"⟩, ⟨Token.ScopeResolutionOperator, "::"⟩,
          ⟨Token.Identifier, "bar"⟩, ⟨Token.AdditionOperator, "+"⟩,
          ⟨Token.NumberLiteral, "1"⟩]) =
      some (Expr.ClassExpression (Expr.Identifier "Foo")
          (Expr.BinaryOperation (Expr.ConstantExpression (Expr.Variable "bar")) "+"
            (Expr.Literal LiteralType.Float "1")),
        ⟨[⟨Token.Identifier, "Foo"⟩, ⟨Token.ScopeResolutionOperator, "::"⟩,
          ⟨Token.Identifier, "bar"⟩, ⟨Token.AdditionOperator, "+"⟩,
          ⟨Token.NumberLiteral, "1"⟩], 4, 0, []⟩) ∧
    parseOperand bareSub 10
        (start [⟨Token.VariableOperator, "$"⟩, ⟨Token.Identifier, "v"⟩,
          ⟨Token.ScopeResolutionOperator, "::"⟩, ⟨Token.Identifier, "bar"⟩,
          ⟨Token.AdditionOperator, "+"⟩, ⟨Token.NumberLiteral, "1"⟩]) =
      some (Expr.ClassExpression (Expr.Variable "v")
          (Expr.BinaryOperation (Expr.ConstantExpression (Expr.Variable "bar")) "+"
            (Expr.Literal LiteralType.Float "1")),
        ⟨[⟨Token.VariableOperator, "$"⟩, ⟨Token.Identifier, "v"⟩,
          ⟨Token.ScopeResolutionOperator, "::"⟩, ⟨Token.Identifier, "bar"⟩,
          ⟨Token.AdditionOperator, "+"⟩, ⟨Token.NumberLiteral, "1"⟩], 5, 0, []⟩) ∧
    parseOperand bareSub 10
        (start [⟨Token.Self, "self"⟩, ⟨Token.ScopeResolutionOperator, "::"⟩,
          ⟨Token.Identifier, "bar"⟩, ⟨Token.AdditionOperator, "+"⟩,
          ⟨Token.NumberLiteral, "1"⟩]) =
      some (Expr.ClassExpression (Expr.Identifier "self")
          (Expr.BinaryOperation (Expr.ConstantExpression (Expr.Variable "bar")) "+"
            (Expr.Literal LiteralType.Float "1")),
        ⟨[⟨Token.Self, "self"⟩, ⟨Token.ScopeResolutionOperator, "::"⟩,
          ⟨Token.Identifier, "bar"⟩, ⟨Token.AdditionOperator, "+"⟩,
          ⟨Token.NumberLiteral, "1"⟩], 4, 0, []⟩) :=
  ⟨rfl, rfl, rfl⟩

/-! ## Postfix chains -/

theorem current_at (p : parser) (pre ts : List Item) (k : Nat)
    (ht : p.toks = pre ++ ts) (hi : p.idx = pre.length + k) :
    p.current = ts.getD k eofItem := by
  unfold parser.current
  rw [ht, hi, List.getD_append_right _ _ _ _ (by omega)]
  congr 1
  omega

theorem expect_mem (p : parser) (kinds : List Token) (h : p.next.current.typ ∈ kinds) :
    p.expect kinds = p.next := by
  simp [parser.expect, parser.expectCurrent, h]

theorem lookupSub_member_step (f : Nat) (e : Expr) (p : parser)
    (h0 : p.current.typ = Token.ObjectOperator)
    (h1 : p.next.current.typ = Token.Identifier) :
    parseOperandLoop lookupSub (f + 1) e p =
      parseOperandLoop lookupSub f
        (Expr.ObjectLookup e (Expr.Identifier p.next.current.val)) p.next.next := by
  rw [parseOperandLoop_objectLookup lookupSub f e p h0]
  show (specParseObjectLookup (callbacksAt lookupSub f) e p).bind _ = _
  unfold specParseObjectLookup
  simp only [expect_found p Token.Identifier h1, Option.some_bind]

theorem lookupSub_index_step (f : Nat) (e : Expr) (p : parser)
    (h0 : p.current.typ = Token.ArrayLookupOperatorLeft)
    (h1 : p.next.current.typ = Token.NumberLiteral)
    (h2 : p.next.next.current.typ = arrayLookupOperatorRight) :
    parseOperandLoop lookupSub (f + 4) e p =
      parseOperandLoop lookupSub (f + 3)
        (Expr.ArrayLookup e (Expr.Literal LiteralType.Float p.next.current.val))
        p.next.next.next := by
  rw [parseOperandLoop_arrayLookup lookupSub (f + 3) e p h0]
  show (specParseArrayLookup (callbacksAt lookupSub (f + 3)) e p).bind _ = _
  unfold specParseArrayLookup
  have hl : parseLiteral p.next =
      (Expr.Literal LiteralType.Float p.next.current.val, p.next) := by
    simp [parseLiteral, h1]
  have he : parseExpression lookupSub (f + 3) p.next =
      some ((parseLiteral p.next).1, p.next) :=
    expressionAt_literal lookupSub p.next (by rw [h1]; rfl) (by rw [h2]; rfl)
      (f + 3) (by omega)
  simp only [callbacksAt, he, hl, Option.some_bind]
  rw [expect_mem p.next _ (by rw [h2]; simp)]

theorem parseOperandLoop_chain (links : List Link) :
    ∀ (f : Nat) (e : Expr) (p : parser) (pre rest : List Item),
      p.toks = pre ++ (chainTokens links ++ rest) → p.idx = pre.length →
      stopsOperand (rest.headD eofItem).typ = true →
      4 * links.length + 1 ≤ f →
      parseOperandLoop lookupSub f e p =
        some (links.foldl Link.wrap e,
          { p with idx := p.idx + (chainTokens links).length - 1 }) := by
  induction links with
  | nil =>
    intro f e p pre rest ht hi hr hf
    obtain ⟨j, rfl⟩ : ∃ j, f = j + 1 := ⟨f - 1, by omega⟩
    have hc : p.current = rest.headD eofItem := by
      rw [current_at p pre (chainTokens [] ++ rest) 0 ht (by omega)]
      cases rest <;> rfl
    rw [parseOperandLoop_stop lookupSub j e p (by rw [hc]; exact hr)]
    simp [parser.backup, chainTokens]
  | cons l ls ih =>
    intro f e p pre rest ht hi hr hf
    simp only [List.length_cons] at hf
    cases l with
    | member n =>
      obtain ⟨j, rfl⟩ : ∃ j, f = j + 1 := ⟨f - 1, by omega⟩
      have ht' : p.toks = pre ++ (⟨Token.ObjectOperator, "->"⟩ :: ⟨Token.Identifier, n⟩ ::
          (chainTokens ls ++ rest)) := by
        rw [ht]; simp [chainTokens, Link.tokens]
      have h0 : p.current = ⟨Token.ObjectOperator, "->"⟩ :=
        current_at p pre _ 0 ht' (by omega)
      have h1 : p.next.current = ⟨Token.Identifier, n⟩ :=
        current_at p.next pre _ 1 ht' (by simp [parser.next, hi])
      rw [lookupSub_member_step j e p (by rw [h0]) (by rw [h1]), h1,
        ih j _ p.next.next (pre ++ [⟨Token.ObjectOperator, "->"⟩, ⟨Token.Identifier, n⟩]) rest
          (by rw [show p.next.next.toks = p.toks from rfl, ht']; simp)
          (by simp [parser.next, hi]) hr (by omega)]
      simp only [List.foldl_cons, Link.wrap, chainTokens, Link.tokens, parser.next,
        List.length_append, List.length_cons, List.length_nil, Option.some.injEq,
        Prod.mk.injEq, true_and, parser.mk.injEq, and_true]
      omega
    | index v =>
      obtain ⟨j, rfl⟩ : ∃ j, f = j + 4 := ⟨f - 4, by omega⟩
      have ht' : p.toks = pre ++ (⟨Token.ArrayLookupOperatorLeft, "["⟩ ::
          ⟨Token.NumberLiteral, v⟩ :: ⟨arrayLookupOperatorRight, "]"⟩ ::
          (chainTokens ls ++ rest)) := by
        rw [ht]; simp [chainTokens, Link.tokens]
      have h0 : p.current = ⟨Token.ArrayLookupOperatorLeft, "["⟩ :=
        current_at p pre _ 0 ht' (by omega)
      have h1 : p.next.current = ⟨Token.NumberLiteral, v⟩ :=
        current_at p.next pre _ 1 ht' (by simp [parser.next, hi])
      have h2 : p.next.next.current = ⟨arrayLookupOperatorRight, "]"⟩ :=
        current_at p.next.next pre _ 2 ht' (by simp [parser.next, hi])
      rw [lookupSub_index_step j e p (by rw [h0]) (by rw [h1]) (by rw [h2]), h1,
        ih (j + 3) _ p.next.next.next
          (pre ++ [⟨Token.ArrayLookupOperatorLeft, "["⟩, ⟨Token.NumberLiteral, v⟩,
            ⟨arrayLookupOperatorRight, "]"⟩]) rest
          (by rw [show p.next.next.next.toks = p.toks from rfl, ht']; simp)
          (by simp [parser.next, hi]) hr (by omega)]
      simp only [List.foldl_cons, Link.wrap, chainTokens, Link.tokens, parser.next,
        List.length_append, List.length_cons, List.length_nil, Option.some.injEq,
        Prod.mk.injEq, true_and, parser.mk.injEq, and_true]
      omega

theorem chainTokens_head (links : List Link) (rest : List Item)
    (hn : links = [] → (rest.headD eofItem).typ ≠ Token.BlockBegin ∧
      (rest.headD eofItem).typ ≠ Token.ScopeResolutionOperator) :
    ((chainTokens links ++ rest).headD eofItem).typ ≠ Token.BlockBegin ∧
    ((chainTokens links ++ rest).headD eofItem).typ ≠ Token.ScopeResolutionOperator := by
  cases links with
  | nil => simpa [chainTokens] using hn rfl
  | cons l ls => cases l <;> simp [chainTokens, Link.tokens]

/-- C11 (amended): on the stream `$a` followed by a chain of `->member` and
`[index]` links and then by a token that ends the operand, `parseOperand`
returns the links folded left to right around `Variable a`, the earlier link
innermost, and leaves the cursor on the last token of the chain; every lookup
parser is handed the operand accumulated so far as its receiver; and the loop
has no case for `::`, so a `::` after a link ends the operand and is not
folded into it. -/
theorem postfix_chain_folds (a : String) (links : List Link) (rest : List Item)
    (lvl : Int) (errs : List ParseError) (fuel : Nat)
    (hr : stopsOperand (rest.headD eofItem).typ = true)
    (hn : links = [] → (rest.headD eofItem).typ ≠ Token.BlockBegin ∧
      (rest.headD eofItem).typ ≠ Token.ScopeResolutionOperator)
    (hf : 4 * links.length + 4 ≤ fuel) :
    parseOperand lookupSub fuel
        ⟨⟨Token.VariableOperator, "$"⟩ :: ⟨Token.Identifier, a⟩ ::
          (chainTokens links ++ rest), 0, lvl, errs⟩ =
      some (links.foldl Link.wrap (Expr.Variable a),
        ⟨⟨Token.VariableOperator, "$"⟩ :: ⟨Token.Identifier, a⟩ ::
          (chainTokens links ++ rest), 1 + (chainTokens links).length, lvl, errs⟩) ∧
    (∀ (sub : SubParsers) (f : Nat) (e : Expr) (p : parser),
      (p.current.typ = Token.ObjectOperator →
        parseOperandLoop sub (f + 1) e p =
          (sub.parseObjectLookup (callbacksAt sub f) e p).bind fun r =>
            parseOperandLoop sub f r.1 r.2.next) ∧
      (p.current.typ = Token.ArrayLookupOperatorLeft →
        parseOperandLoop sub (f + 1) e p =
          (sub.parseArrayLookup (callbacksAt sub f) e p).bind fun r =>
            parseOperandLoop sub f r.1 r.2.next) ∧
      (p.current.typ = Token.ScopeResolutionOperator →
        parseOperandLoop sub (f + 1) e p = some (e, p.backup))) := by
  refine ⟨?_, fun sub f e p =>
    ⟨parseOperandLoop_objectLookup sub f e p, parseOperandLoop_arrayLookup sub f e p,
      fun h => parseOperandLoop_stop sub f e p (by rw [h]; rfl)⟩⟩
  obtain ⟨j, rfl⟩ : ∃ j, fuel = j + 3 := ⟨fuel - 3, by omega⟩
  obtain ⟨hb, hs⟩ := chainTokens_head links rest hn
  generalize hp : (⟨⟨Token.VariableOperator, "$"⟩ :: ⟨Token.Identifier, a⟩ ::
      (chainTokens links ++ rest), 0, lvl, errs⟩ : parser) = p
  have ht : p.toks = [⟨Token.VariableOperator, "$"⟩, ⟨Token.Identifier, a⟩] ++
      (chainTokens links ++ rest) := by rw [← hp]; rfl
  have hi : p.idx = 0 := by rw [← hp]
  have h0 : p.current = ⟨Token.VariableOperator, "$"⟩ := by rw [← hp]; rfl
  have h1 : p.next.current = ⟨Token.Identifier, a⟩ := by rw [← hp]; rfl
  have h2 : p.next.next.current = (chainTokens links ++ rest).headD eofItem := by
    rw [current_at p.next.next _ _ 0 ht (by simp [parser.next, hi])]
    cases (chainTokens links ++ rest) <;> rfl
  rw [parseOperand_loop lookupSub (j + 2) p (by rw [h0]; rfl),
    parseOperandLoop_variable lookupSub j _ p (by rw [h0]) (by rw [h1])
      (by rw [h2]; exact hb) (by rw [h2]; exact hs), h1,
    parseOperandLoop_chain links (j + 1) _ p.next.next _ rest ht
      (by simp [parser.next, hi]) hr (by omega)]
  subst hp
  simp only [parser.next, Option.some.injEq, Prod.mk.injEq, true_and, parser.mk.injEq,
    and_true]
  omega

/-- C11 (amended), at `$a->b[0]::c`: the operand is
`ArrayLookup (ObjectLookup $a b) 0`, and the cursor rests on `]`, before
`::`. -/
theorem postfix_chain_folds_witness :
    parseOperand lookupSub 12
        ⟨[⟨Token.VariableOperator, "$"⟩, ⟨Token.Identifier, "a"⟩,
          ⟨Token.ObjectOperator, "->"⟩, ⟨Token.Identifier, "b"⟩,
          ⟨Token.ArrayLookupOperatorLeft, "["⟩, ⟨Token.NumberLiteral, "0"⟩,
          ⟨arrayLookupOperatorRight, "]"⟩,
          ⟨Token.ScopeResolutionOperator, "::"⟩, ⟨Token.Identifier, "c"⟩], 0, 0, []⟩ =
      some (Expr.ArrayLookup
          (Expr.ObjectLookup (Expr.Variable "a") (Expr.Identifier "b"))
          (Expr.Literal LiteralType.Float "0"),
        ⟨[⟨Token.VariableOperator, "$"⟩, ⟨Token.Identifier, "a"⟩,
          ⟨Token.ObjectOperator, "->"⟩, ⟨Token.Identifier, "b"⟩,
          ⟨Token.ArrayLookupOperatorLeft, "["⟩, ⟨Token.NumberLiteral, "0"⟩,
          ⟨arrayLookupOperatorRight, "]"⟩,
          ⟨Token.ScopeResolutionOperator, "::"⟩, ⟨Token.Identifier, "c"⟩], 6, 0, []⟩) :=
  (postfix_chain_folds "a" [Link.member "b", Link.index "0"]
    [⟨Token.ScopeResolutionOperator, "::"⟩, ⟨Token.Identifier, "c"⟩] 0 [] 12
    rfl (fun h => nomatch h) (by decide)).1

/-- C11 (as written), refuted at `$a->b[0]::c`: the chain
`Op -> m1 [ e ] :: m2` is not folded into a `ClassExpression` around the
array lookup; the operand returned is the array lookup itself and `:: c` is
left in the stream. -/
theorem postfix_chain_scope_link_not_folded :
    (parseOperand lookupSub 12
        ⟨[⟨Token.VariableOperator, "$"⟩, ⟨Token.Identifier, "a"⟩,
          ⟨Token.ObjectOperator, "->"⟩, ⟨Token.Identifier, "b"⟩,
          ⟨Token.ArrayLookupOperatorLeft, "["⟩, ⟨Token.NumberLiteral, "0"⟩,
          ⟨arrayLookupOperatorRight, "]"⟩,
          ⟨Token.ScopeResolutionOperator, "::"⟩, ⟨Token.Identifier, "c"⟩], 0, 0, []⟩).map
        (fun r => (r.1, r.2.idx)) =
      some (Expr.ArrayLookup
          (Expr.ObjectLookup (Expr.Variable "a") (Expr.Identifier "b"))
          (Expr.Literal LiteralType.Float "0"), 6) ∧
    ¬ ∃ (m : Expr) (q : parser),
      parseOperand lookupSub 12
        ⟨[⟨Token.VariableOperator, "$"⟩, ⟨Token.Identifier, "a"⟩,
          ⟨Token.ObjectOperator, "->"⟩, ⟨Token.Identifier, "b"⟩,
          ⟨Token.ArrayLookupOperatorLeft, "["⟩, ⟨Token.NumberLiteral, "0"⟩,
          ⟨arrayLookupOperatorRight, "]"⟩,
          ⟨Token.ScopeResolutionOperator, "::"⟩, ⟨Token.Identifier, "c"⟩], 0, 0, []⟩ =
        some (Expr.ClassExpression
          (Expr.ArrayLookup
            (Expr.ObjectLookup (Expr.Variable "a") (Expr.Identifier "b"))
            (Expr.Literal LiteralType.Float "0")) m, q) := by
  have h : parseOperand lookupSub 12
        ⟨[⟨Token.VariableOperator, "$"⟩, ⟨Token.Identifier, "a"⟩,
          ⟨Token.ObjectOperator, "->"⟩, ⟨Token.Identifier, "b"⟩,
          ⟨Token.ArrayLookupOperatorLeft, "["⟩, ⟨Token.NumberLiteral, "0"⟩,
          ⟨arrayLookupOperatorRight, "]"⟩,
          ⟨Token.ScopeResolutionOperator, "::"⟩, ⟨Token.Identifier, "c"⟩], 0, 0, []⟩ =
      some (Expr.ArrayLookup
          (Expr.ObjectLookup (Expr.Variable "a") (Expr.Identifier "b"))
          (Expr.Literal LiteralType.Float "0"),
        ⟨[⟨Token.VariableOperator, "$"⟩, ⟨Token.Identifier, "a"⟩,
          ⟨Token.ObjectOperator, "->"⟩, ⟨Token.Identifier, "b"⟩,
          ⟨Token.ArrayLookupOperatorLeft, "["⟩, ⟨Token.NumberLiteral, "0"⟩,
          ⟨arrayLookupOperatorRight, "]"⟩,
          ⟨Token.ScopeResolutionOperator, "::"⟩, ⟨Token.Identifier, "c"⟩], 6, 0, []⟩) := rfl
  refine ⟨by rw [h]; rfl, ?_⟩
  rintro ⟨m, q, hq⟩
  rw [h] at hq
  cases hq

/-! ## The same parse further down a stream -/

theorem parser.shift_current (pre : List Item) (p : parser) :
    (p.shift pre).current = p.current := by
  unfold parser.current parser.shift
  simp only []
  rw [Nat.add_comm, List.getD_append_right _ _ _ _ (by omega)]
  congr 1
  omega

theorem parser.shift_next (pre : List Item) (p : parser) :
    (p.shift pre).next = p.next.shift pre := by
  simp only [parser.next, parser.shift, parser.mk.injEq, and_true, true_and]
  omega

theorem parser.shift_peek (pre : List Item) (p : parser) :
    (p.shift pre).peek = p.peek := by
  unfold parser.peek
  rw [parser.shift_next, parser.shift_current]

theorem parser.shift_backup (pre : List Item) (p : parser) (h : 1 ≤ p.idx) :
    (p.shift pre).backup = p.backup.shift pre := by
  simp only [parser.backup, parser.shift, parser.mk.injEq, and_true, true_and]
  omega

theorem parser.shift_errorf (pre : List Item) (p : parser) (e : ParseError) :
    (p.shift pre).errorf e = (p.errorf e).shift pre := rfl

theorem parser.shift_expectCurrent (pre : List Item) (p : parser) (kinds : List Token) :
    (p.shift pre).expectCurrent kinds = (p.expectCurrent kinds).shift pre := by
  unfold parser.expectCurrent
  rw [parser.shift_current]
  split <;> rfl

theorem parser.shift_expect (pre : List Item) (p : parser) (kinds : List Token) :
    (p.shift pre).expect kinds = (p.expect kinds).shift pre := by
  unfold parser.expect
  rw [parser.shift_next, parser.shift_expectCurrent]

theorem parser.shift_parenLevel (pre : List Item) (p : parser) :
    (p.shift pre).parenLevel = p.parenLevel := rfl

theorem parser.shift_setParen (pre : List Item) (p : parser) (l : Int) :
    ({ toks := (p.shift pre).toks, idx := (p.shift pre).idx, parenLevel := l,
       errors := (p.shift pre).errors } : parser) =
      ({ toks := p.toks, idx := p.idx, parenLevel := l, errors := p.errors } : parser).shift
        pre := rfl

theorem parseLiteral_shift (pre : List Item) (p : parser) :
    parseLiteral (p.shift pre) = ((parseLiteral p).1, (parseLiteral p).2.shift pre) := by
  unfold parseLiteral
  rw [parser.shift_current]
  split <;> rfl

theorem checkParenLevel_shift (pre : List Item) (l : Int) (r : Expr × parser) :
    checkParenLevel l (r.1, r.2.shift pre) =
      ((checkParenLevel l r).1, (checkParenLevel l r).2.shift pre) := by
  unfold checkParenLevel
  show (if r.2.parenLevel ≠ l then _ else _) = _
  split <;> rfl

theorem Shifted_none (pre : List Item) : Shifted pre none none := rfl

theorem Shifted_some (pre : List Item) (e : Expr) (p : parser) :
    Shifted pre (some (e, p)) (some (e, p.shift pre)) := rfl

theorem Shifted_bind {pre : List Item} {x x' : Result} {g g' : Expr × parser → Result}
    (hx : Shifted pre x x')
    (hg : ∀ r, Shifted pre (g r) (g' (r.1, r.2.shift pre))) :
    Shifted pre (x.bind g) (x'.bind g') := by
  unfold Shifted at hx
  subst hx
  cases x with
  | none => rfl
  | some r => exact hg r

theorem Shifted_check {pre : List Item} {x x' : Result} (l : Int) (hx : Shifted pre x x') :
    Shifted pre (x.map (checkParenLevel l)) (x'.map (checkParenLevel l)) := by
  unfold Shifted at hx
  subst hx
  cases x with
  | none => rfl
  | some r =>
    show some (checkParenLevel l (r.1, r.2.shift pre)) = _
    rw [checkParenLevel_shift]
    rfl

theorem AllShift.shiftCallbacks {pre : List Item} {sub : SubParsers} {f : Nat}
    (h : AllShift pre sub f) : CallbacksShift pre (callbacksAt sub f) :=
  ⟨h.expression, h.operand, h.operation⟩

theorem allShift_zero (pre : List Item) (sub : SubParsers) : AllShift pre sub 0 where
  expression := fun _ => by unfold parseExpression; rfl
  nextExpression := fun _ => by unfold parseNextExpression; rfl
  operation := fun _ _ _ => by unfold parseOperation; rfl
  assignment := fun _ _ => by unfold parseAssignmentOperation; rfl
  operand := fun _ _ => by unfold parseOperand; rfl
  operandLoop := fun _ _ _ => by unfold parseOperandLoop; rfl
  parseVar := fun _ => by unfold parseVariable; rfl
  incl := fun _ => by unfold parseInclude; rfl
  includeLoop := fun _ _ => by unfold parseIncludeLoop; rfl
  ignoreError := fun _ => by unfold parseIgnoreError; rfl
  new := fun _ _ => by unfold parseNew; rfl

theorem allShift_succ_operation {pre : List Item} {sub : SubParsers} (hsub : SubShift pre sub)
    (f : Nat) (ih : AllShift pre sub f) (l : Int) (lhs : Expr) (p : parser) :
    Shifted pre (parseOperation sub (f + 1) l lhs p)
      (parseOperation sub (f + 1) l lhs (p.shift pre)) := by
  have hcb := ih.shiftCallbacks
  simp only [parseOperation, parser.shift_next, parser.shift_current]
  cases hc : sub.operationTypeForToken p.next.current.typ <;> simp only []
  · rw [parser.shift_backup pre p.next (by simp [parser.next])]
    exact Shifted_some pre _ _
  · exact Shifted_bind (hsub.parseUnaryExpressionLeft _ hcb _ _ _) (fun r => ih.operation _ _ _)
  · exact Shifted_bind (hsub.parseBinaryOperation _ hcb _ _ _ _) (fun r => ih.operation _ _ _)
  · exact Shifted_bind (hsub.parseTernaryOperation _ hcb _ _) (fun r => ih.operation _ _ _)
  · exact Shifted_bind (ih.assignment _ _) (fun r => ih.operation _ _ _)

theorem allShift_succ_assignment {pre : List Item} {sub : SubParsers}
    (f : Nat) (ih : AllShift pre sub f) (lhs : Expr) (p : parser) :
    Shifted pre (parseAssignmentOperation sub (f + 1) lhs p)
      (parseAssignmentOperation sub (f + 1) lhs (p.shift pre)) := by
  simp only [parseAssignmentOperation]
  cases Assignable lhs
  · simp only [Bool.false_eq_true, if_false, parser.shift_errorf, parser.shift_current]
    exact Shifted_bind (ih.nextExpression _) (fun r => Shifted_some pre _ _)
  · simp only [if_true, parser.shift_current]
    exact Shifted_bind (ih.nextExpression _) (fun r => Shifted_some pre _ _)

theorem allShift_succ_variable {pre : List Item} {sub : SubParsers}
    (f : Nat) (ih : AllShift pre sub f) (p : parser) :
    Shifted pre (parseVariable sub (f + 1) p) (parseVariable sub (f + 1) (p.shift pre)) := by
  simp only [parseVariable, parser.shift_expectCurrent, parser.shift_next,
    parser.shift_current]
  split
  · exact Shifted_some pre _ _
  · exact ih.expression _

theorem allShift_succ_includeLoop {pre : List Item} {sub : SubParsers}
    (f : Nat) (ih : AllShift pre sub f) (es : List Expr) (p : parser) :
    Shifted pre (parseIncludeLoop sub (f + 1) es p)
      (parseIncludeLoop sub (f + 1) es (p.shift pre)) := by
  simp only [parseIncludeLoop]
  refine Shifted_bind (ih.nextExpression _) (fun r => ?_)
  simp only [parser.shift_peek, parser.shift_expect]
  split
  · exact Shifted_some pre _ _
  · exact ih.includeLoop _ _

theorem allShift_succ_operand {pre : List Item} {sub : SubParsers} (hsub : SubShift pre sub)
    (f : Nat) (ih : AllShift pre sub f) (p : parser) (hp : operandSafe p) :
    Shifted pre (parseOperand sub (f + 1) p) (parseOperand sub (f + 1) (p.shift pre)) := by
  have hcb := ih.shiftCallbacks
  have hnext : operandSafe p.next := Or.inl (by simp [parser.next])
  have hloop : isPrefixKind p.current.typ = false → loopSafe p := fun h => by
    rcases hp with hp | hp | hp
    · exact Or.inl hp
    · rw [h] at hp; cases hp
    · exact Or.inr hp
  simp only [parseOperand, parser.shift_current, parser.shift_next]
  cases hc : p.current.typ <;> simp only [] <;> first
    | exact Shifted_bind (ih.operand _ hnext)
        (fun r => hsub.parseUnaryExpressionRight _ hcb _ _ _)
    | exact ih.operandLoop _ _ (hloop (by rw [hc]; rfl))

theorem allShift_succ_expression {pre : List Item} {sub : SubParsers} (hsub : SubShift pre sub)
    (f : Nat) (ih : AllShift pre sub f) (p : parser) :
    Shifted pre (parseExpression sub (f + 1) p) (parseExpression sub (f + 1) (p.shift pre)) := by
  have hcb := ih.shiftCallbacks
  simp only [parseExpression, parser.shift_current]
  show Shifted pre (Option.map (checkParenLevel p.parenLevel) _)
    (Option.map (checkParenLevel p.parenLevel) _)
  refine Shifted_check _ ?_
  cases hc : p.current.typ
  case OpenParen =>
    simp only [parser.shift_parenLevel, parser.shift_setParen, parser.shift_next]
    refine Shifted_bind (ih.expression _) (fun r => ?_)
    simp only [parser.shift_expect, parser.shift_parenLevel, parser.shift_setParen]
    exact ih.operation _ _ _
  all_goals simp only []
  all_goals first
    | exact ih.ignoreError _
    | exact ih.incl _
    | exact ih.new _ _
    | exact hsub.parseAnonymousFunction _ hcb _
    | exact hsub.parseList _ hcb _
    | exact Shifted_bind (ih.nextExpression _)
        (fun r => hsub.parseUnaryExpressionRight _ hcb _ _ _)
    | exact Shifted_bind (ih.operand _ (Or.inr (Or.inr (by rw [hc]; rfl))))
        (fun r => ih.operation _ _ _)
    | exact Shifted_some pre _ _

theorem allShift_succ_operandLoop {pre : List Item} {sub : SubParsers}
    (hsub : SubShift pre sub) (f : Nat) (ih : AllShift pre sub f) (e : Expr) (p : parser)
    (hp : loopSafe p) :
    Shifted pre (parseOperandLoop sub (f + 1) e p)
      (parseOperandLoop sub (f + 1) e (p.shift pre)) := by
  have hcb := ih.shiftCallbacks
  have hnext : ∀ q : parser, loopSafe q.next := fun q => Or.inl (by simp [parser.next])
  have hback : stopsOperand p.current.typ = true → 1 ≤ p.idx := fun h => by
    rcases hp with hp | hp
    · exact hp
    · rw [h] at hp; cases hp
  simp only [parseOperandLoop, parser.shift_current, parser.shift_next, parser.shift_peek,
    parser.shift_expect, parseLiteral_shift]
  cases hc : p.current.typ
  case VariableOperator =>
    simp only []
    refine Shifted_bind (ih.parseVar _) (fun r => ?_)
    simp only [parser.shift_next, parser.shift_current]
    cases hk : r.2.next.current.typ <;> simp only [] <;> first
      | exact ih.operandLoop _ _ (hnext _)
      | exact Shifted_bind (hsub.parseArrayLookup _ hcb _ _)
          (fun r1 => by
            simp only [parser.shift_next]
            exact ih.operandLoop _ _ (hnext _))
      | exact Shifted_bind (ih.nextExpression _)
          (fun r1 => by
            simp only [parser.shift_next]
            exact ih.operandLoop _ _ (hnext _))
  case Identifier =>
    simp only []
    cases hk : p.peek.typ <;> simp only [] <;> first
      | exact ih.operandLoop _ _ (hnext _)
      | exact Shifted_bind (hsub.parseFunctionCall _ hcb _ _)
          (fun r1 => by
            simp only [parser.shift_next]
            exact ih.operandLoop _ _ (hnext _))
      | exact Shifted_bind (ih.nextExpression _)
          (fun r1 => by
            simp only [parser.shift_next]
            exact ih.operandLoop _ _ (hnext _))
  case Self =>
    simp only []
    split
    · exact Shifted_bind (ih.nextExpression _) (fun r1 => Shifted_some pre _ _)
    · exact ih.operandLoop _ _ (hnext _)
  case Static =>
    simp only []
    split
    · exact Shifted_bind (ih.nextExpression _) (fun r1 => Shifted_some pre _ _)
    · exact ih.operandLoop _ _ (hnext _)
  case Parent =>
    simp only []
    split
    · exact Shifted_bind (ih.nextExpression _) (fun r1 => Shifted_some pre _ _)
    · exact ih.operandLoop _ _ (hnext _)
  all_goals simp only []
  all_goals first
    | exact Shifted_some pre _ _
    | exact ih.operandLoop _ _ (hnext _)
    | exact Shifted_bind (hsub.parseArrayDeclaration _ hcb _)
        (fun r1 => by
          simp only [parser.shift_next]
          exact ih.operandLoop _ _ (hnext _))
    | exact Shifted_bind (hsub.parseObjectLookup _ hcb _ _)
        (fun r1 => by
          simp only [parser.shift_next]
          exact ih.operandLoop _ _ (hnext _))
    | exact Shifted_bind (hsub.parseArrayLookup _ hcb _ _)
        (fun r1 => by
          simp only [parser.shift_next]
          exact ih.operandLoop _ _ (hnext _))
    | (rw [parser.shift_backup pre p (hback (by rw [hc]; rfl))]
       exact Shifted_some pre _ _)

theorem allShift_succ {pre : List Item} {sub : SubParsers} (hsub : SubShift pre sub) (f : Nat)
    (ih : AllShift pre sub f) : AllShift pre sub (f + 1) where
  expression := allShift_succ_expression hsub f ih
  nextExpression := fun p => by
    simp only [parseNextExpression, parser.shift_next]
    exact ih.expression _
  operation := allShift_succ_operation hsub f ih
  assignment := allShift_succ_assignment f ih
  operand := allShift_succ_operand hsub f ih
  operandLoop := allShift_succ_operandLoop hsub f ih
  parseVar := allShift_succ_variable f ih
  incl := fun p => by
    simp only [parseInclude]
    exact ih.includeLoop _ _
  includeLoop := allShift_succ_includeLoop f ih
  ignoreError := fun p => by
    simp only [parseIgnoreError, parser.shift_next]
    exact ih.expression _
  new := fun l p => by
    simp only [parseNew]
    exact Shifted_bind (hsub.parseInstantiation _ ih.shiftCallbacks _)
      (fun r => ih.operation _ _ _)

/-- Every function of the file does the same on a stream with `pre` in front
of it, provided the sub-parsers outside the file do. -/
theorem allShift {pre : List Item} {sub : SubParsers} (hsub : SubShift pre sub) :
    ∀ f, AllShift pre sub f
  | 0 => allShift_zero pre sub
  | f + 1 => allShift_succ hsub f (allShift hsub f)

theorem unsupported_shift (pre : List Item) (msg : String) (p : parser) :
    Shifted pre (unsupported msg p) (unsupported msg (p.shift pre)) := rfl

theorem specBinaryLoop_shift {pre : List Item} {cb : Callbacks} (hcb : CallbacksShift pre cb)
    (c : Nat) (l : Int) : ∀ (n : Nat) (rhs : Expr) (p : parser),
    Shifted pre (specBinaryLoop cb c l n rhs p) (specBinaryLoop cb c l n rhs (p.shift pre))
  | 0, _, _ => rfl
  | n + 1, rhs, p => by
    simp only [specBinaryLoop, parser.shift_peek]
    split
    · split
      · exact Shifted_bind (hcb.parseOperation _ _ _)
          (fun r => specBinaryLoop_shift hcb c l n _ _)
      · exact Shifted_some pre _ _
    · exact Shifted_some pre _ _

theorem specParseBinaryOperation_shift {pre : List Item} {cb : Callbacks}
    (hcb : CallbacksShift pre cb) (e : Expr) (op : Item) (l : Int) (p : parser) :
    Shifted pre (specParseBinaryOperation cb e op l p)
      (specParseBinaryOperation cb e op l (p.shift pre)) := by
  simp only [specParseBinaryOperation, parser.shift_next]
  exact Shifted_bind (hcb.parseOperand _ (Or.inl (by simp [parser.next])))
    (fun r => Shifted_bind (specBinaryLoop_shift hcb _ _ _ _ _)
      (fun r1 => Shifted_some pre _ _))

theorem bareSub_shift (pre : List Item) : SubShift pre bareSub where
  parseAnonymousFunction := fun _ _ _ => unsupported_shift pre _ _
  parseList := fun _ _ _ => unsupported_shift pre _ _
  parseInstantiation := fun _ _ _ => unsupported_shift pre _ _
  parseArrayDeclaration := fun _ _ _ => unsupported_shift pre _ _
  parseUnaryExpressionRight := fun _ _ _ _ _ => Shifted_some pre _ _
  parseUnaryExpressionLeft := fun _ _ _ _ _ => Shifted_some pre _ _
  parseBinaryOperation := fun _ hcb _ _ _ _ => specParseBinaryOperation_shift hcb _ _ _ _
  parseTernaryOperation := fun _ _ _ _ => unsupported_shift pre _ _
  parseArrayLookup := fun _ _ _ _ => unsupported_shift pre _ _
  parseObjectLookup := fun _ _ _ _ => unsupported_shift pre _ _
  parseFunctionCall := fun _ _ _ _ => unsupported_shift pre _ _

/-! ## Variables -/

/-- C19: on `$` followed by an identifier or a keyword token,
`parseVariable` returns the `Variable` named by the text of that token, the
cursor on it; on `$` followed by any other token it returns what
`parseExpression` returns when started on that token, expression and state,
with nothing wrapped around it; so for every token sequence `ts` that does
not start with an identifier or a keyword, parsing `$` followed by `ts`
yields the tree that parsing `ts` yields, in the state of that parse with the
`$` in front of the stream (the sub-parsers outside the file being taken to
do the same one token further down a stream). -/
theorem parseVariable_cases (sub : SubParsers) (f : Nat) (p : parser)
    (h0 : p.current.typ = Token.VariableOperator) :
    (sub.isKeyword p.next.current.typ = true ∨ p.next.current.typ = Token.Identifier →
      parseVariable sub (f + 1) p = some (Expr.Variable p.next.current.val, p.next)) ∧
    (sub.isKeyword p.next.current.typ = false → p.next.current.typ ≠ Token.Identifier →
      parseVariable sub (f + 1) p = parseExpression sub f p.next) ∧
    (∀ ts : List Item, SubShift [p.current] sub →
      sub.isKeyword (ts.headD eofItem).typ = false →
      (ts.headD eofItem).typ ≠ Token.Identifier →
      parseVariable sub (f + 1) (start (p.current :: ts)) =
          (parseExpression sub f (start ts)).map (fun r => (r.1, r.2.shift [p.current])) ∧
        (parseVariable sub (f + 1) (start (p.current :: ts))).map Prod.fst =
          (parseExpression sub f (start ts)).map Prod.fst) := by
  have hB : ∀ q : parser, q.current.typ = Token.VariableOperator →
      sub.isKeyword q.next.current.typ = false → q.next.current.typ ≠ Token.Identifier →
      parseVariable sub (f + 1) q = parseExpression sub f q.next := by
    intro q hq h1 h2
    have e : q.expectCurrent [Token.VariableOperator] = q := by
      simp [parser.expectCurrent, hq]
    rw [parseVariable]
    simp only [e]
    rw [if_neg]
    simp [h1, h2]
  have e : p.expectCurrent [Token.VariableOperator] = p := by
    simp [parser.expectCurrent, h0]
  refine ⟨?_, hB p h0, ?_⟩
  · intro h
    rw [parseVariable]
    simp only [e, NewVariable]
    rw [if_pos]
    rcases h with h | h
    · simp [h]
    · simp [h]
  · intro ts hsub h1 h2
    have hn : (start (p.current :: ts)).next.current = ts.headD eofItem := by
      cases ts <;> rfl
    have hs : (start (p.current :: ts)).next = (start ts).shift [p.current] := rfl
    have h3 : parseVariable sub (f + 1) (start (p.current :: ts)) =
        (parseExpression sub f (start ts)).map (fun r => (r.1, r.2.shift [p.current])) := by
      rw [hB (start (p.current :: ts)) h0 (by rw [hn]; exact h1) (by rw [hn]; exact h2), hs]
      exact (allShift hsub f).expression (start ts)
    refine ⟨h3, ?_⟩
    rw [h3, Option.map_map]
    rfl

theorem parseVariable_cases_witness :
    parseVariable bareSub 6
        (start [⟨Token.VariableOperator, "$"⟩, ⟨Token.VariableOperator, "$"⟩,
          ⟨Token.Identifier, "a"⟩]) =
      some (Expr.Variable "a",
        ⟨[⟨Token.VariableOperator, "$"⟩, ⟨Token.VariableOperator, "$"⟩,
          ⟨Token.Identifier, "a"⟩], 2, 0, []⟩) ∧
    parseExpression bareSub 5
        (start [⟨Token.VariableOperator, "$"⟩, ⟨Token.Identifier, "a"⟩]) =
      some (Expr.Variable "a",
        ⟨[⟨Token.VariableOperator, "$"⟩, ⟨Token.Identifier, "a"⟩], 1, 0, []⟩) ∧
    (parseVariable bareSub 10
        (start [⟨Token.VariableOperator, "$"⟩, ⟨Token.VariableOperator, "$"⟩,
          ⟨Token.Identifier, "a"⟩, ⟨Token.AdditionOperator, "+"⟩,
          ⟨Token.NumberLiteral, "1"⟩])).map Prod.fst =
      some (Expr.BinaryOperation (Expr.Variable "a") "+"
        (Expr.Literal LiteralType.Float "1")) ∧
    parseVariable bareSub 1
        (start [⟨Token.VariableOperator, "$"⟩, ⟨Token.List, "list"⟩]) =
      some (Expr.Variable "list",
        ⟨[⟨Token.VariableOperator, "$"⟩, ⟨Token.List, "list"⟩], 1, 0, []⟩) :=
  ⟨((parseVariable_cases bareSub 5
      (start [⟨Token.VariableOperator, "$"⟩, ⟨Token.VariableOperator, "$"⟩,
        ⟨Token.Identifier, "a"⟩]) rfl).2.1 rfl (by decide)).trans rfl,
   rfl,
   (((parseVariable_cases bareSub 9
      (start [⟨Token.VariableOperator, "$"⟩]) rfl).2.2
        [⟨Token.VariableOperator, "$"⟩, ⟨Token.Identifier, "a"⟩,
          ⟨Token.AdditionOperator, "+"⟩, ⟨Token.NumberLiteral, "1"⟩]
        (bareSub_shift _) rfl (by decide)).2).trans rfl,
   (parseVariable_cases bareSub 0
      (start [⟨Token.VariableOperator, "$"⟩, ⟨Token.List, "list"⟩]) rfl).1 (Or.inl rfl)⟩

/-! ## The cursor on return: the last token of the expression -/

theorem success_mid {p q r : parser} (h1 : ErrorsExtend p q) (h2 : ErrorsExtend q r)
    (hs : r.errors = p.errors) : q.errors = p.errors ∧ r.errors = q.errors := by
  obtain ⟨_, es1, he1, _⟩ := h1
  obtain ⟨_, es2, he2, _⟩ := h2
  have h : p.errors ++ (es1 ++ es2) = p.errors := by
    rw [← List.append_assoc, ← he1, ← he2, hs]
  have h' : es1 ++ es2 = [] := by simpa using h
  have h1' : es1 = [] := (List.append_eq_nil.mp h').1
  have h2' : es2 = [] := (List.append_eq_nil.mp h').2
  subst h1' h2'
  simp only [List.append_nil] at he1 he2
  exact ⟨he1, he2⟩

theorem success_errorf {p r : parser} {e : ParseError} (h : ErrorsExtend (p.errorf e) r)
    (hs : r.errors = p.errors) : False := by
  obtain ⟨_, es, he, _⟩ := h
  rw [hs] at he
  simp [parser.errorf] at he

theorem success_expectCurrent {q r : parser} {kinds : List Token}
    (h : ErrorsExtend (q.expectCurrent kinds) r) (hs : r.errors = q.errors) :
    q.current.typ ∈ kinds ∧ q.expectCurrent kinds = q := by
  by_cases hk : q.current.typ ∈ kinds
  · exact ⟨hk, by simp [parser.expectCurrent, hk]⟩
  · exfalso
    have e : q.expectCurrent kinds = q.errorf (ParseError.expected q.current kinds) := by
      simp [parser.expectCurrent, hk]
    rw [e] at h
    exact success_errorf h hs

theorem success_expect {q r : parser} {kinds : List Token}
    (h : ErrorsExtend (q.expect kinds) r) (hs : r.errors = q.errors) :
    q.next.current.typ ∈ kinds ∧ q.expect kinds = q.next :=
  success_expectCurrent (q := q.next) h hs

theorem success_check {p : parser} {l : Int} {r0 : Expr × parser}
    (h1 : ErrorsExtend p r0.2) (hs : (checkParenLevel l r0).2.errors = p.errors) :
    checkParenLevel l r0 = r0 := by
  unfold checkParenLevel at hs ⊢
  split
  · exfalso
    rw [if_pos (by assumption)] at hs
    obtain ⟨_, es, he, _⟩ := h1
    simp [parser.errorf, he] at hs
  · rfl

theorem current_eq_tokenAt (p : parser) : p.current = tokenAt p.toks p.idx := rfl

theorem allSpans_zero (sub : SubParsers) : AllSpans sub 0 where
  expression := fun _ _ h => by rw [parseExpression] at h; cases h
  nextExpression := fun _ _ h => by rw [parseNextExpression] at h; cases h
  operation := fun _ _ _ _ _ _ h => by rw [parseOperation] at h; cases h
  assignment := fun _ _ _ _ _ _ h => by rw [parseAssignmentOperation] at h; cases h
  operand := fun _ _ _ h => by rw [parseOperand] at h; cases h
  operandLoop := fun _ _ _ _ _ _ h => by rw [parseOperandLoop] at h; cases h
  parseVar := fun _ _ h => by rw [parseVariable] at h; cases h
  incl := fun _ _ _ h => by rw [parseInclude] at h; cases h
  includeLoop := fun _ _ _ _ _ h => by rw [parseIncludeLoop] at h; cases h
  ignoreError := fun _ _ _ h => by rw [parseIgnoreError] at h; cases h
  new := fun _ _ _ _ h => by rw [parseNew] at h; cases h

theorem allSpans_succ_operation {sub : SubParsers} (hE : SubRespects ErrorsExtend sub)
    (f : Nat) (ih : AllSpans sub f) (l : Int) (lhs : Expr) (i : Nat) (p : parser)
    (r : Expr × parser) (hl : Spans sub p.toks lhs i (p.idx + 1))
    (h : parseOperation sub (f + 1) l lhs p = some r) (hs : r.2.errors = p.errors) :
    Spans sub p.toks r.1 i (r.2.idx + 1) := by
  have E := allRespect stable_errorsExtend hE f
  have hcbE := E.respectCallbacks
  have fin : ∀ (r1 : Expr × parser), ErrorsExtend p.next r1.2 →
      (r1.2.errors = p.errors → Spans sub p.toks r1.1 i (r1.2.idx + 1)) →
      parseOperation sub f l r1.1 r1.2 = some r → Spans sub p.toks r.1 i (r.2.idx + 1) := by
    intro r1 e1 sp h2
    have e2 := E.operation _ _ r1.2 r1.2 (errorsExtend_refl _) r h2
    obtain ⟨s1, s2⟩ := success_mid e1 e2 hs
    have t1 : r1.2.toks = p.toks := e1.1
    have := ih.operation l r1.1 i r1.2 r (by rw [t1]; exact sp s1) h2 s2
    rw [t1] at this
    exact this
  simp only [parseOperation] at h
  cases hc : sub.operationTypeForToken p.next.current.typ <;> rw [hc] at h <;> simp only at h
  · cases h
    rw [parser.backup_next]
    exact hl
  · obtain ⟨r1, h1, h2⟩ := Option.bind_eq_some.mp h
    have e1 := hE.parseUnaryExpressionLeft _ hcbE _ _ p.next p.next (errorsExtend_refl _) r1 h1
    exact fin r1 e1 (fun s1 => Spans.unaryOperation f lhs i p.next r1 rfl hc hl h1 s1) h2
  · obtain ⟨r1, h1, h2⟩ := Option.bind_eq_some.mp h
    have e1 := hE.parseBinaryOperation _ hcbE _ _ _ p.next p.next (errorsExtend_refl _) r1 h1
    exact fin r1 e1 (fun s1 => Spans.binaryOperation f lhs l i p.next r1 rfl hc hl h1 s1) h2
  · obtain ⟨r1, h1, h2⟩ := Option.bind_eq_some.mp h
    have e1 := hE.parseTernaryOperation _ hcbE _ p.next p.next (errorsExtend_refl _) r1 h1
    exact fin r1 e1 (fun s1 => Spans.ternaryOperation f lhs i p.next r1 rfl hc hl h1 s1) h2
  · obtain ⟨r1, h1, h2⟩ := Option.bind_eq_some.mp h
    have e1 := E.assignment _ p.next p.next (errorsExtend_refl _) r1 h1
    exact fin r1 e1 (fun s1 => ih.assignment lhs i p.next r1 hl hc h1 s1) h2

theorem allSpans_succ_assignment {sub : SubParsers} (hE : SubRespects ErrorsExtend sub)
    (f : Nat) (ih : AllSpans sub f) (lhs : Expr) (i : Nat) (p : parser)
    (r : Expr × parser) (hl : Spans sub p.toks lhs i p.idx)
    (hc : sub.operationTypeForToken p.current.typ = operationType.assignmentOperation)
    (h : parseAssignmentOperation sub (f + 1) lhs p = some r) (hs : r.2.errors = p.errors) :
    Spans sub p.toks r.1 i (r.2.idx + 1) := by
  have E := allRespect stable_errorsExtend hE f
  simp only [parseAssignmentOperation] at h
  cases ha : Assignable lhs
  · exfalso
    simp only [ha, Bool.false_eq_true, if_false] at h
    obtain ⟨r1, h1, h2⟩ := Option.bind_eq_some.mp h
    cases h2
    have e1 := E.nextExpression _ _ (errorsExtend_refl _) r1 h1
    exact success_errorf e1 hs
  · simp only [ha, if_true] at h
    obtain ⟨r1, h1, h2⟩ := Option.bind_eq_some.mp h
    cases h2
    exact Spans.assignment lhs r1.1 i p.idx (r1.2.idx + 1) hl ha hc
      (ih.nextExpression p r1 h1 hs)

theorem allSpans_succ_operandLoop {sub : SubParsers} (hF : SubForward sub)
    (hE : SubRespects ErrorsExtend sub) (f : Nat) (ih : AllSpans sub f) (e : Expr) (i : Nat)
    (p : parser) (r : Expr × parser) (safe : loopSafe p) (hsp : Spans sub p.toks e i p.idx)
    (h : parseOperandLoop sub (f + 1) e p = some r) (hs : r.2.errors = p.errors) :
    Spans sub p.toks r.1 i (r.2.idx + 1) := by
  have E := allRespect stable_errorsExtend hE f
  have hcbE := E.respectCallbacks
  have F := allForward hF f
  have hcbF := F.forwardCallbacks
  have tail : ∀ (e1 : Expr) (q : parser), ErrorsExtend p q →
      (q.errors = p.errors → Spans sub p.toks e1 i (q.idx + 1)) →
      parseOperandLoop sub f e1 q.next = some r → Spans sub p.toks r.1 i (r.2.idx + 1) := by
    intro e1 q e1q sp h2
    have e2 : ErrorsExtend q r.2 := E.operandLoop e1 q.next q.next (errorsExtend_refl _) r h2
    obtain ⟨s1, s2⟩ := success_mid e1q e2 hs
    have t1 : q.next.toks = p.toks := e1q.1
    have := ih.operandLoop e1 i q.next r (Or.inl (by simp [parser.next]))
      (by rw [t1]; exact sp s1) h2 s2
    rw [t1] at this
    exact this
  have fresh : ∀ (x : Expr) (j : Nat), p.idx < j → Spans sub p.toks x p.idx j →
      Spans sub p.toks x i j :=
    fun x j hj hx => Spans.juxtaposed e x i p.idx j hsp hj hx
  have nextE : ∀ (q : parser) (r1 : Expr × parser), ErrorsExtend p q →
      parseNextExpression sub f q = some r1 →
      ErrorsExtend p r1.2 ∧ ErrorsExtend q r1.2 ∧ q.idx + 1 ≤ r1.2.idx :=
    fun q r1 eq h1 =>
      ⟨E.nextExpression p q eq r1 h1, E.nextExpression q q (errorsExtend_refl _) r1 h1, by
        have := (F.nextExpression 1 q q (Reach.refl q) r1 h1).2
        omega⟩
  simp only [parseOperandLoop] at h
  cases hc : p.current.typ
  case ShellCommand =>
    simp only [hc] at h
    cases h
    exact fresh _ _ (Nat.lt_succ_self _) (Spans.shellCommand p.idx hc)
  case StringLiteral =>
    simp only [hc, parseLiteral] at h
    cases h
    exact fresh _ _ (Nat.lt_succ_self _)
      (Spans.literal LiteralType.String p.idx (by rw [← current_eq_tokenAt, hc]; rfl))
  case BooleanLiteral =>
    simp only [hc, parseLiteral] at h
    cases h
    exact fresh _ _ (Nat.lt_succ_self _)
      (Spans.literal LiteralType.Boolean p.idx (by rw [← current_eq_tokenAt, hc]; rfl))
  case NumberLiteral =>
    simp only [hc, parseLiteral] at h
    cases h
    exact fresh _ _ (Nat.lt_succ_self _)
      (Spans.literal LiteralType.Float p.idx (by rw [← current_eq_tokenAt, hc]; rfl))
  case Null =>
    simp only [hc, parseLiteral] at h
    cases h
    exact fresh _ _ (Nat.lt_succ_self _)
      (Spans.literal LiteralType.Null p.idx (by rw [← current_eq_tokenAt, hc]; rfl))
  case UnaryOperator =>
    simp only [hc] at h
    exact tail _ p (errorsExtend_refl p) (fun _ => Spans.unaryAfter e i p.idx hsp hc) h
  case Array =>
    simp only [hc] at h
    obtain ⟨r1, h1, h2⟩ := Option.bind_eq_some.mp h
    have e1 := hE.parseArrayDeclaration _ hcbE p p (errorsExtend_refl _) r1 h1
    have f1 := reach_le (hF.parseArrayDeclaration _ hcbF p r1 h1)
    exact tail r1.1 r1.2 e1
      (fun s1 => fresh _ _ (by omega) (Spans.arrayDeclaration f p r1 rfl hc h1 s1)) h2
  case ObjectOperator =>
    simp only [hc] at h
    obtain ⟨r1, h1, h2⟩ := Option.bind_eq_some.mp h
    have e1 := hE.parseObjectLookup _ hcbE e p p (errorsExtend_refl _) r1 h1
    exact tail r1.1 r1.2 e1 (fun s1 => Spans.objectLookup f e i p r1 rfl hc hsp h1 s1) h2
  case ArrayLookupOperatorLeft =>
    simp only [hc] at h
    obtain ⟨r1, h1, h2⟩ := Option.bind_eq_some.mp h
    have e1 := hE.parseArrayLookup _ hcbE e p p (errorsExtend_refl _) r1 h1
    exact tail r1.1 r1.2 e1
      (fun s1 => Spans.arrayLookup f e i p r1 rfl (Or.inl hc) hsp h1 s1) h2
  case VariableOperator =>
    simp only [hc] at h
    obtain ⟨rv, hv, h2⟩ := Option.bind_eq_some.mp h
    have ev : ErrorsExtend p rv.2 := E.parseVar p p (errorsExtend_refl _) rv hv
    have fv := (F.parseVar 1 p p (Reach.refl p) rv hv).2
    have sacc : rv.2.errors = p.errors → Spans sub p.toks rv.1 i (rv.2.idx + 1) :=
      fun s => fresh _ _ (by omega) (ih.parseVar p rv hv s)
    have tv : rv.2.next.toks = p.toks := ev.1
    cases hk : rv.2.next.current.typ
    case BlockBegin =>
      simp only [hk] at h2
      obtain ⟨r1, h1, h3⟩ := Option.bind_eq_some.mp h2
      have e1 := hE.parseArrayLookup _ hcbE rv.1 p rv.2.next ev r1 h1
      have e1' : ErrorsExtend rv.2 r1.2 :=
        hE.parseArrayLookup _ hcbE rv.1 rv.2.next rv.2.next (errorsExtend_refl _) r1 h1
      exact tail r1.1 r1.2 e1 (fun s1 =>
        Spans.arrayLookup f rv.1 i rv.2.next r1 tv (Or.inr hk)
          (sacc (success_mid ev e1' s1).1) h1 (success_mid ev e1' s1).2) h3
    case ScopeResolutionOperator =>
      simp only [hk] at h2
      obtain ⟨r1, h1, h3⟩ := Option.bind_eq_some.mp h2
      obtain ⟨e1, e1', _⟩ := nextE rv.2.next r1 ev h1
      exact tail _ r1.2 e1 (fun s1 =>
        Spans.scope rv.1 r1.1 i (rv.2.idx + 1) (r1.2.idx + 1)
          (sacc (success_mid ev e1' s1).1) (by rw [← tv]; exact hk)
          (by
            have := ih.nextExpression rv.2.next r1 h1 (success_mid ev e1' s1).2
            rw [tv] at this
            exact this)) h3
    all_goals
      simp only [hk] at h2
      exact tail rv.1 rv.2 ev sacc h2
  case Identifier =>
    simp only [hc] at h
    cases hk : p.peek.typ
    case OpenParen =>
      simp only [hk] at h
      obtain ⟨r1, h1, h2⟩ := Option.bind_eq_some.mp h
      have e1 := hE.parseFunctionCall _ hcbE _ p p (errorsExtend_refl _) r1 h1
      have f1 := reach_le (hF.parseFunctionCall _ hcbF _ p r1 h1)
      exact tail r1.1 r1.2 e1
        (fun s1 => fresh _ _ (by omega) (Spans.functionCall f p r1 rfl hc hk h1 s1)) h2
    case ScopeResolutionOperator =>
      simp only [hk] at h
      obtain ⟨r1, h1, h2⟩ := Option.bind_eq_some.mp h
      obtain ⟨e1, _, f1⟩ := nextE p.next r1 (errorsExtend_refl p) h1
      simp only [parser.next_idx] at f1
      exact tail _ r1.2 e1 (fun s1 => fresh _ _ (by omega)
        (Spans.scope _ r1.1 p.idx (p.idx + 1) (r1.2.idx + 1)
          (Spans.className p.idx (Or.inl hc)) hk (ih.nextExpression p.next r1 h1 s1))) h2
    all_goals
      simp only [hk] at h
      exact tail _ p (errorsExtend_refl p)
        (fun _ => fresh _ _ (Nat.lt_succ_self _) (Spans.constant p.idx hc)) h
  case Self =>
    simp only [hc] at h
    split at h
    · rename_i hk
      rw [expect_found p _ hk] at h
      obtain ⟨r1, h1, h2⟩ := Option.bind_eq_some.mp h
      cases h2
      obtain ⟨_, _, f1⟩ := nextE p.next r1 (errorsExtend_refl p) h1
      simp only [parser.next_idx] at f1
      exact fresh _ _ (by show p.idx < r1.2.idx + 1; omega)
        (Spans.scope _ r1.1 p.idx (p.idx + 1) (r1.2.idx + 1)
          (Spans.className p.idx (Or.inr (by rw [← current_eq_tokenAt, hc]; rfl))) hk
          (ih.nextExpression p.next r1 h1 hs))
    · rename_i hk
      exact tail e p (errorsExtend_refl p)
        (fun _ => Spans.bareKeyword e i p.idx hsp (by rw [← current_eq_tokenAt, hc]; rfl) hk) h
  case Static =>
    simp only [hc] at h
    split at h
    · rename_i hk
      rw [expect_found p _ hk] at h
      obtain ⟨r1, h1, h2⟩ := Option.bind_eq_some.mp h
      cases h2
      obtain ⟨_, _, f1⟩ := nextE p.next r1 (errorsExtend_refl p) h1
      simp only [parser.next_idx] at f1
      exact fresh _ _ (by show p.idx < r1.2.idx + 1; omega)
        (Spans.scope _ r1.1 p.idx (p.idx + 1) (r1.2.idx + 1)
          (Spans.className p.idx (Or.inr (by rw [← current_eq_tokenAt, hc]; rfl))) hk
          (ih.nextExpression p.next r1 h1 hs))
    · rename_i hk
      exact tail e p (errorsExtend_refl p)
        (fun _ => Spans.bareKeyword e i p.idx hsp (by rw [← current_eq_tokenAt, hc]; rfl) hk) h
  case Parent =>
    simp only [hc] at h
    split at h
    · rename_i hk
      rw [expect_found p _ hk] at h
      obtain ⟨r1, h1, h2⟩ := Option.bind_eq_some.mp h
      cases h2
      obtain ⟨_, _, f1⟩ := nextE p.next r1 (errorsExtend_refl p) h1
      simp only [parser.next_idx] at f1
      exact fresh _ _ (by show p.idx < r1.2.idx + 1; omega)
        (Spans.scope _ r1.1 p.idx (p.idx + 1) (r1.2.idx + 1)
          (Spans.className p.idx (Or.inr (by rw [← current_eq_tokenAt, hc]; rfl))) hk
          (ih.nextExpression p.next r1 h1 hs))
    · rename_i hk
      exact tail e p (errorsExtend_refl p)
        (fun _ => Spans.bareKeyword e i p.idx hsp (by rw [← current_eq_tokenAt, hc]; rfl) hk) h
  all_goals
    simp only [hc] at h
    cases h
    have h1 : 1 ≤ p.idx := by
      rcases safe with hp | hp
      · exact hp
      · rw [hc] at hp; cases hp
    have h2 : p.backup.idx + 1 = p.idx := by
      simp only [parser.backup]
      omega
    rw [h2]
    exact hsp

theorem allSpans_succ_operand {sub : SubParsers} (hE : SubRespects ErrorsExtend sub)
    (f : Nat) (ih : AllSpans sub f) (p : parser) (r : Expr × parser) (safe : operandSafe p)
    (h : parseOperand sub (f + 1) p = some r) (hs : r.2.errors = p.errors) :
    Spans sub p.toks r.1 p.idx (r.2.idx + 1) := by
  have E := allRespect stable_errorsExtend hE f
  have hcbE := E.respectCallbacks
  have wrap : isPrefixKind p.current.typ = true →
      ((parseOperand sub f p.next).bind fun r1 =>
        sub.parseUnaryExpressionRight (callbacksAt sub f) r1.1 p.current r1.2) = some r →
      Spans sub p.toks r.1 p.idx (r.2.idx + 1) := by
    intro hk h
    obtain ⟨r1, h1, h2⟩ := Option.bind_eq_some.mp h
    have e1 : ErrorsExtend p r1.2 := E.operand p.next p.next (errorsExtend_refl _) r1 h1
    have e2 := hE.parseUnaryExpressionRight _ hcbE _ _ r1.2 r1.2 (errorsExtend_refl _) r h2
    obtain ⟨s1, s2⟩ := success_mid e1 e2 hs
    exact Spans.unaryBefore f r1.1 p.idx r1.2 r e1.1 hk
      (ih.operand p.next r1 (Or.inl (by simp [parser.next])) h1 s1) h2 s2
  have loop : isPrefixKind p.current.typ = false →
      parseOperandLoop sub f Expr.nil p = some r →
      Spans sub p.toks r.1 p.idx (r.2.idx + 1) := by
    intro hk h
    refine ih.operandLoop Expr.nil p.idx p r ?_ (Spans.empty p.idx) h hs
    rcases safe with hp | hp | hp
    · exact Or.inl hp
    · rw [hk] at hp; cases hp
    · exact Or.inr hp
  simp only [parseOperand] at h
  cases hc : p.current.typ <;> simp only [hc] at h <;> first
    | exact wrap (by rw [hc]; rfl) h
    | exact loop (by rw [hc]; rfl) h

theorem allSpans_succ_variable {sub : SubParsers} (hE : SubRespects ErrorsExtend sub)
    (f : Nat) (ih : AllSpans sub f) (p : parser) (r : Expr × parser)
    (h : parseVariable sub (f + 1) p = some r) (hs : r.2.errors = p.errors) :
    Spans sub p.toks r.1 p.idx (r.2.idx + 1) := by
  have E := allRespect stable_errorsExtend hE f
  simp only [parseVariable] at h
  have key : ErrorsExtend (p.expectCurrent [Token.VariableOperator]) r.2 := by
    split at h
    · cases h
      exact errorsExtend_refl _
    · exact E.expression (p.expectCurrent [Token.VariableOperator]) _
        (stable_errorsExtend.next _ _ (errorsExtend_refl _)) r h
  obtain ⟨hm, he⟩ := success_expectCurrent key hs
  have hd : (tokenAt p.toks p.idx).typ = Token.VariableOperator := by
    simpa using hm
  rw [he] at h
  split at h
  · rename_i hk
    cases h
    refine Spans.var p.idx hd ?_
    simpa using hk
  · rename_i hk
    simp only [Bool.or_eq_true, decide_eq_true_eq, not_or, Bool.not_eq_true] at hk
    exact Spans.dollar r.1 p.idx _ hd hk.1 hk.2 (ih.expression p.next r h hs)

theorem allSpans_succ_includeLoop {sub : SubParsers} (hE : SubRespects ErrorsExtend sub)
    (f : Nat) (ih : AllSpans sub f) (es : List Expr) (i : Nat) (p : parser)
    (r : Expr × parser)
    (inv : (es = [] ∧ i = p.idx ∧ p.current.typ = Token.Include) ∨
      (Spans sub p.toks (Expr.Include es) i p.idx ∧ p.current.typ = Token.Comma))
    (h : parseIncludeLoop sub (f + 1) es p = some r) (hs : r.2.errors = p.errors) :
    Spans sub p.toks r.1 i (r.2.idx + 1) := by
  have E := allRespect stable_errorsExtend hE f
  simp only [parseIncludeLoop] at h
  obtain ⟨r1, h1, h2⟩ := Option.bind_eq_some.mp h
  have e1 : ErrorsExtend p r1.2 := E.nextExpression p p (errorsExtend_refl _) r1 h1
  have spI : r1.2.errors = p.errors →
      Spans sub p.toks (Expr.Include (es ++ [r1.1])) i (r1.2.idx + 1) := by
    intro s1
    rcases inv with ⟨he, hi, hc⟩ | ⟨hI, hc⟩
    · subst he hi
      exact Spans.includeFirst r1.1 p.idx _ hc (ih.nextExpression p r1 h1 s1)
    · exact Spans.includeNext es r1.1 i p.idx _ hI hc (ih.nextExpression p r1 h1 s1)
  split at h2
  · cases h2
    exact spI hs
  · rename_i hk
    have hk' : r1.2.next.current.typ = Token.Comma := by
      simpa [parser.peek] using hk
    rw [expect_found r1.2 _ hk'] at h2
    have e2 : ErrorsExtend r1.2 r.2 :=
      E.includeLoop _ r1.2.next r1.2.next (errorsExtend_refl _) r h2
    obtain ⟨s1, s2⟩ := success_mid e1 e2 hs
    have t1 : r1.2.next.toks = p.toks := e1.1
    have := ih.includeLoop (es ++ [r1.1]) i r1.2.next r
      (Or.inr ⟨by rw [t1]; exact spI s1, hk'⟩) h2 s2
    rw [t1] at this
    exact this

theorem switch_spans {sub : SubParsers} (hE : SubRespects ErrorsExtend sub)
    (f : Nat) (ih : AllSpans sub f) (p : parser) (r : Expr × parser)
    (h : parseExpressionSwitch sub f p = some r) :
    ErrorsExtend p r.2 ∧ (r.2.errors = p.errors → Spans sub p.toks r.1 p.idx (r.2.idx + 1)) := by
  have E := allRespect stable_errorsExtend hE f
  have hcbE := E.respectCallbacks
  have wrap : isPrefixKind p.current.typ = true →
      ((parseNextExpression sub f p).bind fun r1 =>
        sub.parseUnaryExpressionRight (callbacksAt sub f) r1.1 p.current r1.2) = some r →
      ErrorsExtend p r.2 ∧
        (r.2.errors = p.errors → Spans sub p.toks r.1 p.idx (r.2.idx + 1)) := by
    intro hk h
    obtain ⟨r1, h1, h2⟩ := Option.bind_eq_some.mp h
    have e1 : ErrorsExtend p r1.2 := E.nextExpression p p (errorsExtend_refl _) r1 h1
    have e2 := hE.parseUnaryExpressionRight _ hcbE _ _ r1.2 r1.2 (errorsExtend_refl _) r h2
    refine ⟨hE.parseUnaryExpressionRight _ hcbE _ _ p r1.2 e1 r h2, fun hs => ?_⟩
    obtain ⟨s1, s2⟩ := success_mid e1 e2 hs
    exact Spans.unaryBefore f r1.1 p.idx r1.2 r e1.1 hk (ih.nextExpression p r1 h1 s1) h2 s2
  have operand : isOperandStart p.current.typ = true →
      ((parseOperand sub f p).bind fun r1 =>
        parseOperation sub f p.parenLevel r1.1 r1.2) = some r →
      ErrorsExtend p r.2 ∧
        (r.2.errors = p.errors → Spans sub p.toks r.1 p.idx (r.2.idx + 1)) := by
    intro hk h
    obtain ⟨r1, h1, h2⟩ := Option.bind_eq_some.mp h
    have e1 : ErrorsExtend p r1.2 := E.operand p p (errorsExtend_refl _) r1 h1
    have e2 := E.operation _ _ r1.2 r1.2 (errorsExtend_refl _) r h2
    refine ⟨E.operation _ _ p r1.2 e1 r h2, fun hs => ?_⟩
    obtain ⟨s1, s2⟩ := success_mid e1 e2 hs
    have safe : operandSafe p := Or.inr (Or.inr (by
      revert hk
      cases p.current.typ <;> simp [isOperandStart, stopsOperand]))
    have t1 : r1.2.toks = p.toks := e1.1
    have := ih.operation p.parenLevel r1.1 p.idx r1.2 r
      (by rw [t1]; exact ih.operand p r1 safe h1 s1) h2 s2
    rw [t1] at this
    exact this
  unfold parseExpressionSwitch at h
  simp only at h
  cases hc : p.current.typ
  case IgnoreErrorOperator =>
    simp only [hc] at h
    exact ⟨E.ignoreError p p (errorsExtend_refl _) r h, fun hs => ih.ignoreError p r hc h hs⟩
  case Function =>
    simp only [hc] at h
    exact ⟨hE.parseAnonymousFunction _ hcbE p p (errorsExtend_refl _) r h,
      fun hs => Spans.anonymousFunction f p r rfl hc h hs⟩
  case NewOperator =>
    simp only [hc] at h
    exact ⟨E.new _ p p (errorsExtend_refl _) r h, fun hs => ih.new _ p r hc h hs⟩
  case List =>
    simp only [hc] at h
    exact ⟨hE.parseList _ hcbE p p (errorsExtend_refl _) r h,
      fun hs => Spans.list f p r rfl hc h hs⟩
  case Include =>
    simp only [hc] at h
    exact ⟨E.incl p p (errorsExtend_refl _) r h, fun hs => ih.incl p r hc h hs⟩
  case OpenParen =>
    simp only [hc] at h
    obtain ⟨r1, h1, h2⟩ := Option.bind_eq_some.mp h
    have e1 : ErrorsExtend p r1.2 :=
      E.expression p { p with parenLevel := p.parenLevel + 1 }.next (errorsExtend_refl p) r1 h1
    have e2 : ErrorsExtend r1.2 r.2 :=
      E.operation _ _ r1.2
        { r1.2.expect [Token.CloseParen] with
          parenLevel := (r1.2.expect [Token.CloseParen]).parenLevel - 1 }
        (stable_errorsExtend.stExpect r1.2 r1.2 [Token.CloseParen] (errorsExtend_refl _)) r h2
    have e3 : ErrorsExtend (r1.2.expect [Token.CloseParen]) r.2 :=
      E.operation _ _ (r1.2.expect [Token.CloseParen])
        { r1.2.expect [Token.CloseParen] with
          parenLevel := (r1.2.expect [Token.CloseParen]).parenLevel - 1 }
        (errorsExtend_refl (r1.2.expect [Token.CloseParen])) r h2
    refine ⟨E.operation _ _ p
      { r1.2.expect [Token.CloseParen] with
        parenLevel := (r1.2.expect [Token.CloseParen]).parenLevel - 1 }
      (stable_errorsExtend.stExpect p r1.2 [Token.CloseParen] e1) r h2, fun hs => ?_⟩
    obtain ⟨s1, s2⟩ := success_mid e1 e2 hs
    obtain ⟨hm, hx⟩ := success_expect e3 s2
    have hclose : (tokenAt p.toks (r1.2.idx + 1)).typ = Token.CloseParen := by
      have : r1.2.next.current.typ = Token.CloseParen := by simpa using hm
      rw [← e1.1]
      exact this
    rw [hx] at h2
    have sp1 : Spans sub p.toks r1.1 (p.idx + 1) (r1.2.idx + 1) :=
      ih.expression { p with parenLevel := p.parenLevel + 1 }.next r1 h1 s1
    have t1 : r1.2.toks = p.toks := e1.1
    have := ih.operation p.parenLevel r1.1 p.idx
      { r1.2.next with parenLevel := r1.2.next.parenLevel - 1 } r
      (by
        show Spans sub r1.2.toks r1.1 p.idx (r1.2.idx + 1 + 1)
        rw [t1]
        exact Spans.paren r1.1 p.idx (r1.2.idx + 1) hc sp1 hclose) h2 s2
    rw [show ({ r1.2.next with parenLevel := r1.2.next.parenLevel - 1 } : parser).toks =
      p.toks from t1] at this
    exact this
  all_goals
    simp only [hc] at h
    first
    | exact wrap (by rw [hc]; rfl) h
    | exact operand (by rw [hc]; rfl) h
    | (cases h
       exact ⟨stable_errorsExtend.errorf p p _ (errorsExtend_refl p)
           (Raised.expectedExpression p (by rw [hc]; rfl)),
         fun hs => (success_errorf (errorsExtend_refl _) hs).elim⟩)

theorem allSpans_succ_expression {sub : SubParsers} (hE : SubRespects ErrorsExtend sub)
    (f : Nat) (ih : AllSpans sub f) (p : parser) (r : Expr × parser)
    (h : parseExpression sub (f + 1) p = some r) (hs : r.2.errors = p.errors) :
    Spans sub p.toks r.1 p.idx (r.2.idx + 1) := by
  rw [parseExpression_eq_switch] at h
  obtain ⟨r0, h0, h1⟩ := Option.map_eq_some'.mp h
  obtain ⟨e0, sp⟩ := switch_spans hE f ih p r0 h0
  subst h1
  have hc := success_check e0 hs
  rw [hc] at hs ⊢
  exact sp hs

theorem allSpans_succ {sub : SubParsers} (hF : SubForward sub)
    (hE : SubRespects ErrorsExtend sub) (f : Nat) (ih : AllSpans sub f) :
    AllSpans sub (f + 1) where
  expression := allSpans_succ_expression hE f ih
  nextExpression := fun p r h hs => by
    simp only [parseNextExpression] at h
    exact ih.expression p.next r h hs
  operation := allSpans_succ_operation hE f ih
  assignment := allSpans_succ_assignment hE f ih
  operand := allSpans_succ_operand hE f ih
  operandLoop := allSpans_succ_operandLoop hF hE f ih
  parseVar := allSpans_succ_variable hE f ih
  incl := fun p r hc h hs => by
    simp only [parseInclude] at h
    exact ih.includeLoop [] p.idx p r (Or.inl ⟨rfl, rfl, hc⟩) h hs
  includeLoop := allSpans_succ_includeLoop hE f ih
  ignoreError := fun p r hc h hs => by
    simp only [parseIgnoreError] at h
    exact Spans.ignoreError r.1 p.idx _ hc (ih.expression p.next r h hs)
  new := fun l p r hc h hs => by
    have E := allRespect stable_errorsExtend hE f
    simp only [parseNew] at h
    obtain ⟨r1, h1, h2⟩ := Option.bind_eq_some.mp h
    have e1 := hE.parseInstantiation _ E.respectCallbacks p p (errorsExtend_refl _) r1 h1
    have e2 := E.operation _ _ r1.2 r1.2 (errorsExtend_refl _) r h2
    obtain ⟨s1, s2⟩ := success_mid e1 e2 hs
    have t1 : r1.2.toks = p.toks := e1.1
    have := ih.operation l r1.1 p.idx r1.2 r
      (by rw [t1]; exact Spans.instantiation f p r1 rfl hc h1 s1) h2 s2
    rw [t1] at this
    exact this

/-- Every function of the file returns on success with the cursor on the last
token of the expression it returns, the sub-parsers outside the file keeping
the token stream, moving forward and only appending errors. -/
theorem allSpans {sub : SubParsers} (hF : SubForward sub)
    (hE : SubRespects ErrorsExtend sub) : ∀ f, AllSpans sub f
  | 0 => allSpans_zero sub
  | f + 1 => allSpans_succ hF hE f (allSpans hF hE f)

/-! ## The cursor on return -/

/-- C1: when `parseExpression` returns without having recorded an error, the
tokens from the cursor of the entry up to and including the cursor of the
return are the tokens of the expression returned (`Spans`): the cursor is on
the last token of the expression, and the next advance delivers the first
token that is not part of it.  Whether it succeeds or not,
`parseExpression` keeps the token stream, returns with the cursor on or after
the token it was entered on, and has read no token beyond the one after the
cursor of the return: over any other stream that delivers the same tokens up
to there, the run returns the same expression with the same cursor, paren
counter and errors.  This holds whatever branch the switch takes, the
sub-parsers outside the file being taken to keep the stream, move forward,
read no further and only append errors. -/
theorem parseExpression_cursor (sub : SubParsers) (hsub : SubLocal sub)
    (herr : SubRespects ErrorsExtend sub) (fuel : Nat)
    (p : parser) (r : Expr × parser) (h : parseExpression sub fuel p = some r) :
    r.2.toks = p.toks ∧ p.idx ≤ r.2.idx ∧
    (r.2.errors = p.errors →
      Spans sub p.toks r.1 p.idx (r.2.idx + 1) ∧
      r.2.next.current = tokenAt p.toks (r.2.idx + 1)) ∧
    ∀ toks', (∀ i, i ≤ r.2.idx + 1 → toks'.getD i eofItem = p.toks.getD i eofItem) →
      parseExpression sub fuel { p with toks := toks' } =
        some (r.1, { r.2 with toks := toks' }) := by
  have hf := (allForward hsub.forward fuel).expression 1 p p (Reach.refl p) r h
  refine ⟨hf.1, reach_le hf, fun hs =>
    ⟨(allSpans hsub.forward herr fuel).expression p r h hs, ?_⟩, fun toks' hag => ?_⟩
  · rw [current_eq_tokenAt, ← hf.1]
    rfl
  have hs : Sim (r.2.idx + 1) p { p with toks := toks' } := ⟨rfl, rfl, rfl, hag⟩
  obtain ⟨r', e1, s1⟩ := (allLocal hsub fuel).expression _ _ _ hs r h (Nat.le_refl _)
  have ht : r'.toks = toks' :=
    ((allForward hsub.forward fuel).expression 1 _ _ (Reach.refl _) _ e1).1
  rw [e1]
  obtain ⟨t1, i1, l1, er1⟩ := r'
  have h1 := s1.idx
  have h2 := s1.parenLevel
  have h3 := s1.errors
  simp only at ht h1 h2 h3
  subst ht h1 h2 h3
  rfl

theorem parseExpression_cursor_witness :
    parseExpression bareSub 10
        (start [⟨Token.NumberLiteral, "1"⟩, ⟨Token.AdditionOperator, "+"⟩,
          ⟨Token.NumberLiteral, "2"⟩, ⟨Token.CloseParen, ")"⟩,
          ⟨Token.NumberLiteral, "3"⟩]) =
      some (Expr.BinaryOperation (Expr.Literal LiteralType.Float "1") "+"
          (Expr.Literal LiteralType.Float "2"),
        ⟨[⟨Token.NumberLiteral, "1"⟩, ⟨Token.AdditionOperator, "+"⟩,
          ⟨Token.NumberLiteral, "2"⟩, ⟨Token.CloseParen, ")"⟩,
          ⟨Token.NumberLiteral, "3"⟩], 2, 0, []⟩) ∧
    Spans bareSub
        [⟨Token.NumberLiteral, "1"⟩, ⟨Token.AdditionOperator, "+"⟩,
          ⟨Token.NumberLiteral, "2"⟩, ⟨Token.CloseParen, ")"⟩,
          ⟨Token.NumberLiteral, "3"⟩]
        (Expr.BinaryOperation (Expr.Literal LiteralType.Float "1") "+"
          (Expr.Literal LiteralType.Float "2")) 0 3 ∧
    parseExpression bareSub 10
        (start [⟨Token.NumberLiteral, "1"⟩, ⟨Token.AdditionOperator, "+"⟩,
          ⟨Token.NumberLiteral, "2"⟩, ⟨Token.CloseParen, ")"⟩,
          ⟨Token.MultOperator, "*"⟩, ⟨Token.NumberLiteral, "4"⟩]) =
      some (Expr.BinaryOperation (Expr.Literal LiteralType.Float "1") "+"
          (Expr.Literal LiteralType.Float "2"),
        ⟨[⟨Token.NumberLiteral, "1"⟩, ⟨Token.AdditionOperator, "+"⟩,
          ⟨Token.NumberLiteral, "2"⟩, ⟨Token.CloseParen, ")"⟩,
          ⟨Token.MultOperator, "*"⟩, ⟨Token.NumberLiteral, "4"⟩], 2, 0, []⟩) :=
  ⟨rfl,
   ((parseExpression_cursor bareSub bareSub_local bareSub_errorsExtend 10
    (start [⟨Token.NumberLiteral, "1"⟩, ⟨Token.AdditionOperator, "+"⟩,
      ⟨Token.NumberLiteral, "2"⟩, ⟨Token.CloseParen, ")"⟩, ⟨Token.NumberLiteral, "3"⟩])
    (Expr.BinaryOperation (Expr.Literal LiteralType.Float "1") "+"
        (Expr.Literal LiteralType.Float "2"),
      ⟨[⟨Token.NumberLiteral, "1"⟩, ⟨Token.AdditionOperator, "+"⟩,
        ⟨Token.NumberLiteral, "2"⟩, ⟨Token.CloseParen, ")"⟩,
        ⟨Token.NumberLiteral, "3"⟩], 2, 0, []⟩) rfl).2.2.1 rfl).1,
   (parseExpression_cursor bareSub bareSub_local bareSub_errorsExtend 10
    (start [⟨Token.NumberLiteral, "1"⟩, ⟨Token.AdditionOperator, "+"⟩,
      ⟨Token.NumberLiteral, "2"⟩, ⟨Token.CloseParen, ")"⟩, ⟨Token.NumberLiteral, "3"⟩])
    (Expr.BinaryOperation (Expr.Literal LiteralType.Float "1") "+"
        (Expr.Literal LiteralType.Float "2"),
      ⟨[⟨Token.NumberLiteral, "1"⟩, ⟨Token.AdditionOperator, "+"⟩,
        ⟨Token.NumberLiteral, "2"⟩, ⟨Token.CloseParen, ")"⟩,
        ⟨Token.NumberLiteral, "3"⟩], 2, 0, []⟩) rfl).2.2.2
    [⟨Token.NumberLiteral, "1"⟩, ⟨Token.AdditionOperator, "+"⟩,
      ⟨Token.NumberLiteral, "2"⟩, ⟨Token.CloseParen, ")"⟩,
      ⟨Token.MultOperator, "*"⟩, ⟨Token.NumberLiteral, "4"⟩]
    (by decide)⟩

/-! ## What `Spans` excludes -/

theorem tokenAt_kinds (k : Nat) :
    (tokenAt [⟨Token.NumberLiteral, "1"⟩, ⟨Token.CloseParen, ")"⟩,
        ⟨Token.NumberLiteral, "3"⟩] k).typ = Token.NumberLiteral ∨
      (tokenAt [⟨Token.NumberLiteral, "1"⟩, ⟨Token.CloseParen, ")"⟩,
        ⟨Token.NumberLiteral, "3"⟩] k).typ = Token.CloseParen ∨
      (tokenAt [⟨Token.NumberLiteral, "1"⟩, ⟨Token.CloseParen, ")"⟩,
        ⟨Token.NumberLiteral, "3"⟩] k).typ = Token.EOF := by
  match k with
  | 0 => exact Or.inl rfl
  | 1 => exact Or.inr (Or.inl rfl)
  | 2 => exact Or.inl rfl
  | _ + 3 => exact Or.inr (Or.inr rfl)

theorem spans_ends_on_literal (e : Expr) (i j : Nat)
    (h : Spans bareSub [⟨Token.NumberLiteral, "1"⟩, ⟨Token.CloseParen, ")"⟩,
      ⟨Token.NumberLiteral, "3"⟩] e i j) :
    (e = Expr.nil ∧ j = i) ∨
      (0 < j ∧ (tokenAt [⟨Token.NumberLiteral, "1"⟩, ⟨Token.CloseParen, ")"⟩,
        ⟨Token.NumberLiteral, "3"⟩] (j - 1)).typ = Token.NumberLiteral) := by
  induction h with
  | empty i => exact Or.inl ⟨rfl, rfl⟩
  | bareKeyword e i k _ hk _ _ =>
    rcases tokenAt_kinds k with c | c | c <;> rw [c] at hk <;> cases hk
  | literal ty i hk =>
    refine Or.inr ⟨Nat.succ_pos _, ?_⟩
    rcases tokenAt_kinds i with c | c | c
    · exact c
    · rw [c] at hk; cases hk
    · rw [c] at hk; cases hk
  | shellCommand i hk =>
    rcases tokenAt_kinds i with c | c | c <;> rw [c] at hk <;> cases hk
  | var i hk _ =>
    rcases tokenAt_kinds i with c | c | c <;> rw [c] at hk <;> cases hk
  | dollar e i j hk _ _ _ _ =>
    rcases tokenAt_kinds i with c | c | c <;> rw [c] at hk <;> cases hk
  | ignoreError e i j hk _ _ =>
    rcases tokenAt_kinds i with c | c | c <;> rw [c] at hk <;> cases hk
  | paren e i k hk _ _ _ =>
    rcases tokenAt_kinds i with c | c | c <;> rw [c] at hk <;> cases hk
  | constant i hk =>
    rcases tokenAt_kinds i with c | c | c <;> rw [c] at hk <;> cases hk
  | className i hk =>
    rcases tokenAt_kinds i with c | c | c <;> rw [c] at hk <;>
      rcases hk with hk | hk <;> cases hk
  | scope receiver member i k j _ hk _ _ _ =>
    rcases tokenAt_kinds k with c | c | c <;> rw [c] at hk <;> cases hk
  | assignment lhs rhs i k j _ _ hk _ _ _ =>
    rcases tokenAt_kinds k with c | c | c <;> rw [c] at hk <;> cases hk
  | includeFirst e i j hk _ _ =>
    rcases tokenAt_kinds i with c | c | c <;> rw [c] at hk <;> cases hk
  | includeNext es e i k j _ hk _ _ _ =>
    rcases tokenAt_kinds k with c | c | c <;> rw [c] at hk <;> cases hk
  | juxtaposed e0 e i k j _ hkj _ _ ih =>
    rcases ih with ⟨_, hj⟩ | ih
    · omega
    · exact Or.inr ih
  | unaryAfter e i k _ hk _ =>
    rcases tokenAt_kinds k with c | c | c <;> rw [c] at hk <;> cases hk
  | anonymousFunction f p r ht hk _ _ =>
    rw [current_eq_tokenAt, ht] at hk
    rcases tokenAt_kinds p.idx with c | c | c <;> rw [c] at hk <;> cases hk
  | list f p r ht hk _ _ =>
    rw [current_eq_tokenAt, ht] at hk
    rcases tokenAt_kinds p.idx with c | c | c <;> rw [c] at hk <;> cases hk
  | instantiation f p r ht hk _ _ =>
    rw [current_eq_tokenAt, ht] at hk
    rcases tokenAt_kinds p.idx with c | c | c <;> rw [c] at hk <;> cases hk
  | arrayDeclaration f p r ht hk _ _ =>
    rw [current_eq_tokenAt, ht] at hk
    rcases tokenAt_kinds p.idx with c | c | c <;> rw [c] at hk <;> cases hk
  | functionCall f p r ht hk _ _ _ =>
    rw [current_eq_tokenAt, ht] at hk
    rcases tokenAt_kinds p.idx with c | c | c <;> rw [c] at hk <;> cases hk
  | unaryBefore f e i q r _ hk _ _ _ _ =>
    rcases tokenAt_kinds i with c | c | c <;> rw [c] at hk <;> cases hk
  | unaryOperation f lhs i p r ht hk _ _ _ _ =>
    rw [current_eq_tokenAt, ht] at hk
    rcases tokenAt_kinds p.idx with c | c | c <;> rw [c] at hk <;> cases hk
  | binaryOperation f lhs l i p r ht hk _ _ _ _ =>
    rw [current_eq_tokenAt, ht] at hk
    rcases tokenAt_kinds p.idx with c | c | c <;> rw [c] at hk <;> cases hk
  | ternaryOperation f lhs i p r ht hk _ _ _ _ =>
    rw [current_eq_tokenAt, ht] at hk
    rcases tokenAt_kinds p.idx with c | c | c <;> rw [c] at hk <;> cases hk
  | arrayLookup f receiver i p r ht hk _ _ _ _ =>
    rw [current_eq_tokenAt, ht] at hk
    rcases tokenAt_kinds p.idx with c | c | c <;> rw [c] at hk <;>
      rcases hk with hk | hk <;> cases hk
  | objectLookup f receiver i p r ht hk _ _ _ _ =>
    rw [current_eq_tokenAt, ht] at hk
    rcases tokenAt_kinds p.idx with c | c | c <;> rw [c] at hk <;> cases hk

/-- On `1 ) 3` the tokens `1 )` are not the tokens of the literal `1`: a
return with the cursor on the `)` that was only looked at would not be a
return with the cursor on the last token of the expression. -/
theorem spans_excludes_lookahead :
    ¬ Spans bareSub [⟨Token.NumberLiteral, "1"⟩, ⟨Token.CloseParen, ")"⟩,
        ⟨Token.NumberLiteral, "3"⟩] (Expr.Literal LiteralType.Float "1") 0 2 ∧
    ¬ Spans bareSub [⟨Token.NumberLiteral, "1"⟩, ⟨Token.CloseParen, ")"⟩,
        ⟨Token.NumberLiteral, "3"⟩] (Expr.Literal LiteralType.Float "1") 0 0 ∧
    Spans bareSub [⟨Token.NumberLiteral, "1"⟩, ⟨Token.CloseParen, ")"⟩,
        ⟨Token.NumberLiteral, "3"⟩] (Expr.Literal LiteralType.Float "1") 0 1 := by
  refine ⟨fun h => ?_, fun h => ?_, Spans.literal LiteralType.Float 0 rfl⟩
  · rcases spans_ends_on_literal _ _ _ h with ⟨h1, _⟩ | ⟨_, h2⟩
    · cases h1
    · cases h2
  · rcases spans_ends_on_literal _ _ _ h with ⟨h1, _⟩ | ⟨h2, _⟩
    · cases h1
    · cases h2

/-! ## Binary operators after an operand that begins with a prefix operator -/

/-- C5: on `- 1 + 2 * 3` the operand `a` is `- 1` (`parseOperand` resolves it
to `UnaryExpression(-, 1)` and stops before `+`), yet `parseExpression` does
not return `BinaryOperation(a, +, BinaryOperation(2, *, 3))`: the prefix case
of its switch wraps the whole of `1 + 2 * 3`.  Likewise on `- 1 * 2 + 3` it
does not return `BinaryOperation(BinaryOperation(a, *, 2), +, 3)`. -/
theorem precedence_under_leading_minus :
    parseOperand (specSub bareSub) 10
        (start [⟨Token.SubtractionOperator, "-"⟩, ⟨Token.NumberLiteral, "1"⟩,
          ⟨Token.AdditionOperator, "+"⟩, ⟨Token.NumberLiteral, "2"⟩,
          ⟨Token.MultOperator, "*"⟩, ⟨Token.NumberLiteral, "3"⟩]) =
      some (Expr.UnaryExpression "-" (Expr.Literal LiteralType.Float "1") true,
        ⟨[⟨Token.SubtractionOperator, "-"⟩, ⟨Token.NumberLiteral, "1"⟩,
          ⟨Token.AdditionOperator, "+"⟩, ⟨Token.NumberLiteral, "2"⟩,
          ⟨Token.MultOperator, "*"⟩, ⟨Token.NumberLiteral, "3"⟩], 1, 0, []⟩) ∧
    parseExpression (specSub bareSub) 10
        (start [⟨Token.SubtractionOperator, "-"⟩, ⟨Token.NumberLiteral, "1"⟩,
          ⟨Token.AdditionOperator, "+"⟩, ⟨Token.NumberLiteral, "2"⟩,
          ⟨Token.MultOperator, "*"⟩, ⟨Token.NumberLiteral, "3"⟩]) =
      some (Expr.UnaryExpression "-"
          (Expr.BinaryOperation (Expr.Literal LiteralType.Float "1") "+"
            (Expr.BinaryOperation (Expr.Literal LiteralType.Float "2") "*"
              (Expr.Literal LiteralType.Float "3"))) true,
        ⟨[⟨Token.SubtractionOperator, "-"⟩, ⟨Token.NumberLiteral, "1"⟩,
          ⟨Token.AdditionOperator, "+"⟩, ⟨Token.NumberLiteral, "2"⟩,
          ⟨Token.MultOperator, "*"⟩, ⟨Token.NumberLiteral, "3"⟩], 5, 0, []⟩) ∧
    parseExpression (specSub bareSub) 10
        (start [⟨Token.SubtractionOperator, "-"⟩, ⟨Token.NumberLiteral, "1"⟩,
          ⟨Token.MultOperator, "*"⟩, ⟨Token.NumberLiteral, "2"⟩,
          ⟨Token.AdditionOperator, "+"⟩, ⟨Token.NumberLiteral, "3"⟩]) =
      some (Expr.UnaryExpression "-"
          (Expr.BinaryOperation
            (Expr.BinaryOperation (Expr.Literal LiteralType.Float "1") "*"
              (Expr.Literal LiteralType.Float "2")) "+"
            (Expr.Literal LiteralType.Float "3")) true,
        ⟨[⟨Token.SubtractionOperator, "-"⟩, ⟨Token.NumberLiteral, "1"⟩,
          ⟨Token.MultOperator, "*"⟩, ⟨Token.NumberLiteral, "2"⟩,
          ⟨Token.AdditionOperator, "+"⟩, ⟨Token.NumberLiteral, "3"⟩], 5, 0, []⟩) :=
  ⟨rfl, rfl, rfl⟩

/-- C6: on `- 1 - 2 - 3` the operand `a` is `- 1` (`parseOperand` resolves it
to `UnaryExpression(-, 1)` and stops before the second `-`), yet
`parseExpression` does not return
`BinaryOperation(BinaryOperation(a, -, 2), -, 3)`: the prefix case of its
switch wraps the whole of `1 - 2 - 3`. -/
theorem left_assoc_under_leading_minus :
    parseOperand (specSub bareSub) 10
        (start [⟨Token.SubtractionOperator, "-"⟩, ⟨Token.NumberLiteral, "1"⟩,
          ⟨Token.SubtractionOperator, "-"⟩, ⟨Token.NumberLiteral, "2"⟩,
          ⟨Token.SubtractionOperator, "-"⟩, ⟨Token.NumberLiteral, "3"⟩]) =
      some (Expr.UnaryExpression "-" (Expr.Literal LiteralType.Float "1") true,
        ⟨[⟨Token.SubtractionOperator, "-"⟩, ⟨Token.NumberLiteral, "1"⟩,
          ⟨Token.SubtractionOperator, "-"⟩, ⟨Token.NumberLiteral, "2"⟩,
          ⟨Token.SubtractionOperator, "-"⟩, ⟨Token.NumberLiteral, "3"⟩], 1, 0, []⟩) ∧
    parseExpression (specSub bareSub) 10
        (start [⟨Token.SubtractionOperator, "-"⟩, ⟨Token.NumberLiteral, "1"⟩,
          ⟨Token.SubtractionOperator, "-"⟩, ⟨Token.NumberLiteral, "2"⟩,
          ⟨Token.SubtractionOperator, "-"⟩, ⟨Token.NumberLiteral, "3"⟩]) =
      some (Expr.UnaryExpression "-"
          (Expr.BinaryOperation
            (Expr.BinaryOperation (Expr.Literal LiteralType.Float "1") "-"
              (Expr.Literal LiteralType.Float "2")) "-"
            (Expr.Literal LiteralType.Float "3")) true,
        ⟨[⟨Token.SubtractionOperator, "-"⟩, ⟨Token.NumberLiteral, "1"⟩,
          ⟨Token.SubtractionOperator, "-"⟩, ⟨Token.NumberLiteral, "2"⟩,
          ⟨Token.SubtractionOperator, "-"⟩, ⟨Token.NumberLiteral, "3"⟩], 5, 0, []⟩) :=
  ⟨rfl, rfl⟩

end Php
